import Mathlib

/-!
DangerFromTheDeep: the two-dimensional vector `bivector<T>` (src/base/bivector.hpp).

Shallow embedding.  `int` values are integers (`Int`); the operator `&` acts on their
32-bit patterns and the products that give an element count wrap to 32 bits
(`int_mul`); coordinates and flat indices inside a grid whose element count fits an `int`
are exact.  `std::vector<T>` is `List T`.  A computation that can throw returns `Except Error _`.  An unchecked
`std::vector::operator[]` outside the vector has no defined behaviour in C++; it is
reported as `Error.undefined` so that "succeeds" always means "no exception and no
out-of-bounds access".
-/

/-! ## Definitions -/

/-- The exceptions thrown by the code (`std::invalid_argument`, `std::out_of_range`,
`std::length_error`), and `undefined` for an unchecked access outside the storage. -/
inductive Error where
  | invalid_argument
  | out_of_range
  | length_error
  | undefined
  deriving DecidableEq, Repr

/-- Integer pair `vector2i`.  Its header vector2.hpp is not among the sources; the code
uses the members `x`, `y`, value-initialisation `{}` (taken as `(0,0)`) and the
component-wise operations modelled below. -/
structure vector2i where
  x : Int
  y : Int
  deriving DecidableEq, Repr

/-- Modelled from the spec: `vector2i::min` (vector2.hpp is missing), the element-wise
minimum of two sizes. -/
def vector2i.min (a b : vector2i) : vector2i := ⟨Min.min a.x b.x, Min.min a.y b.y⟩

/-- Modelled from the spec: `vector2i::operator+` (vector2.hpp is missing), component-wise. -/
def vector2i.add (a b : vector2i) : vector2i := ⟨a.x + b.x, a.y + b.y⟩

/-- Class `bivector<T>`: `datasize` and the flat `data`. -/
structure bivector (T : Type) where
  datasize : vector2i
  data : List T
  deriving DecidableEq, Repr

/-- What a parameter `const bivector<T>& other` of a member call refers to: a grid distinct
from the receiver, or the receiver itself. -/
inductive grid_ref (T : Type) where
  | distinct (o : bivector T)
  | receiver

/-- The grid a reference designates while the receiver is in the state `cur`. -/
def grid_ref.deref {T : Type} (ref : grid_ref T) (cur : bivector T) : bivector T :=
  match ref with
  | .distinct o => o
  | .receiver => cur

/-- The value of an `int` expression whose exact result is `a`: the 32-bit two's-complement
wrap-around into `[-2^31, 2^31)`.  (Signed overflow is undefined in C++; the compilers
this code is built with wrap.) -/
def int_wrap (a : Int) : Int := (a + 2 ^ 31) % 2 ^ 32 - 2 ^ 31

/-- The `int` product `a * b`. -/
def int_mul (a b : Int) : Int := int_wrap (a * b)

/-- `std::vector<T>(n, v)` called with an `int` count `n` (a value in `[-2^31, 2^31)`).
The count is converted to `size_t`; a negative `int` becomes a value of at least
`2^64 - 2^31`, above `max_size()`, and the constructor throws `std::length_error`. -/
def vector_n {T : Type} (n : Int) (v : T) : Except Error (List T) :=
  if n < 0 then .error .length_error else .ok (List.replicate n.toNat v)

/-- Unchecked `data[i]` used as an rvalue. -/
def vec_get {T : Type} (d : List T) (i : Int) : Except Error T :=
  if 0 ≤ i then
    match d[i.toNat]? with
    | some v => .ok v
    | none => .error .undefined
  else .error .undefined

/-- Unchecked `data[i] = v`. -/
def vec_set {T : Type} (d : List T) (i : Int) (v : T) : Except Error (List T) :=
  if 0 ≤ i ∧ i < d.length then .ok (d.set i.toNat v) else .error .undefined

/-- The loop `for (int i = lo; ...; ++i) body`, run for `n` iterations starting at `i`;
it stops at the first iteration that fails. -/
def loopN {ε σ : Type} : Nat → Int → (Int → σ → Except ε σ) → σ → Except ε σ
  | 0, _, _, s => .ok s
  | n + 1, i, body, s =>
    match body i s with
    | .ok s' => loopN n (i + 1) body s'
    | .error e => .error e

/-- The loop `for (int i = lo; i < hi; ++i) body` (the body changes neither `i` nor
`hi`, so it runs `max 0 (hi - lo)` times). -/
def forLoop {ε σ : Type} (lo hi : Int) (body : Int → σ → Except ε σ) (s : σ) : Except ε σ :=
  loopN (hi - lo).toNat lo body s

/-- The operator `&` on two `int` values: the bitwise and of the 32-bit two's-complement
patterns, read back as a signed value. -/
def int_and (a b : Int) : Int :=
  let r : Nat := Nat.land (a % 2 ^ 32).toNat (b % 2 ^ 32).toNat
  if r < 2 ^ 31 then (r : Int) else (r : Int) - 2 ^ 32

/-- The function `std::min(a, b)` of the C++ standard library: `b` if `b < a`, else `a`. -/
def std_min {T : Type} [LT T] [DecidableRel (fun a b : T => a < b)] (a b : T) : T :=
  if b < a then b else a

/-- The function `std::max(a, b)` of the C++ standard library: `b` if `a < b`, else `a`. -/
def std_max {T : Type} [LT T] [DecidableRel (fun a b : T => a < b)] (a b : T) : T :=
  if a < b then b else a

/-- The function `std::abs(v)` of the C++ standard library: `-v` for a negative `v`, the
minus being that of the element type (exact on the integers or a field, wrapping on the
32-bit `int32`, where `std::abs(INT_MIN)` stays `INT_MIN`). -/
def std_abs {T : Type} [LT T] [DecidableRel (fun a b : T => a < b)] [Zero T] [Neg T]
    (v : T) : T :=
  if v < 0 then -v else v

/-- The element type `int` (32 bits, two's complement): a value in `[-2^31, 2^31)`. -/
structure int32 where
  val : Int
  deriving DecidableEq, Repr

instance : LT int32 := ⟨fun a b => a.val < b.val⟩

instance : DecidableRel (fun a b : int32 => a < b) :=
  fun a b => inferInstanceAs (Decidable (a.val < b.val))

instance : Zero int32 := ⟨⟨0⟩⟩

/-- Unary minus on `int` wraps around: `-INT_MIN` is `INT_MIN`. -/
instance : Neg int32 := ⟨fun a => ⟨int_wrap (-a.val)⟩⟩

/-- The element type `unsigned` (32 bits): a value in `[0, 2^32)`. -/
structure uint32 where
  val : Nat
  deriving DecidableEq, Repr

instance : Inhabited uint32 := ⟨⟨0⟩⟩

/-- The arithmetic of the element type behind the expression `T((a + b) * 0.5)`: the sum
is formed in `T`, multiplied by the `double` 0.5 and converted back to `T`. -/
class half_sum_arith (T : Type) where
  half_sum : T → T → T

/-- Exact arithmetic: over a field `T((a + b) * 0.5)` is `(a + b) / 2`. -/
instance field_half_sum {T : Type} [Field T] : half_sum_arith T :=
  ⟨fun a b => (a + b) * 2⁻¹⟩

/-- On `unsigned` the sum `a + b` wraps modulo `2^32`; its product with 0.5 is exact in
`double` and the conversion back to `unsigned` truncates. -/
instance uint32_half_sum : half_sum_arith uint32 :=
  ⟨fun a b => ⟨(a.val + b.val) % 2 ^ 32 / 2⟩⟩

namespace bivector

variable {T : Type}

/-- The constructor `bivector(const vector2i& sz, const T& v = T())`.  The member
initialisers `datasize(sz), data(sz.x * sz.y, v)` run before the body's check; the count
`sz.x * sz.y` is an `int` product. -/
def ctor (sz : vector2i) (v : T) : Except Error (bivector T) :=
  match vector_n (int_mul sz.x sz.y) v with
  | .error e => .error e
  | .ok d =>
    if sz.x < 0 ∨ sz.y < 0 then .error .invalid_argument
    else .ok ⟨sz, d⟩

/-- The member `size()`. -/
def size (g : bivector T) : vector2i := g.datasize

/-- The reference `at(int x, int y)` returns, as the flat index it designates:
the check `x >= datasize.x || y >= datasize.y`, then `data[x + y * datasize.x]`. -/
def at_xy (g : bivector T) (x y : Int) : Except Error Nat :=
  if x ≥ g.datasize.x ∨ y ≥ g.datasize.y then .error .out_of_range
  else if 0 ≤ x + y * g.datasize.x ∧ x + y * g.datasize.x < g.data.length then
    .ok (x + y * g.datasize.x).toNat
  else .error .undefined

/-- The reference `at(const vector2i& p)` returns, as the flat index it designates. -/
def at_p (g : bivector T) (p : vector2i) : Except Error Nat :=
  if p.x ≥ g.datasize.x ∨ p.y ≥ g.datasize.y then .error .out_of_range
  else if 0 ≤ p.x + p.y * g.datasize.x ∧ p.x + p.y * g.datasize.x < g.data.length then
    .ok (p.x + p.y * g.datasize.x).toNat
  else .error .undefined

/-- The reference `operator[](const vector2i& p)` returns (no check), as a flat index. -/
def index (g : bivector T) (p : vector2i) : Except Error Nat :=
  if 0 ≤ p.x + p.y * g.datasize.x ∧ p.x + p.y * g.datasize.x < g.data.length then
    .ok (p.x + p.y * g.datasize.x).toNat
  else .error .undefined

/-- Reading through a reference into `data`. -/
def load (g : bivector T) (r : Except Error Nat) : Except Error T :=
  match r with
  | .error e => .error e
  | .ok i =>
    match g.data[i]? with
    | some v => .ok v
    | none => .error .undefined

/-- Writing through a reference into `data`. -/
def store (g : bivector T) (r : Except Error Nat) (v : T) : Except Error (bivector T) :=
  match r with
  | .error e => .error e
  | .ok i => .ok ⟨g.datasize, g.data.set i v⟩

/-- The rvalue `at(x, y)`. -/
def at_get (g : bivector T) (x y : Int) : Except Error T := g.load (g.at_xy x y)

/-- The rvalue `at(p)`. -/
def at_p_get (g : bivector T) (p : vector2i) : Except Error T := g.load (g.at_p p)

/-- The rvalue `(*this)[p]`. -/
def index_get (g : bivector T) (p : vector2i) : Except Error T := g.load (g.index p)

/-- The assignment `(*this)[p] = v`. -/
def index_set (g : bivector T) (p : vector2i) (v : T) : Except Error (bivector T) :=
  g.store (g.index p) v

/-- The member `for_each_xy(func) const`: `func(data[z], vector2i(x, y), z)` for every
cell in row-major order; `func` acts on the state `σ` it captured by reference. -/
def for_each_xy {σ : Type} (g : bivector T)
    (func : T → vector2i → Int → σ → Except Error σ) (s : σ) : Except Error σ :=
  match forLoop 0 g.datasize.y (fun y zs =>
      forLoop 0 g.datasize.x (fun x zs =>
        match vec_get g.data zs.1 with
        | .error e => .error e
        | .ok value =>
          match func value ⟨x, y⟩ zs.1 zs.2 with
          | .error e => .error e
          | .ok s' => .ok (zs.1 + 1, s')) zs) ((0 : Int), s) with
  | .error e => .error e
  | .ok zs => .ok zs.2

/-- The non-const member `for_each_xy(func)` with a callback that may read the receiver
through a reference it captured: `func` is given the receiver as it is when it is called,
then `data[z]` by reference, and returns the value it leaves there.  An exception leaves
the elements written so far in place: the error carries the receiver as it is at the
throw. -/
def for_each_xy_ref (g : bivector T)
    (func : bivector T → T → vector2i → Int → Except Error T) :
    Except (Error × bivector T) (bivector T) :=
  match forLoop 0 g.datasize.y (fun y zd =>
      forLoop 0 g.datasize.x (fun x (zd : Int × List T) =>
        match vec_get zd.2 zd.1 with
        | .error e => .error (e, (⟨g.datasize, zd.2⟩ : bivector T))
        | .ok value =>
          match func ⟨g.datasize, zd.2⟩ value ⟨x, y⟩ zd.1 with
          | .error e => .error (e, ⟨g.datasize, zd.2⟩)
          | .ok value' => .ok (zd.1 + 1, zd.2.set zd.1.toNat value')) zd) ((0 : Int), g.data) with
  | .error e => .error e
  | .ok zd => .ok ⟨g.datasize, zd.2⟩

/-- The non-const member `for_each_xy(func)` with a callback that does not read the
receiver (`for_each_xy_ref` for such a callback): `func` receives `data[z]` by reference
and returns the value it leaves there.  An exception leaves the elements written so far in
place: the error carries the receiver as it is at the throw. -/
def for_each_xy_mut (g : bivector T) (func : T → vector2i → Int → Except Error T) :
    Except (Error × bivector T) (bivector T) :=
  match forLoop 0 g.datasize.y (fun y zd =>
      forLoop 0 g.datasize.x (fun x (zd : Int × List T) =>
        match vec_get zd.2 zd.1 with
        | .error e => .error (e, (⟨g.datasize, zd.2⟩ : bivector T))
        | .ok value =>
          match func value ⟨x, y⟩ zd.1 with
          | .error e => .error (e, ⟨g.datasize, zd.2⟩)
          | .ok value' => .ok (zd.1 + 1, zd.2.set zd.1.toNat value')) zd) ((0 : Int), g.data) with
  | .error e => .error e
  | .ok zd => .ok ⟨g.datasize, zd.2⟩

/-- The member `resize(const vector2i& newsz, const T& v = T())`.  `new_data` is
`std::vector<T>(newsz.x * newsz.y)`, value-initialised, the count being an `int` product;
the parameter `v` is not used by the body.  The error carries the receiver as it is at the throw. -/
def resize [Inhabited T] (g : bivector T) (newsz : vector2i) (_v : T) :
    Except (Error × bivector T) (bivector T) :=
  if newsz.x < 0 ∨ newsz.y < 0 then .error (.invalid_argument, g)
  else
    match vector_n (int_mul newsz.x newsz.y) (default : T) with
    | .error e => .error (e, g)
    | .ok new_data =>
      let limit := g.datasize.min newsz
      match forLoop 0 limit.y (fun y nd =>
          forLoop 0 limit.x (fun x nd =>
            match vec_get g.data (g.datasize.x * y + x) with
            | .error e => .error e
            | .ok a => vec_set nd (newsz.x * y + x) a) nd) new_data with
      | .error e => .error (e, g)
      | .ok nd => .ok ⟨newsz, nd⟩

/-- The member `sub_area(offset, sz)`. -/
def sub_area [Inhabited T] (g : bivector T) (offset sz : vector2i) : Except Error (bivector T) :=
  if offset.y + sz.y > g.datasize.y then .error .invalid_argument
  else if offset.x + sz.x > g.datasize.x then .error .invalid_argument
  else
    match ctor sz (default : T) with
    | .error e => .error e
    | .ok result =>
      match result.for_each_xy_mut (fun _ xy _ => g.index_get (offset.add xy)) with
      | .error e => .error e.1
      | .ok r => .ok r

/-- The member `transposed()`. -/
def transposed [Inhabited T] (g : bivector T) : Except Error (bivector T) :=
  match ctor ⟨g.datasize.y, g.datasize.x⟩ (default : T) with
  | .error e => .error e
  | .ok result => g.for_each_xy (fun value xy _ r => r.index_set ⟨xy.y, xy.x⟩ value) result

/-- The member `swap(other)`: the receiver and `other` afterwards. -/
def swap (g other : bivector T) : bivector T × bivector T :=
  (⟨other.datasize, other.data⟩, ⟨g.datasize, g.data⟩)

/-- The member `std::vector<T>&& move_plain_data()`: `datasize = {}` and
`return std::move(data)`.  The return type is an rvalue reference and `std::move` is a
cast, so the body itself leaves `data` as it is; the result is the vector referred to and
the receiver when the call returns. -/
def move_plain_data (g : bivector T) : List T × bivector T :=
  (g.data, ⟨⟨0, 0⟩, g.data⟩)

/-- The statement `at(x, y) = e` on the receiver `r`: the right-hand side is evaluated,
then the checked reference is taken and written through. -/
def at_assign (r : bivector T) (x y : Int) (e : Except Error T) : Except Error (bivector T) :=
  match e with
  | .error err => .error err
  | .ok v => r.store (r.at_xy x y) v

/-- The member `operator*=(const T& s)`. -/
def mul_assign [Mul T] (g : bivector T) (s : T) : bivector T :=
  ⟨g.datasize, g.data.map (fun v => v * s)⟩

/-- The member `operator+=(const T& a)`. -/
def add_assign [Add T] (g : bivector T) (a : T) : bivector T :=
  ⟨g.datasize, g.data.map (fun v => v + a)⟩

/-- Modelled from the spec: `operator+=(const bivector<T>& v)` runs over the receiver's
elements with a counter `z` and adds `v[z++]`; how the counter becomes an index of `v`
is in vector2.hpp (missing), and the spec says `v` is indexed positionally. -/
def add_assign_grid [Add T] (g v : bivector T) : Except (Error × bivector T) (bivector T) :=
  match forLoop 0 g.data.length (fun z (d : List T) =>
      match vec_get v.data z with
      | .error e => .error (e, (⟨g.datasize, d⟩ : bivector T))
      | .ok o =>
        match vec_get d z with
        | .error e => .error (e, ⟨g.datasize, d⟩)
        | .ok e => .ok (d.set z.toNat (e + o))) g.data with
  | .error e => .error e
  | .ok d => .ok ⟨g.datasize, d⟩

/-- The member `shifted(offset)`. -/
def shifted [Inhabited T] (g : bivector T) (offset : vector2i) : Except Error (bivector T) :=
  match ctor g.datasize (default : T) with
  | .error e => .error e
  | .ok result =>
    g.for_each_xy (fun value xy _ r =>
      r.index_set ⟨int_and (xy.x + offset.x) (g.datasize.x - 1),
        int_and (xy.y + offset.y) (g.datasize.y - 1)⟩ value) result

/-- The member `convert<U>()`; `conv` is the conversion `U(v)`. -/
def convert {U : Type} [Inhabited U] (g : bivector T) (conv : T → U) :
    Except Error (bivector U) :=
  match ctor g.datasize (default : U) with
  | .error e => .error e
  | .ok result =>
    match forLoop 0 g.data.length (fun z (d : List U) =>
        match vec_get g.data z with
        | .error e => .error e
        | .ok v => vec_set d z (conv v)) result.data with
    | .error e => .error e
    | .ok d => .ok ⟨result.datasize, d⟩

/-- The member `convert<U>(minv, maxv)`: `U(std::max(minv, std::min(maxv, v)))`. -/
def convert_clamped {U : Type} [Inhabited U] [LinearOrder T] (g : bivector T) (conv : T → U)
    (minv maxv : T) : Except Error (bivector U) :=
  g.convert (fun v => conv (max minv (min maxv v)))

/-- The member `add_tiled(other, scal)`. -/
def add_tiled [Add T] [Mul T] (g other : bivector T) (scal : T) :
    Except (Error × bivector T) (bivector T) :=
  g.for_each_xy_mut (fun value xy _ =>
    match other.at_get (int_and xy.x (other.datasize.x - 1))
        (int_and xy.y (other.datasize.y - 1)) with
    | .error e => .error e
    | .ok o => .ok (value + o * scal))

/-- The member `add_shifted(other, offset)`.  `other` is a const reference: when it
refers to the receiver itself, every read goes to the receiver as the loop has left it so
far. -/
def add_shifted [Add T] (g : bivector T) (other : grid_ref T) (offset : vector2i) :
    Except (Error × bivector T) (bivector T) :=
  g.for_each_xy_ref (fun cur value xy _ =>
    match (other.deref cur).at_get
        (int_and (xy.x + offset.x) ((other.deref cur).datasize.x - 1))
        (int_and (xy.y + offset.y) ((other.deref cur).datasize.y - 1)) with
    | .error e => .error e
    | .ok o => .ok (value + o))

/-- The member `insert(other, offset)`, on a receiver distinct from `other`. -/
def insert (g other : bivector T) (offset : vector2i) : Except Error (bivector T) :=
  other.for_each_xy (fun value xy _ (r : bivector T) => r.index_set (offset.add xy) value) g

/-- The expression `T((a + b) * 0.5)`, in the arithmetic of the element type. -/
def mean2 [half_sum_arith T] (a b : Except Error T) : Except Error T :=
  match a, b with
  | .ok va, .ok vb => .ok (half_sum_arith.half_sum va vb)
  | .error e, _ => .error e
  | .ok _, .error e => .error e

/-- The expression `T((a + b + c + d) * 0.25)` over exact arithmetic. -/
def mean4 [Field T] (a b c d : Except Error T) : Except Error T :=
  match a, b, c, d with
  | .ok va, .ok vb, .ok vc, .ok vd => .ok ((va + vb + vc + vd) * 4⁻¹)
  | .error e, _, _, _ => .error e
  | .ok _, .error e, _, _ => .error e
  | .ok _, .ok _, .error e, _ => .error e
  | .ok _, .ok _, .ok _, .error e => .error e

/-- The expression `T(a * c1[0] + b * c1[1] + c * c1[2] + d * c1[3])` with the kernel
`c1 = {-1/16, 9/16, 9/16, -1/16}`, over exact arithmetic. -/
def tap4 [Field T] (a b c d : Except Error T) : Except Error T :=
  match a, b, c, d with
  | .ok va, .ok vb, .ok vc, .ok vd =>
    .ok (va * (-1 / 16) + vb * (9 / 16) + vc * (9 / 16) + vd * (-1 / 16))
  | .error e, _, _, _ => .error e
  | .ok _, .error e, _, _ => .error e
  | .ok _, .ok _, .error e, _ => .error e
  | .ok _, .ok _, .ok _, .error e => .error e

/-- The size `wrap ? datasize * 2 : datasize * 2 - vector2i(1, 1)` of an upsampled grid
(the `vector2i` operators of the missing vector2.hpp taken component-wise). -/
def upsampled_size (g : bivector T) (wrap : Bool) : vector2i :=
  if wrap then ⟨g.datasize.x * 2, g.datasize.y * 2⟩
  else ⟨g.datasize.x * 2 - 1, g.datasize.y * 2 - 1⟩

/-- The member `upsampled(wrap)`. -/
def upsampled [half_sum_arith T] [Inhabited T] (g : bivector T) (wrap : Bool) :
    Except Error (bivector T) :=
  if g.datasize.x < 1 ∨ g.datasize.y < 1 then .error .invalid_argument
  else do
    let resultsize := g.upsampled_size wrap
    let result ← ctor resultsize (default : T)
    -- copy values that are kept and interpolate missing values on even rows
    let result ← forLoop 0 g.datasize.y (fun y r =>
      forLoop 0 (g.datasize.x - 1) (fun x r => do
        let r ← r.at_assign (2 * x) (2 * y) (g.at_get x y)
        r.at_assign (2 * x + 1) (2 * y) (mean2 (g.at_get x y) (g.at_get (x + 1) y))) r) result
    -- handle special cases on last column
    let result ←
      (if wrap then
        forLoop 0 g.datasize.y (fun y r => do
          let r ← r.at_assign (2 * g.datasize.x - 2) (2 * y) (g.at_get (g.datasize.x - 1) y)
          r.at_assign (2 * g.datasize.x - 1) (2 * y)
            (mean2 (g.at_get (g.datasize.x - 1) y) (g.at_get 0 y))) result
      else
        forLoop 0 g.datasize.y (fun y r =>
          r.at_assign (2 * g.datasize.x - 2) (2 * y) (g.at_get (g.datasize.x - 1) y)) result)
    -- interpolate missing values on odd rows
    let result ← forLoop 0 (g.datasize.y - 1) (fun y r =>
      forLoop 0 resultsize.x (fun x r =>
        r.at_assign x (2 * y + 1) (mean2 (r.at_get x (2 * y)) (r.at_get x (2 * y + 2)))) r)
      result
    -- handle special cases on last row
    if wrap then
      forLoop 0 resultsize.x (fun x r =>
        r.at_assign x (resultsize.y - 1)
          (mean2 (r.at_get x (resultsize.y - 2)) (r.at_get x 0))) result
    else pure result

/-- The size of a downsampled grid: `newsize = (datasize.x >> 1, datasize.y >> 1)`, and
without `force_even_size` both `resultsize.x += datasize.x & 1` and
`resultsize.y += datasize.x & 1`, as the source has it. -/
def downsampled_size (g : bivector T) (force_even_size : Bool) : vector2i :=
  if force_even_size then ⟨g.datasize.x / 2, g.datasize.y / 2⟩
  else ⟨g.datasize.x / 2 + int_and g.datasize.x 1, g.datasize.y / 2 + int_and g.datasize.x 1⟩

/-- The member `downsampled(force_even_size)`. -/
def downsampled [Field T] [Inhabited T] (g : bivector T) (force_even_size : Bool) :
    Except Error (bivector T) := do
  let newsize : vector2i := ⟨g.datasize.x / 2, g.datasize.y / 2⟩
  let result ← ctor (g.downsampled_size force_even_size) (default : T)
  let result ← forLoop 0 newsize.y (fun y r =>
    forLoop 0 newsize.x (fun x r =>
      r.at_assign x y (mean4 (g.at_get (2 * x) (2 * y)) (g.at_get (2 * x + 1) (2 * y))
        (g.at_get (2 * x) (2 * y + 1)) (g.at_get (2 * x + 1) (2 * y + 1)))) r) result
  if force_even_size then pure result
  else do
    -- downsample last row or column if original size is odd
    let result ←
      (if int_and g.datasize.x 1 ≠ 0 then
        forLoop 0 newsize.y (fun y r =>
          r.at_assign newsize.x y (mean2 (g.at_get (g.datasize.x - 1) (2 * y))
            (g.at_get (g.datasize.x - 1) (2 * y + 1)))) result
      else pure result)
    let result ←
      (if int_and g.datasize.y 1 ≠ 0 then
        forLoop 0 newsize.x (fun x r =>
          r.at_assign x newsize.y (mean2 (g.at_get (2 * x) (g.datasize.y - 1))
            (g.at_get (2 * x + 1) (g.datasize.y - 1)))) result
      else pure result)
    if int_and (int_and g.datasize.x g.datasize.y) 1 ≠ 0 then
      -- copy corner, hasn't been handled yet
      result.at_assign newsize.x newsize.y (g.at_get (g.datasize.x - 1) (g.datasize.y - 1))
    else pure result

/-- The member `smooth_upsampled(wrap)`. -/
def smooth_upsampled [Field T] [Inhabited T] (g : bivector T) (wrap : Bool) :
    Except Error (bivector T) :=
  if g.datasize.x < 3 ∨ g.datasize.y < 3 then .error .invalid_argument
  else do
    let w := g.datasize.x
    let h := g.datasize.y
    let resultsize := g.upsampled_size wrap
    let result ← ctor resultsize (default : T)
    -- copy values that are kept and interpolate missing values on even rows
    let result ← forLoop 0 h (fun y r => do
      let r ← r.at_assign 0 (2 * y) (g.at_get 0 y)
      let r ← forLoop 1 (w - 2) (fun x r => do
        let r ← r.at_assign (2 * x) (2 * y) (g.at_get x y)
        r.at_assign (2 * x + 1) (2 * y)
          (tap4 (g.at_get (x - 1) y) (g.at_get x y) (g.at_get (x + 1) y) (g.at_get (x + 2) y))) r
      let r ← r.at_assign (2 * w - 4) (2 * y) (g.at_get (w - 2) y)
      r.at_assign (2 * w - 2) (2 * y) (g.at_get (w - 1) y)) result
    let result ←
      (if wrap then
        forLoop 0 h (fun y r => do
          let r ← r.at_assign 1 (2 * y)
            (tap4 (g.at_get (w - 1) y) (g.at_get 0 y) (g.at_get 1 y) (g.at_get 2 y))
          let r ← r.at_assign (2 * w - 3) (2 * y)
            (tap4 (g.at_get (w - 3) y) (g.at_get (w - 2) y) (g.at_get (w - 1) y) (g.at_get 0 y))
          r.at_assign (2 * w - 1) (2 * y)
            (tap4 (g.at_get (w - 2) y) (g.at_get (w - 1) y) (g.at_get 0 y) (g.at_get 1 y)))
          result
      else
        forLoop 0 h (fun y r => do
          let r ← r.at_assign 1 (2 * y)
            (tap4 (g.at_get 0 y) (g.at_get 0 y) (g.at_get 1 y) (g.at_get 2 y))
          r.at_assign (2 * w - 3) (2 * y)
            (tap4 (g.at_get (w - 3) y) (g.at_get (w - 2) y) (g.at_get (w - 1) y)
              (g.at_get (w - 1) y))) result)
    -- interpolate missing values on odd rows
    let result ← forLoop 1 (h - 2) (fun y r =>
      forLoop 0 resultsize.x (fun x r =>
        r.at_assign x (2 * y + 1)
          (tap4 (r.at_get x (2 * y - 2)) (r.at_get x (2 * y)) (r.at_get x (2 * y + 2))
            (r.at_get x (2 * y + 4)))) r) result
    -- handle special cases on last row
    if wrap then
      -- interpolate 3 missing rows
      forLoop 0 resultsize.x (fun x r => do
        let r ← r.at_assign x 1
          (tap4 (r.at_get x (2 * h - 2)) (r.at_get x 0) (r.at_get x 2) (r.at_get x 4))
        let r ← r.at_assign x (2 * h - 3)
          (tap4 (r.at_get x (2 * h - 6)) (r.at_get x (2 * h - 4)) (r.at_get x (2 * h - 2))
            (r.at_get x 0))
        r.at_assign x (2 * h - 1)
          (tap4 (r.at_get x (2 * h - 4)) (r.at_get x (2 * h - 2)) (r.at_get x 0)
            (r.at_get x 2))) result
    else
      forLoop 0 resultsize.x (fun x r => do
        let r ← r.at_assign x 1
          (tap4 (r.at_get x 0) (r.at_get x 0) (r.at_get x 2) (r.at_get x 4))
        r.at_assign x (2 * h - 3)
          (tap4 (r.at_get x (2 * h - 6)) (r.at_get x (2 * h - 4)) (r.at_get x (2 * h - 2))
            (r.at_get x (2 * h - 2)))) result

/-- The class invariant: non-negative size and `data.size() == datasize.x * datasize.y`. -/
def wf (g : bivector T) : Prop :=
  0 ≤ g.datasize.x ∧ 0 ≤ g.datasize.y ∧ (g.data.length : Int) = g.datasize.x * g.datasize.y

instance (g : bivector T) : Decidable g.wf := by
  unfold wf; infer_instance

/-- Two grids have the same `datasize` and the same number of stored elements. -/
def same_shape (a b : bivector T) : Prop :=
  a.datasize = b.datasize ∧ a.data.length = b.data.length

/-- The value of cell `(x,y)`, `T()` outside the grid: a total reading of `at(x, y)` used
to state what the resampling operations compute. -/
def cell [Inhabited T] (g : bivector T) (x y : Int) : T :=
  match g.at_get x y with
  | .ok v => v
  | .error _ => default

/-- The grid `r` has size `sz` with matching storage, and every cell in the set `P` reads
`val x y`. -/
def filled (r : bivector T) (sz : vector2i) (P : Int → Int → Prop) (val : Int → Int → T) :
    Prop :=
  r.datasize = sz ∧ (r.data.length : Int) = sz.x * sz.y ∧
    ∀ x y : Int, 0 ≤ x → x < sz.x → 0 ≤ y → y < sz.y → P x y → r.at_get x y = .ok (val x y)

/-- Reference value of the upsampled grid on an even row `2y`, in the words of the spec:
even columns copy the source sample, odd columns are the midpoint of the horizontal
neighbours (the right neighbour taken modulo the width). -/
def upsampled_row [Field T] [Inhabited T] (g : bivector T) (x' y : Int) : T :=
  if x' % 2 = 0 then g.cell (x' / 2) y
  else (g.cell (x' / 2) y + g.cell ((x' / 2 + 1) % g.datasize.x) y) * 2⁻¹

/-- Reference value of the upsampled grid, in the words of the spec: even rows are
`upsampled_row`, odd rows are the midpoint of the rows above and below (the row below
taken modulo the height). -/
def upsampled_val [Field T] [Inhabited T] (g : bivector T) (x' y' : Int) : T :=
  if y' % 2 = 0 then g.upsampled_row x' (y' / 2)
  else (g.upsampled_row x' (y' / 2) + g.upsampled_row x' ((y' / 2 + 1) % g.datasize.y)) * 2⁻¹

/-- Reference value of the downsampled grid, in the words of the spec: the mean of a
2×2 block; for a leftover last row or column the mean of the 2×1 or 1×2 edge pair; for
the leftover corner the corner cell itself. -/
def downsampled_val [Field T] [Inhabited T] (g : bivector T) (x y : Int) : T :=
  if x < g.datasize.x / 2 then
    if y < g.datasize.y / 2 then
      (g.cell (2 * x) (2 * y) + g.cell (2 * x + 1) (2 * y) + g.cell (2 * x) (2 * y + 1)
        + g.cell (2 * x + 1) (2 * y + 1)) * 4⁻¹
    else (g.cell (2 * x) (g.datasize.y - 1) + g.cell (2 * x + 1) (g.datasize.y - 1)) * 2⁻¹
  else
    if y < g.datasize.y / 2 then
      (g.cell (g.datasize.x - 1) (2 * y) + g.cell (g.datasize.x - 1) (2 * y + 1)) * 2⁻¹
    else g.cell (g.datasize.x - 1) (g.datasize.y - 1)

/-- The member `get_min()`: the check `data.empty()`, then `m = data[0]` and
`m = std::min(m, v)` for every element `v` in storage order. -/
def get_min [LT T] [DecidableRel (fun a b : T => a < b)] (g : bivector T) : Except Error T :=
  if g.data.isEmpty then .error .invalid_argument
  else
    match vec_get g.data 0 with
    | .error e => .error e
    | .ok m0 => .ok (g.data.foldl (fun m v => std_min m v) m0)

/-- The member `get_max()`. -/
def get_max [LT T] [DecidableRel (fun a b : T => a < b)] (g : bivector T) : Except Error T :=
  if g.data.isEmpty then .error .invalid_argument
  else
    match vec_get g.data 0 with
    | .error e => .error e
    | .ok m0 => .ok (g.data.foldl (fun m v => std_max m v) m0)

/-- The member `get_min_abs()`: starts from `std::abs(data[0])` and folds
`std::min(m, std::abs(v))`. -/
def get_min_abs [LT T] [DecidableRel (fun a b : T => a < b)] [Zero T] [Neg T]
    (g : bivector T) : Except Error T :=
  if g.data.isEmpty then .error .invalid_argument
  else
    match vec_get g.data 0 with
    | .error e => .error e
    | .ok d0 => .ok (g.data.foldl (fun m v => std_min m (std_abs v)) (std_abs d0))

/-- The member `get_max_abs()`. -/
def get_max_abs [LT T] [DecidableRel (fun a b : T => a < b)] [Zero T] [Neg T]
    (g : bivector T) : Except Error T :=
  if g.data.isEmpty then .error .invalid_argument
  else
    match vec_get g.data 0 with
    | .error e => .error e
    | .ok d0 => .ok (g.data.foldl (fun m v => std_max m (std_abs v)) (std_abs d0))

end bivector

/-! ## Concrete grids used by the closed statements -/

/-- The grid of size (2,2) with cells 1 2 / 3 4. -/
def grid22 : bivector Int := ⟨⟨2, 2⟩, [1, 2, 3, 4]⟩

/-- The grid of size (1,1) holding 7. -/
def grid11 : bivector Int := ⟨⟨1, 1⟩, [7]⟩

/-- The grid of size (2,2) with cells 1 2 / 3 4 over the rationals. -/
def gridq22 : bivector ℚ := ⟨⟨2, 2⟩, [1, 2, 3, 4]⟩

/-- The grid of size (2,2) with every cell 5 over the rationals. -/
def gridq22c : bivector ℚ := ⟨⟨2, 2⟩, [5, 5, 5, 5]⟩

/-- The grid of size (3,2) with cells 1 2 3 / 4 5 6 over the rationals. -/
def gridq32 : bivector ℚ := ⟨⟨3, 2⟩, [1, 2, 3, 4, 5, 6]⟩

/-- The grid of size (2,1) with cells 1 3 over the rationals. -/
def gridq21 : bivector ℚ := ⟨⟨2, 1⟩, [1, 3]⟩

/-- The grid of size (2,1) with every cell 5 over the rationals. -/
def gridq21c : bivector ℚ := ⟨⟨2, 1⟩, [5, 5]⟩

/-- The grid of size (1,2) with every cell 5 over the rationals. -/
def gridq12c : bivector ℚ := ⟨⟨1, 2⟩, [5, 5]⟩

/-- The grid of size (0,5): no element. -/
def grid05 : bivector Int := ⟨⟨0, 5⟩, []⟩

/-- The grid of size (2,2) with cells -3 1 / 2 -1. -/
def gridm22 : bivector Int := ⟨⟨2, 2⟩, [-3, 1, 2, -1]⟩

/-- The grid of size (1,1) holding 5. -/
def grid11five : bivector Int := ⟨⟨1, 1⟩, [5]⟩

/-- The grid of size (0,1): no element. -/
def grid01 : bivector Int := ⟨⟨0, 1⟩, []⟩

/-- The grid of size (32768, 16384) with every cell 0 over the rationals: `2^29`
elements. -/
def gridq_wide : bivector ℚ := ⟨⟨32768, 16384⟩, List.replicate (2 ^ 29) 0⟩

/-- The grid of size (2,1) with cells 1 2. -/
def gridi21 : bivector Int := ⟨⟨2, 1⟩, [1, 2]⟩

/-- The grid of size (3,1) with cells 10 20 30. -/
def grid31 : bivector Int := ⟨⟨3, 1⟩, [10, 20, 30]⟩

/-- The grid of size (2,2) over `unsigned` with every cell 3000000000. -/
def gridu22c : bivector uint32 :=
  ⟨⟨2, 2⟩, [⟨3000000000⟩, ⟨3000000000⟩, ⟨3000000000⟩, ⟨3000000000⟩]⟩

/-- The grid of size (2,1) over `int` with cells `INT_MIN` and 5. -/
def gridint_min : bivector int32 := ⟨⟨2, 1⟩, [⟨-2147483648⟩, ⟨5⟩]⟩

/-! ## Arithmetic of flat indices -/

theorem flat_index_bounds (w h x y : Int) (hx0 : 0 ≤ x) (hxw : x < w) (hy0 : 0 ≤ y)
    (hyh : y < h) : 0 ≤ x + y * w ∧ x + y * w < w * h := by
  have hw : 0 < w := by omega
  have h1 : 0 ≤ y * w := mul_nonneg hy0 (le_of_lt hw)
  have h2 : (y + 1) * w ≤ h * w := mul_le_mul_of_nonneg_right (by omega) (le_of_lt hw)
  constructor
  · omega
  · nlinarith

/-! ## Construction -/

/-- An `int` value is not changed by the wrap-around. -/
theorem int_wrap_of_fits (a : Int) (h0 : -2 ^ 31 ≤ a) (h1 : a < 2 ^ 31) : int_wrap a = a := by
  unfold int_wrap
  omega

/-- The `int` product of two non-negative factors is exact when it fits an `int`. -/
theorem int_mul_of_fits (a b : Int) (ha : 0 ≤ a) (hb : 0 ≤ b) (hfit : a * b < 2 ^ 31) :
    int_mul a b = a * b :=
  int_wrap_of_fits _ (by have := mul_nonneg ha hb; omega) hfit

theorem ctor_of_nonneg {T : Type} (w h : Int) (v : T) (hw : 0 ≤ w) (hh : 0 ≤ h)
    (hfit : w * h < 2 ^ 31) :
    bivector.ctor ⟨w, h⟩ v = .ok ⟨⟨w, h⟩, List.replicate (w * h).toNat v⟩ := by
  have hp : ¬ (w * h < 0) := not_lt.mpr (mul_nonneg hw hh)
  simp [bivector.ctor, vector_n, int_mul_of_fits w h hw hh hfit, hp, not_lt.mpr hw,
    not_lt.mpr hh]

/-- C1, amended: for `w ≥ 0`, `h ≥ 0` whose product `w*h` fits an `int` (`w*h < 2^31`)
and any fill value `v`, the constructor succeeds; the grid has size `(w,h)`, its element
sequence has length `w*h`, and every cell `(x,y)` with `0 ≤ x < w`, `0 ≤ y < h` reads
`v`. -/
theorem ctor_nonneg_size_fill {T : Type} (w h : Int) (v : T) (hw : 0 ≤ w) (hh : 0 ≤ h)
    (hfit : w * h < 2 ^ 31) :
    ∃ g : bivector T, bivector.ctor ⟨w, h⟩ v = .ok g ∧ g.size = ⟨w, h⟩ ∧
      (g.data.length : Int) = w * h ∧
      ∀ x y : Int, 0 ≤ x → x < w → 0 ≤ y → y < h → g.at_get x y = .ok v := by
  refine ⟨_, ctor_of_nonneg w h v hw hh hfit, rfl, ?_, ?_⟩
  · simp [Int.toNat_of_nonneg (mul_nonneg hw hh)]
  · intro x y hx0 hxw hy0 hyh
    obtain ⟨hb0, hb1⟩ := flat_index_bounds w h x y hx0 hxw hy0 hyh
    have hlt : (x + y * w).toNat < (w * h).toNat := by omega
    simp [bivector.at_get, bivector.at_xy, bivector.load, not_le.mpr hxw, not_le.mpr hyh,
      hb0, hb1, Int.toNat_of_nonneg (mul_nonneg hw hh), List.getElem?_replicate, hlt]

/-- Witness of C1 at size (3,2) with fill 5. -/
theorem ctor_nonneg_size_fill_witness :
    (0 : Int) ≤ 3 ∧ (0 : Int) ≤ 2 ∧ (3 : Int) * 2 < 2 ^ 31 ∧
    ∃ g : bivector Int, bivector.ctor ⟨3, 2⟩ 5 = .ok g ∧ g.size = ⟨3, 2⟩ ∧
      (g.data.length : Int) = 3 * 2 ∧
      ∀ x y : Int, 0 ≤ x → x < 3 → 0 ≤ y → y < 2 → g.at_get x y = .ok 5 :=
  ⟨by decide, by decide, by decide,
    ctor_nonneg_size_fill 3 2 5 (by decide) (by decide) (by decide)⟩

/-- C1 as stated fails where `w*h` does not fit an `int`: the count of size
`(65536, 65536)` wraps to 0 and the constructor returns a grid of that size without any
element, so cell `(0,0)` cannot be read; the count of `(46341, 46341)` wraps to a negative
value and the constructor throws `length_error`. -/
theorem ctor_count_overflow :
    bivector.ctor (T := Int) ⟨65536, 65536⟩ 7 = .ok ⟨⟨65536, 65536⟩, []⟩ ∧
    (bivector.mk (T := Int) ⟨65536, 65536⟩ []).at_get 0 0 = .error .undefined ∧
    bivector.ctor (T := Int) ⟨46341, 46341⟩ 7 = .error .length_error := by
  refine ⟨?_, ?_, ?_⟩ <;> rfl

/-- Which exception the constructor throws for a size with a negative component: a
negative `int` product `sz.x * sz.y` (as for exactly one negative component and a small
positive one) gives `length_error` from the member initialiser; otherwise the body throws
`invalid_argument`. -/
theorem ctor_negative_cases {T : Type} (sz : vector2i) (v : T) (hneg : sz.x < 0 ∨ sz.y < 0) :
    bivector.ctor sz v =
      if int_mul sz.x sz.y < 0 then .error .length_error else .error .invalid_argument := by
  unfold bivector.ctor vector_n
  by_cases hp : int_mul sz.x sz.y < 0
  · simp [hp]
  · simp [hp, hneg]

/-- C2 (evaluation at the failing input): with size `(-1, 1)` the member initialiser
`data(sz.x * sz.y, v)` is reached first and throws `std::length_error`; the
`std::invalid_argument` of the constructor body is never reached. -/
theorem ctor_negative_width_length_error :
    bivector.ctor (T := Int) ⟨-1, 1⟩ 7 = .error .length_error ∧
    bivector.ctor (T := Int) ⟨1, -1⟩ 7 = .error .length_error ∧
    bivector.ctor (T := Int) ⟨-1, 0⟩ 7 = .error .invalid_argument ∧
    bivector.ctor (T := Int) ⟨-2, -3⟩ 7 = .error .invalid_argument := by
  refine ⟨?_, ?_, ?_, ?_⟩ <;> rfl

/-! ## Loops -/

/-- Invariant rule for `loopN`: an invariant established at the start and carried by every
iteration holds at the end, and the loop completes. -/
theorem loopN_inv {ε σ : Type} (Inv : Int → σ → Prop) (body : Int → σ → Except ε σ) :
    ∀ (n : Nat) (i : Int) (s : σ), Inv i s →
      (∀ j t, i ≤ j → j < i + n → Inv j t → ∃ t', body j t = .ok t' ∧ Inv (j + 1) t') →
      ∃ s', loopN n i body s = .ok s' ∧ Inv (i + n) s' := by
  intro n
  induction n with
  | zero => intro i s h0 _; exact ⟨s, rfl, by simpa using h0⟩
  | succ n ih =>
    intro i s h0 hstep
    obtain ⟨t, ht, hInv⟩ := hstep i s (le_refl i) (by push_cast; omega) h0
    obtain ⟨s', hs', hfin⟩ := ih (i + 1) t hInv (fun j u hj1 hj2 hu =>
      hstep j u (by omega) (by push_cast; omega) hu)
    refine ⟨s', ?_, ?_⟩
    · simp only [loopN, ht]; exact hs'
    · have : i + 1 + (n : Int) = i + ((n + 1 : Nat) : Int) := by push_cast; ring
      rw [← this]; exact hfin

/-- Invariant rule for `for (int i = lo; i < hi; ++i)` with `lo ≤ hi`. -/
theorem forLoop_inv {ε σ : Type} (Inv : Int → σ → Prop) (body : Int → σ → Except ε σ)
    (lo hi : Int) (s : σ) (hle : lo ≤ hi) (h0 : Inv lo s)
    (hstep : ∀ j t, lo ≤ j → j < hi → Inv j t → ∃ t', body j t = .ok t' ∧ Inv (j + 1) t') :
    ∃ s', forLoop lo hi body s = .ok s' ∧ Inv hi s' := by
  have hn : lo + ((hi - lo).toNat : Int) = hi := by omega
  obtain ⟨s', h1, h2⟩ := loopN_inv Inv body (hi - lo).toNat lo s h0
    (fun j t hj1 hj2 ht => hstep j t hj1 (by omega) ht)
  exact ⟨s', h1, by rw [hn] at h2; exact h2⟩

/-- A loop whose bound is not above its start does nothing. -/
theorem forLoop_empty {ε σ : Type} (body : Int → σ → Except ε σ) (lo hi : Int) (s : σ)
    (h : hi ≤ lo) : forLoop lo hi body s = .ok s := by
  have : (hi - lo).toNat = 0 := by omega
  simp [forLoop, this, loopN]

/-- A property of the state that every iteration keeps, on success and in the state an
error carries, is kept by the loop. -/
theorem loopN_keeps {ε σ : Type} (P : σ → Prop) (Q : ε → Prop) (body : Int → σ → Except ε σ)
    (hbody : ∀ j t, P t → match body j t with
      | .ok t' => P t'
      | .error e => Q e) :
    ∀ (n : Nat) (i : Int) (s : σ), P s → match loopN n i body s with
      | .ok s' => P s'
      | .error e => Q e := by
  intro n
  induction n with
  | zero => intro i s hs; simpa [loopN] using hs
  | succ n ih =>
    intro i s hs
    have hb := hbody i s hs
    simp only [loopN]
    cases hbs : body i s with
    | error e => simp only [hbs] at hb ⊢; exact hb
    | ok t => simp only [hbs] at hb ⊢; exact ih (i + 1) t hb

/-! ## Unchecked vector access -/

theorem vec_get_of_lt {T : Type} (d : List T) (i : Int) (h0 : 0 ≤ i) (h1 : i < d.length) :
    ∃ v, vec_get d i = .ok v := by
  have hlt : i.toNat < d.length := by omega
  exact ⟨d[i.toNat], by simp [vec_get, h0, List.getElem?_eq_getElem hlt]⟩

theorem vec_set_length {T : Type} (d d' : List T) (i : Int) (v : T)
    (h : vec_set d i v = .ok d') : d'.length = d.length := by
  unfold vec_set at h
  split at h
  · cases h; simp
  · cases h

theorem vec_set_ok {T : Type} (d : List T) (i : Int) (v : T) (h0 : 0 ≤ i)
    (h1 : i < d.length) : vec_set d i v = .ok (d.set i.toNat v) := by
  simp [vec_set, h0, h1]

theorem vec_get_set_same {T : Type} (d : List T) (i : Int) (v : T) (h0 : 0 ≤ i)
    (h1 : i < d.length) : vec_get (d.set i.toNat v) i = .ok v := by
  have hlt : i.toNat < d.length := by omega
  simp [vec_get, h0, List.getElem?_set, hlt]

theorem vec_get_set_other {T : Type} (d : List T) (i j : Int) (v : T) (h0 : 0 ≤ i)
    (hij : j ≠ i) : vec_get (d.set i.toNat v) j = vec_get d j := by
  unfold vec_get
  by_cases hj : 0 ≤ j
  · have hne : i.toNat ≠ j.toNat := by omega
    simp [hj, List.getElem?_set, hne]
  · simp [hj]

/-! ## Checked and unchecked element access -/

theorem at_get_eq_vec_get {T : Type} (g : bivector T) (x y : Int) :
    g.at_get x y =
      if x ≥ g.datasize.x ∨ y ≥ g.datasize.y then .error .out_of_range
      else vec_get g.data (x + y * g.datasize.x) := by
  unfold bivector.at_get bivector.at_xy bivector.load vec_get
  by_cases hc : x ≥ g.datasize.x ∨ y ≥ g.datasize.y
  · simp [hc]
  · simp only [hc, if_false]
    by_cases h0 : 0 ≤ x + y * g.datasize.x
    · by_cases h1 : x + y * g.datasize.x < g.data.length
      · simp [h0, h1]
      · have hge : g.data.length ≤ (x + y * g.datasize.x).toNat := by omega
        simp [h0, h1, List.getElem?_eq_none hge]
    · simp [h0]

theorem index_get_eq_vec_get {T : Type} (g : bivector T) (p : vector2i) :
    g.index_get p = vec_get g.data (p.x + p.y * g.datasize.x) := by
  unfold bivector.index_get bivector.index bivector.load vec_get
  by_cases h0 : 0 ≤ p.x + p.y * g.datasize.x
  · by_cases h1 : p.x + p.y * g.datasize.x < g.data.length
    · simp [h0, h1]
    · have hge : g.data.length ≤ (p.x + p.y * g.datasize.x).toNat := by omega
      simp [h0, h1, List.getElem?_eq_none hge]
  · simp [h0]

theorem index_set_eq_vec_set {T : Type} (g : bivector T) (p : vector2i) (v : T) :
    g.index_set p v =
      match vec_set g.data (p.x + p.y * g.datasize.x) v with
      | .ok d => .ok ⟨g.datasize, d⟩
      | .error e => .error e := by
  unfold bivector.index_set bivector.index bivector.store vec_set
  by_cases h : 0 ≤ p.x + p.y * g.datasize.x ∧ p.x + p.y * g.datasize.x < g.data.length
  · simp [h]
  · simp [h]

/-- C4: on a grid of size `(w,h)`, `at(x,y)` throws `out_of_range` when `x ≥ w` or
`y ≥ h`; when the grid satisfies the class invariant and `0 ≤ x < w`, `0 ≤ y < h`, it
succeeds and designates the element at flat index `x + y*w`, the one `operator[]`
designates for `(x,y)`; and `at(p)` is `at(p.x, p.y)` for every `p`. -/
theorem at_checked_access {T : Type} (g : bivector T) (x y : Int) :
    (x ≥ g.size.x ∨ y ≥ g.size.y →
      g.at_xy x y = .error .out_of_range ∧ g.at_get x y = .error .out_of_range) ∧
    (g.wf → 0 ≤ x → x < g.size.x → 0 ≤ y → y < g.size.y →
      ∃ i : Nat, ∃ hi : i < g.data.length, (i : Int) = x + y * g.size.x ∧
        g.at_xy x y = .ok i ∧ g.index ⟨x, y⟩ = .ok i ∧
        g.at_get x y = .ok (g.data.get ⟨i, hi⟩)) ∧
    (∀ p : vector2i, g.at_p p = g.at_xy p.x p.y ∧ g.at_p_get p = g.at_get p.x p.y) := by
  refine ⟨?_, ?_, ?_⟩
  · intro hc
    have hc' : x ≥ g.datasize.x ∨ y ≥ g.datasize.y := hc
    simp [bivector.at_get, bivector.at_xy, bivector.load, hc']
  · intro hwf hx0 hxw hy0 hyh
    obtain ⟨hw0, hh0, hlen⟩ := hwf
    have hxw' : x < g.datasize.x := hxw
    have hyh' : y < g.datasize.y := hyh
    obtain ⟨hb0, hb1⟩ := flat_index_bounds g.datasize.x g.datasize.y x y hx0 hxw' hy0 hyh'
    rw [← hlen] at hb1
    have hlt : (x + y * g.datasize.x).toNat < g.data.length := by omega
    refine ⟨(x + y * g.datasize.x).toNat, hlt, ?_, ?_, ?_, ?_⟩
    · simp [bivector.size, Int.toNat_of_nonneg hb0]
    · simp [bivector.at_xy, not_le.mpr hxw', not_le.mpr hyh', hb0, hb1]
    · simp [bivector.index, hb0, hb1]
    · simp [bivector.at_get, bivector.at_xy, bivector.load, not_le.mpr hxw', not_le.mpr hyh',
        hb0, hb1, List.getElem?_eq_getElem hlt]
  · intro p
    exact ⟨rfl, rfl⟩

/-- Witness of C4 on the (2,2) grid: cell (1,1) is the element at flat index 3 and holds
4; column 2 is out of range. -/
theorem at_checked_access_witness :
    grid22.wf ∧
    (grid22.at_xy 2 1 = .error .out_of_range ∧ grid22.at_get 2 1 = .error .out_of_range) ∧
    (∃ i : Nat, ∃ hi : i < grid22.data.length, (i : Int) = 1 + 1 * grid22.size.x ∧
        grid22.at_xy 1 1 = .ok i ∧ grid22.index ⟨1, 1⟩ = .ok i ∧
        grid22.at_get 1 1 = .ok (grid22.data.get ⟨i, hi⟩)) ∧
    (∀ p : vector2i, grid22.at_p p = grid22.at_xy p.x p.y ∧
      grid22.at_p_get p = grid22.at_get p.x p.y) :=
  ⟨by decide, (at_checked_access grid22 2 1).1 (Or.inl (by decide)),
    (at_checked_access grid22 1 1).2.1 (by decide) (by decide) (by decide) (by decide)
      (by decide),
    (at_checked_access grid22 1 1).2.2⟩

/-- Two cells of a row-major grid of width `w` with the same flat index are the same cell. -/
theorem flat_index_inj (w x y x' y' : Int) (hx0 : 0 ≤ x) (hxw : x < w) (hx0' : 0 ≤ x')
    (hxw' : x' < w) (h : w * y + x = w * y' + x') : x = x' ∧ y = y' := by
  have hy : y = y' := by
    by_contra hne
    rcases lt_or_gt_of_ne hne with hlt | hgt
    · have : w * (y + 1) ≤ w * y' := mul_le_mul_of_nonneg_left (by omega) (by omega)
      nlinarith
    · have : w * (y' + 1) ≤ w * y := mul_le_mul_of_nonneg_left (by omega) (by omega)
      nlinarith
  subst hy
  exact ⟨by omega, rfl⟩

/-! ## resize -/

/-- What `resize` computes on a grid satisfying the invariant, for a non-negative new
size: it succeeds, the storage has `w' * h'` elements, and cell `(x,y)` of the new grid
holds the old cell `(x,y)` where the old grid has one, and `T()` elsewhere. -/
theorem resize_cells {T : Type} [Inhabited T] (g : bivector T) (hwf : g.wf) (w' h' : Int)
    (fill : T) (hw' : 0 ≤ w') (hh' : 0 ≤ h') (hfit : w' * h' < 2 ^ 31) :
    ∃ nd : List T, g.resize ⟨w', h'⟩ fill = .ok ⟨⟨w', h'⟩, nd⟩ ∧
      (nd.length : Int) = w' * h' ∧
      ∀ x y : Int, 0 ≤ x → x < w' → 0 ≤ y → y < h' →
        vec_get nd (w' * y + x) =
          if x < g.datasize.x ∧ y < g.datasize.y then vec_get g.data (g.datasize.x * y + x)
          else .ok default := by
  obtain ⟨hw0, hh0, hlen⟩ := hwf
  have hN : 0 ≤ w' * h' := mul_nonneg hw' hh'
  have hloops := forLoop_inv
    (fun (y : Int) (nd : List T) => (nd.length : Int) = w' * h' ∧
      ∀ x' y' : Int, 0 ≤ x' → x' < w' → 0 ≤ y' → y' < h' →
        vec_get nd (w' * y' + x') =
          if x' < g.datasize.x ∧ y' < y then vec_get g.data (g.datasize.x * y' + x')
          else .ok default)
    (fun y nd =>
      forLoop 0 (g.datasize.min ⟨w', h'⟩).x (fun x nd =>
        match vec_get g.data (g.datasize.x * y + x) with
        | .error e => .error e
        | .ok a => vec_set nd (w' * y + x) a) nd)
    0 (g.datasize.min ⟨w', h'⟩).y (List.replicate (w' * h').toNat default)
    (by simp only [vector2i.min]; omega)
    (by
      refine ⟨by simp [Int.toNat_of_nonneg hN], ?_⟩
      intro x' y' hx0 hxw hy0 hyh
      have hneg : ¬ (x' < g.datasize.x ∧ y' < 0) := by omega
      have hb := flat_index_bounds w' h' x' y' hx0 hxw hy0 hyh
      have hlt : (w' * y' + x').toNat < (w' * h').toNat := by
        have : w' * y' + x' = x' + y' * w' := by ring
        omega
      have h0 : 0 ≤ w' * y' + x' := by
        have : w' * y' + x' = x' + y' * w' := by ring
        omega
      simp [vec_get, h0, List.getElem?_replicate, hlt, hneg])
    (by
      intro y nd hy0 hyl ⟨hlenY, hcellsY⟩
      simp only [vector2i.min] at hyl
      have hyh : y < g.datasize.y := by omega
      have hyh' : y < h' := by omega
      obtain ⟨nd', hrun, hlen', hcells'⟩ := forLoop_inv
        (fun (x : Int) (nd : List T) => (nd.length : Int) = w' * h' ∧
          ∀ x' y' : Int, 0 ≤ x' → x' < w' → 0 ≤ y' → y' < h' →
            vec_get nd (w' * y' + x') =
              if x' < g.datasize.x ∧ (y' < y ∨ (y' = y ∧ x' < x)) then
                vec_get g.data (g.datasize.x * y' + x')
              else .ok default)
        (fun x nd =>
          match vec_get g.data (g.datasize.x * y + x) with
          | .error e => .error e
          | .ok a => vec_set nd (w' * y + x) a)
        0 (g.datasize.min ⟨w', h'⟩).x nd
        (by simp only [vector2i.min]; omega)
        (by
          refine ⟨hlenY, ?_⟩
          intro x' y' hx0 hxw hy0' hyh''
          rw [hcellsY x' y' hx0 hxw hy0' hyh'']
          have : (x' < g.datasize.x ∧ (y' < y ∨ (y' = y ∧ x' < 0))) ↔
              (x' < g.datasize.x ∧ y' < y) := by
            constructor
            · rintro ⟨h1, h2⟩; exact ⟨h1, by omega⟩
            · rintro ⟨h1, h2⟩; exact ⟨h1, Or.inl h2⟩
          simp only [this])
        (by
          intro x t hx0 hxl ⟨hlenX, hcellsX⟩
          simp only [vector2i.min] at hxl
          have hxw : x < g.datasize.x := by omega
          have hxw' : x < w' := by omega
          have hsrc := flat_index_bounds g.datasize.x g.datasize.y x y hx0 hxw hy0 hyh
          have hdst := flat_index_bounds w' h' x y hx0 hxw' hy0 hyh'
          have e1 : g.datasize.x * y + x = x + y * g.datasize.x := by ring
          have e2 : w' * y + x = x + y * w' := by ring
          obtain ⟨a, ha⟩ := vec_get_of_lt g.data (g.datasize.x * y + x) (by omega) (by omega)
          have hd0 : 0 ≤ w' * y + x := by omega
          have hd1 : w' * y + x < (t.length : Int) := by omega
          refine ⟨t.set (w' * y + x).toNat a, ?_, ?_, ?_⟩
          · simp only [ha]; exact vec_set_ok t _ a hd0 hd1
          · simpa using hlenX
          · intro x' y' hx0' hxw'' hy0' hyh''
            by_cases hsame : x' = x ∧ y' = y
            · obtain ⟨rfl, rfl⟩ := hsame
              rw [vec_get_set_same t _ a hd0 hd1]
              have : x' < g.datasize.x ∧ (y' < y' ∨ (y' = y' ∧ x' < x' + 1)) :=
                ⟨hxw, Or.inr ⟨rfl, by omega⟩⟩
              rw [if_pos this, ha]
            · have hne : w' * y' + x' ≠ w' * y + x := by
                intro heq
                exact hsame (flat_index_inj w' x' y' x y hx0' hxw'' hx0 hxw' heq)
              rw [vec_get_set_other t _ _ a hd0 hne, hcellsX x' y' hx0' hxw'' hy0' hyh'']
              have : (x' < g.datasize.x ∧ (y' < y ∨ (y' = y ∧ x' < x + 1))) ↔
                  (x' < g.datasize.x ∧ (y' < y ∨ (y' = y ∧ x' < x))) := by
                constructor
                · rintro ⟨h1, h2⟩
                  refine ⟨h1, ?_⟩
                  rcases h2 with h2 | ⟨h2, h3⟩
                  · exact Or.inl h2
                  · refine Or.inr ⟨h2, ?_⟩
                    by_contra hc
                    exact hsame ⟨by omega, h2⟩
                · rintro ⟨h1, h2⟩
                  refine ⟨h1, ?_⟩
                  rcases h2 with h2 | ⟨h2, h3⟩
                  · exact Or.inl h2
                  · exact Or.inr ⟨h2, by omega⟩
              simp only [this])
      refine ⟨nd', hrun, hlen', ?_⟩
      intro x' y' hx0 hxw hy0' hyh''
      rw [hcells' x' y' hx0 hxw hy0' hyh'']
      simp only [vector2i.min]
      have : (x' < g.datasize.x ∧ (y' < y ∨ (y' = y ∧ x' < Min.min g.datasize.x w'))) ↔
          (x' < g.datasize.x ∧ y' < y + 1) := by
        constructor
        · rintro ⟨h1, h2⟩; exact ⟨h1, by omega⟩
        · rintro ⟨h1, h2⟩
          refine ⟨h1, ?_⟩
          by_cases hlt : y' < y
          · exact Or.inl hlt
          · exact Or.inr ⟨by omega, by omega⟩
      simp only [this])
  obtain ⟨nd, hrun, hlenF, hcellsF⟩ := hloops
  refine ⟨nd, ?_, hlenF, ?_⟩
  · have hnn : ¬ (w' < 0 ∨ h' < 0) := by omega
    have hp : ¬ (w' * h' < 0) := not_lt.mpr hN
    simp only [bivector.resize, hnn, if_false, vector_n, int_mul_of_fits w' h' hw' hh' hfit, hp]
    rw [hrun]
  · intro x y hx0 hxw hy0 hyh
    rw [hcellsF x y hx0 hxw hy0 hyh]
    simp only [vector2i.min]
    have : (x < g.datasize.x ∧ y < Min.min g.datasize.y h') ↔
        (x < g.datasize.x ∧ y < g.datasize.y) := by
      constructor
      · rintro ⟨h1, h2⟩; exact ⟨h1, by omega⟩
      · rintro ⟨h1, h2⟩; exact ⟨h1, by omega⟩
    simp only [this]

/-- C5, amended: on a grid `g` of size `(w,h)` satisfying the invariant,
`resize((w',h'), fill)` with `w' ≥ 0`, `h' ≥ 0` and a new element count that fits an `int`
(`w'*h' < 2^31`) succeeds, the grid afterwards has size `(w',h')`, and every cell `(x,y)`
with `0 ≤ x < min(w,w')`, `0 ≤ y < min(h,h')` holds the value `g` had there. -/
theorem resize_preserves_overlap {T : Type} [Inhabited T] (g : bivector T) (hwf : g.wf)
    (w' h' : Int) (fill : T) (hw' : 0 ≤ w') (hh' : 0 ≤ h') (hfit : w' * h' < 2 ^ 31) :
    ∃ g' : bivector T, g.resize ⟨w', h'⟩ fill = .ok g' ∧ g'.size = ⟨w', h'⟩ ∧
      ∀ x y : Int, 0 ≤ x → x < min g.size.x w' → 0 ≤ y → y < min g.size.y h' →
        ∃ v : T, g.at_get x y = .ok v ∧ g'.at_get x y = .ok v := by
  obtain ⟨nd, hrun, _, hcells⟩ := resize_cells g hwf w' h' fill hw' hh' hfit
  refine ⟨⟨⟨w', h'⟩, nd⟩, hrun, rfl, ?_⟩
  intro x y hx0 hxl hy0 hyl
  simp only [bivector.size] at hxl hyl
  have hxw : x < g.datasize.x := by omega
  have hyh : y < g.datasize.y := by omega
  have hb := flat_index_bounds g.datasize.x g.datasize.y x y hx0 hxw hy0 hyh
  obtain ⟨v, hv⟩ := vec_get_of_lt g.data (x + y * g.datasize.x) hb.1 (by rw [hwf.2.2]; exact hb.2)
  refine ⟨v, ?_, ?_⟩
  · rw [at_get_eq_vec_get, if_neg (by omega), hv]
  · have hc := hcells x y hx0 (by omega) hy0 (by omega)
    rw [if_pos ⟨hxw, hyh⟩] at hc
    have e1 : g.datasize.x * y + x = x + y * g.datasize.x := by ring
    have e2 : w' * y + x = x + y * w' := by ring
    rw [e1, hv, e2] at hc
    rw [at_get_eq_vec_get]
    simp only [ge_iff_le]
    rw [if_neg (by omega)]
    exact hc

/-- Witness of C5: the (2,2) grid resized to (3,1). -/
theorem resize_preserves_overlap_witness :
    grid22.wf ∧ (0 : Int) ≤ 3 ∧ (0 : Int) ≤ 1 ∧ (3 : Int) * 1 < 2 ^ 31 ∧
    ∃ g' : bivector Int, grid22.resize ⟨3, 1⟩ 9 = .ok g' ∧ g'.size = ⟨3, 1⟩ ∧
      ∀ x y : Int, 0 ≤ x → x < min grid22.size.x 3 → 0 ≤ y → y < min grid22.size.y 1 →
        ∃ v : Int, grid22.at_get x y = .ok v ∧ g'.at_get x y = .ok v :=
  ⟨by decide, by decide, by decide, by decide,
    resize_preserves_overlap grid22 (by decide) 3 1 9 (by decide) (by decide) (by decide)⟩

/-- C5 as stated fails where `w'*h'` does not fit an `int`: resizing the (1,1) grid holding
7 to `(65536, 65536)` builds `new_data` with the wrapped count 0 and the copy of cell
`(0,0)` writes `new_data[0]` outside it; resizing to `(46341, 46341)` throws `length_error`
from the negative wrapped count.  Neither call succeeds. -/
theorem resize_count_overflow :
    grid11.wf ∧
    grid11.resize ⟨65536, 65536⟩ 0 = .error (.undefined, grid11) ∧
    grid11.resize ⟨46341, 46341⟩ 0 = .error (.length_error, grid11) := by
  refine ⟨by decide, ?_, ?_⟩ <;> rfl

/-- C6 (evaluation at the failing input): resizing the (1,1) grid holding 7 to (2,1) with
fill value 9 leaves `T() = 0` in the new cell `(1,0)`, not 9: `resize` never reads its
parameter `v`. -/
theorem resize_ignores_fill :
    grid11.resize ⟨2, 1⟩ 9 = .ok ⟨⟨2, 1⟩, [7, 0]⟩ ∧
    (bivector.mk (T := Int) ⟨2, 1⟩ [7, 0]).at_get 1 0 = .ok 0 := by
  constructor <;> rfl

/-- On a grid satisfying the invariant, every cell that `resize` adds outside the old
extent holds `T()`, whatever fill value was passed (for a new element count that fits an
`int`). -/
theorem resize_new_cells_default {T : Type} [Inhabited T] (g : bivector T) (hwf : g.wf)
    (w' h' : Int) (fill : T) (hw' : 0 ≤ w') (hh' : 0 ≤ h') (hfit : w' * h' < 2 ^ 31) :
    ∃ g' : bivector T, g.resize ⟨w', h'⟩ fill = .ok g' ∧
      ∀ x y : Int, 0 ≤ x → x < w' → 0 ≤ y → y < h' → (x ≥ g.size.x ∨ y ≥ g.size.y) →
        g'.at_get x y = .ok default := by
  obtain ⟨nd, hrun, _, hcells⟩ := resize_cells g hwf w' h' fill hw' hh' hfit
  refine ⟨⟨⟨w', h'⟩, nd⟩, hrun, ?_⟩
  intro x y hx0 hxw hy0 hyh hout
  simp only [bivector.size] at hout
  have hc := hcells x y hx0 hxw hy0 hyh
  rw [if_neg (by omega)] at hc
  have e2 : w' * y + x = x + y * w' := by ring
  rw [e2] at hc
  rw [at_get_eq_vec_get]
  simp only [ge_iff_le]
  rw [if_neg (by omega)]
  exact hc

/-- C7: `resize` with a negative new width or height throws `invalid_argument`, and the
receiver at the throw is the grid as it was before the call (size and elements). -/
theorem resize_negative_rejected {T : Type} [Inhabited T] (g : bivector T) (newsz : vector2i)
    (fill : T) (hneg : newsz.x < 0 ∨ newsz.y < 0) :
    g.resize newsz fill = .error (Error.invalid_argument, g) := by
  simp [bivector.resize, hneg]

/-- Witness of C7: the (2,2) grid resized to (-1,3). -/
theorem resize_negative_rejected_witness :
    ((⟨-1, 3⟩ : vector2i).x < 0 ∨ (⟨-1, 3⟩ : vector2i).y < 0) ∧
    grid22.resize ⟨-1, 3⟩ 9 = .error (Error.invalid_argument, grid22) :=
  ⟨by decide, resize_negative_rejected grid22 ⟨-1, 3⟩ 9 (by decide)⟩

/-! ## for_each_xy -/

/-- What the non-const `for_each_xy` computes on a grid satisfying the invariant when
`func` succeeds on every cell, leaving `F v x y` in a cell `(x,y)` that held `v`:
it succeeds, keeps the size and the length of the storage, and transforms every cell. -/
theorem for_each_xy_mut_cells {T : Type} (g : bivector T) (hwf : g.wf)
    (func : T → vector2i → Int → Except Error T) (F : T → Int → Int → T)
    (hF : ∀ (x y : Int) (v : T), 0 ≤ x → x < g.datasize.x → 0 ≤ y → y < g.datasize.y →
      func v ⟨x, y⟩ (x + y * g.datasize.x) = .ok (F v x y)) :
    ∃ d' : List T, g.for_each_xy_mut func = .ok ⟨g.datasize, d'⟩ ∧
      d'.length = g.data.length ∧
      ∀ x y : Int, 0 ≤ x → x < g.datasize.x → 0 ≤ y → y < g.datasize.y →
        ∃ v : T, vec_get g.data (x + y * g.datasize.x) = .ok v ∧
          vec_get d' (x + y * g.datasize.x) = .ok (F v x y) := by
  obtain ⟨hw0, hh0, hlen⟩ := hwf
  have hloops := forLoop_inv (ε := Error × bivector T)
    (fun (y : Int) (zd : Int × List T) => zd.1 = y * g.datasize.x ∧
      zd.2.length = g.data.length ∧
      ∀ x' y' : Int, 0 ≤ x' → x' < g.datasize.x → 0 ≤ y' → y' < g.datasize.y →
        ∃ v : T, vec_get g.data (x' + y' * g.datasize.x) = .ok v ∧
          vec_get zd.2 (x' + y' * g.datasize.x) = .ok (if y' < y then F v x' y' else v))
    (fun y zd =>
      forLoop 0 g.datasize.x (fun x (zd : Int × List T) =>
        match vec_get zd.2 zd.1 with
        | .error e => .error (e, (⟨g.datasize, zd.2⟩ : bivector T))
        | .ok value =>
          match func value ⟨x, y⟩ zd.1 with
          | .error e => .error (e, ⟨g.datasize, zd.2⟩)
          | .ok value' => .ok (zd.1 + 1, zd.2.set zd.1.toNat value')) zd)
    0 g.datasize.y ((0 : Int), g.data) hh0
    (by
      refine ⟨by simp, rfl, ?_⟩
      intro x' y' hx0 hxw hy0 hyh
      have hb := flat_index_bounds g.datasize.x g.datasize.y x' y' hx0 hxw hy0 hyh
      obtain ⟨v, hv⟩ := vec_get_of_lt g.data (x' + y' * g.datasize.x) hb.1
        (by rw [hlen]; exact hb.2)
      exact ⟨v, hv, by rw [if_neg (by omega)]; exact hv⟩)
    (by
      rintro y ⟨z, d⟩ hy0 hyh ⟨hz, hlenY, hcellsY⟩
      simp only at hz hlenY hcellsY
      obtain ⟨⟨z', d'⟩, hrun, hz', hlen', hcells'⟩ := forLoop_inv (ε := Error × bivector T)
        (fun (x : Int) (zd : Int × List T) => zd.1 = x + y * g.datasize.x ∧
          zd.2.length = g.data.length ∧
          ∀ x' y' : Int, 0 ≤ x' → x' < g.datasize.x → 0 ≤ y' → y' < g.datasize.y →
            ∃ v : T, vec_get g.data (x' + y' * g.datasize.x) = .ok v ∧
              vec_get zd.2 (x' + y' * g.datasize.x) =
                .ok (if y' < y ∨ (y' = y ∧ x' < x) then F v x' y' else v))
        (fun x (zd : Int × List T) =>
          match vec_get zd.2 zd.1 with
          | .error e => .error (e, (⟨g.datasize, zd.2⟩ : bivector T))
          | .ok value =>
            match func value ⟨x, y⟩ zd.1 with
            | .error e => .error (e, ⟨g.datasize, zd.2⟩)
            | .ok value' => .ok (zd.1 + 1, zd.2.set zd.1.toNat value'))
        0 g.datasize.x (z, d) hw0
        (by
          refine ⟨by simp [hz], hlenY, ?_⟩
          intro x' y' hx0 hxw hy0' hyh'
          obtain ⟨v, hv, hd⟩ := hcellsY x' y' hx0 hxw hy0' hyh'
          refine ⟨v, hv, ?_⟩
          rw [hd]
          have : (y' < y ∨ (y' = y ∧ x' < 0)) ↔ y' < y := by
            constructor
            · intro h; omega
            · intro h; exact Or.inl h
          simp only [this])
        (by
          rintro x ⟨zz, dd⟩ hx0 hxw ⟨hzz, hlenX, hcellsX⟩
          simp only at hzz hlenX hcellsX
          subst hzz
          have hb := flat_index_bounds g.datasize.x g.datasize.y x y hx0 hxw hy0 hyh
          obtain ⟨v, hv, hdv⟩ := hcellsX x y hx0 hxw hy0 hyh
          rw [if_neg (by omega)] at hdv
          have hd1 : x + y * g.datasize.x < (dd.length : Int) := by rw [hlenX, hlen]; exact hb.2
          refine ⟨(x + y * g.datasize.x + 1, dd.set (x + y * g.datasize.x).toNat (F v x y)),
            ?_, ?_, ?_, ?_⟩
          · simp only [hdv, hF x y v hx0 hxw hy0 hyh]
          · simp only; ring
          · simpa using hlenX
          · intro x' y' hx0' hxw' hy0' hyh'
            obtain ⟨v', hv', hdv'⟩ := hcellsX x' y' hx0' hxw' hy0' hyh'
            refine ⟨v', hv', ?_⟩
            by_cases hsame : x' = x ∧ y' = y
            · obtain ⟨rfl, rfl⟩ := hsame
              have hvv : v' = v := by
                have := hv'.symm.trans hv
                injection this
              subst hvv
              simp only
              rw [vec_get_set_same dd _ _ hb.1 hd1, if_pos (Or.inr ⟨by trivial, by omega⟩)]
            · have hne : x' + y' * g.datasize.x ≠ x + y * g.datasize.x := by
                intro heq
                have heq' : g.datasize.x * y' + x' = g.datasize.x * y + x := by
                  have e1 : g.datasize.x * y' + x' = x' + y' * g.datasize.x := by ring
                  have e2 : g.datasize.x * y + x = x + y * g.datasize.x := by ring
                  rw [e1, e2]; exact heq
                exact hsame (flat_index_inj g.datasize.x x' y' x y hx0' hxw' hx0 hxw heq')
              simp only
              rw [vec_get_set_other dd _ _ _ hb.1 hne, hdv']
              have : (y' < y ∨ (y' = y ∧ x' < x + 1)) ↔ (y' < y ∨ (y' = y ∧ x' < x)) := by
                constructor
                · rintro (h2 | ⟨h2, h3⟩)
                  · exact Or.inl h2
                  · refine Or.inr ⟨h2, ?_⟩
                    by_contra hc
                    exact hsame ⟨by omega, h2⟩
                · rintro (h2 | ⟨h2, h3⟩)
                  · exact Or.inl h2
                  · exact Or.inr ⟨h2, by omega⟩
              simp only [this])
      simp only at hz' hlen' hcells'
      refine ⟨(z', d'), hrun, ?_, hlen', ?_⟩
      · simp only [hz']; ring
      · intro x' y' hx0 hxw hy0' hyh'
        obtain ⟨v, hv, hd⟩ := hcells' x' y' hx0 hxw hy0' hyh'
        refine ⟨v, hv, ?_⟩
        simp only
        rw [hd]
        have : (y' < y ∨ (y' = y ∧ x' < g.datasize.x)) ↔ y' < y + 1 := by
          constructor
          · intro h; omega
          · intro h
            by_cases hlt : y' < y
            · exact Or.inl hlt
            · exact Or.inr ⟨by omega, hxw⟩
        simp only [this])
  obtain ⟨⟨z, d⟩, hrun, _, hlenF, hcellsF⟩ := hloops
  simp only at hlenF hcellsF
  refine ⟨d, ?_, hlenF, ?_⟩
  · simp only [bivector.for_each_xy_mut]
    rw [hrun]
  · intro x y hx0 hxw hy0 hyh
    obtain ⟨v, hv, hd⟩ := hcellsF x y hx0 hxw hy0 hyh
    refine ⟨v, hv, ?_⟩
    rw [hd, if_pos hyh]

/-! ## sub_area -/

/-- What `sub_area` computes when the requested rectangle is non-negative and lies inside
a grid satisfying the invariant. -/
theorem sub_area_cells {T : Type} [Inhabited T] (g : bivector T) (hwf : g.wf)
    (offset sz : vector2i) (hox : 0 ≤ offset.x) (hoy : 0 ≤ offset.y) (hsx : 0 ≤ sz.x)
    (hsy : 0 ≤ sz.y) (hfx : offset.x + sz.x ≤ g.datasize.x)
    (hfy : offset.y + sz.y ≤ g.datasize.y) (hfit : g.datasize.x * g.datasize.y < 2 ^ 31) :
    ∃ d : List T, g.sub_area offset sz = .ok ⟨sz, d⟩ ∧ (d.length : Int) = sz.x * sz.y ∧
      ∀ x y : Int, 0 ≤ x → x < sz.x → 0 ≤ y → y < sz.y →
        ∃ v : T, vec_get g.data ((offset.x + x) + (offset.y + y) * g.datasize.x) = .ok v ∧
          vec_get d (x + y * sz.x) = .ok v := by
  have hN : 0 ≤ sz.x * sz.y := mul_nonneg hsx hsy
  have hres : (bivector.mk sz (List.replicate (sz.x * sz.y).toNat (default : T))).wf :=
    ⟨hsx, hsy, by simp [Int.toNat_of_nonneg hN]⟩
  have hsrc : ∀ x y : Int, 0 ≤ x → x < sz.x → 0 ≤ y → y < sz.y →
      ∃ v : T, vec_get g.data ((offset.x + x) + (offset.y + y) * g.datasize.x) = .ok v := by
    intro x y hx0 hxs hy0 hys
    have hb := flat_index_bounds g.datasize.x g.datasize.y (offset.x + x) (offset.y + y)
      (by omega) (by omega) (by omega) (by omega)
    exact vec_get_of_lt g.data _ hb.1 (by rw [hwf.2.2]; exact hb.2)
  obtain ⟨d, hrun, hlen, hcells⟩ := for_each_xy_mut_cells
    (bivector.mk sz (List.replicate (sz.x * sz.y).toNat (default : T))) hres
    (fun _ xy _ => g.index_get (offset.add xy))
    (fun v x y =>
      match vec_get g.data ((offset.x + x) + (offset.y + y) * g.datasize.x) with
      | .ok a => a
      | .error _ => v)
    (by
      intro x y v hx0 hxs hy0 hys
      obtain ⟨a, ha⟩ := hsrc x y hx0 hxs hy0 hys
      simp only [index_get_eq_vec_get, vector2i.add, ha])
  refine ⟨d, ?_, ?_, ?_⟩
  · have h1 : ¬ (offset.y + sz.y > g.datasize.y) := by omega
    have h2 : ¬ (offset.x + sz.x > g.datasize.x) := by omega
    have hfs : sz.x * sz.y < 2 ^ 31 :=
      lt_of_le_of_lt (mul_le_mul (by omega) (by omega) hsy (by omega)) hfit
    have hc : bivector.ctor sz (default : T) =
        .ok ⟨sz, List.replicate (sz.x * sz.y).toNat default⟩ :=
      ctor_of_nonneg sz.x sz.y default hsx hsy hfs
    simp only [bivector.sub_area, h1, h2, if_false, hc, hrun]
  · rw [hlen]; simp [Int.toNat_of_nonneg hN]
  · intro x y hx0 hxs hy0 hys
    obtain ⟨a, ha⟩ := hsrc x y hx0 hxs hy0 hys
    obtain ⟨v, _, hd⟩ := hcells x y hx0 hxs hy0 hys
    simp only [ha] at hd
    exact ⟨a, ha, hd⟩

/-- C8: for a grid `g` of size `(w,h)` satisfying the invariant (its element count `w*h`
an `int`), an offset `≥ (0,0)` and a size `≥ (0,0)` with `ox+sx ≤ w`, `oy+sy ≤ h`,
`sub_area(offset,size)` succeeds, has size `(sx,sy)`, and
`sub_area(offset,size).at(p) == g.at(offset+p)` for every `p` inside the size. -/
theorem sub_area_round_trip {T : Type} [Inhabited T] (g : bivector T) (hwf : g.wf)
    (hfit : g.size.x * g.size.y < 2 ^ 31)
    (offset sz : vector2i) (hox : 0 ≤ offset.x) (hoy : 0 ≤ offset.y) (hsx : 0 ≤ sz.x)
    (hsy : 0 ≤ sz.y) (hfx : offset.x + sz.x ≤ g.size.x) (hfy : offset.y + sz.y ≤ g.size.y) :
    ∃ r : bivector T, g.sub_area offset sz = .ok r ∧ r.size = sz ∧
      ∀ p : vector2i, 0 ≤ p.x → p.x < sz.x → 0 ≤ p.y → p.y < sz.y →
        ∃ v : T, g.at_p_get (offset.add p) = .ok v ∧ r.at_p_get p = .ok v := by
  obtain ⟨d, hrun, _, hcells⟩ := sub_area_cells g hwf offset sz hox hoy hsx hsy hfx hfy hfit
  refine ⟨⟨sz, d⟩, hrun, rfl, ?_⟩
  intro p hx0 hxs hy0 hys
  simp only [bivector.size] at hfx hfy
  obtain ⟨v, hv, hd⟩ := hcells p.x p.y hx0 hxs hy0 hys
  refine ⟨v, ?_, ?_⟩
  · show g.at_get (offset.add p).x (offset.add p).y = .ok v
    rw [at_get_eq_vec_get]
    simp only [vector2i.add, ge_iff_le]
    rw [if_neg (by omega)]
    exact hv
  · show (bivector.mk sz d).at_get p.x p.y = .ok v
    rw [at_get_eq_vec_get]
    simp only [ge_iff_le]
    rw [if_neg (by omega)]
    exact hd

/-- Witness of C8: the lower-right (1,1) corner of the (2,2) grid. -/
theorem sub_area_round_trip_witness :
    grid22.wf ∧ (0 : Int) ≤ (⟨1, 1⟩ : vector2i).x ∧ (1 : Int) + 1 ≤ grid22.size.x ∧
    ∃ r : bivector Int, grid22.sub_area ⟨1, 1⟩ ⟨1, 1⟩ = .ok r ∧ r.size = ⟨1, 1⟩ ∧
      ∀ p : vector2i, 0 ≤ p.x → p.x < (⟨1, 1⟩ : vector2i).x → 0 ≤ p.y →
        p.y < (⟨1, 1⟩ : vector2i).y →
        ∃ v : Int, grid22.at_p_get ((⟨1, 1⟩ : vector2i).add p) = .ok v ∧
          r.at_p_get p = .ok v :=
  ⟨by decide, by decide, by decide,
    sub_area_round_trip grid22 (by decide) (by decide) ⟨1, 1⟩ ⟨1, 1⟩ (by decide) (by decide)
      (by decide) (by decide) (by decide) (by decide)⟩

/-- Invariant rule for the const `for_each_xy` on a grid satisfying the invariant: an
invariant indexed by the number `z` of cells visited, carried by `func` at every cell
`(x,y)` (visited with `z = x + y*w` and the value stored there), holds after all `w*h`
cells, and the traversal completes. -/
theorem for_each_xy_inv {T σ : Type} (g : bivector T) (hwf : g.wf)
    (func : T → vector2i → Int → σ → Except Error σ) (Inv : Int → σ → Prop) (s0 : σ)
    (h0 : Inv 0 s0)
    (hstep : ∀ (x y : Int) (v : T) (s : σ), 0 ≤ x → x < g.datasize.x → 0 ≤ y →
      y < g.datasize.y → vec_get g.data (x + y * g.datasize.x) = .ok v →
      Inv (x + y * g.datasize.x) s →
      ∃ s', func v ⟨x, y⟩ (x + y * g.datasize.x) s = .ok s' ∧
        Inv (x + y * g.datasize.x + 1) s') :
    ∃ s', g.for_each_xy func s0 = .ok s' ∧ Inv (g.datasize.y * g.datasize.x) s' := by
  obtain ⟨hw0, hh0, hlen⟩ := hwf
  obtain ⟨⟨z, s⟩, hrun, hz, hinv⟩ := forLoop_inv (ε := Error)
    (fun (y : Int) (zs : Int × σ) => zs.1 = y * g.datasize.x ∧ Inv (y * g.datasize.x) zs.2)
    (fun y zs =>
      forLoop 0 g.datasize.x (fun x zs =>
        match vec_get g.data zs.1 with
        | .error e => .error e
        | .ok value =>
          match func value ⟨x, y⟩ zs.1 zs.2 with
          | .error e => .error e
          | .ok s' => .ok (zs.1 + 1, s')) zs)
    0 g.datasize.y ((0 : Int), s0) hh0
    (by simpa using h0)
    (by
      rintro y ⟨z, s⟩ hy0 hyh ⟨hz, hinvY⟩
      simp only at hz hinvY
      obtain ⟨⟨z', s'⟩, hrun, hz', hinv'⟩ := forLoop_inv (ε := Error)
        (fun (x : Int) (zs : Int × σ) =>
          zs.1 = x + y * g.datasize.x ∧ Inv (x + y * g.datasize.x) zs.2)
        (fun x zs =>
          match vec_get g.data zs.1 with
          | .error e => .error e
          | .ok value =>
            match func value ⟨x, y⟩ zs.1 zs.2 with
            | .error e => .error e
            | .ok s' => .ok (zs.1 + 1, s'))
        0 g.datasize.x (z, s) hw0
        (by simpa [hz] using hinvY)
        (by
          rintro x ⟨zz, t⟩ hx0 hxw ⟨hzz, hinvX⟩
          simp only at hzz hinvX
          subst hzz
          have hb := flat_index_bounds g.datasize.x g.datasize.y x y hx0 hxw hy0 hyh
          obtain ⟨v, hv⟩ := vec_get_of_lt g.data (x + y * g.datasize.x) hb.1
            (by rw [hlen]; exact hb.2)
          obtain ⟨t', ht', hinvT⟩ := hstep x y v t hx0 hxw hy0 hyh hv hinvX
          refine ⟨(x + y * g.datasize.x + 1, t'), ?_, ?_, ?_⟩
          · simp only [hv, ht']
          · simp only; ring
          · have e : x + 1 + y * g.datasize.x = x + y * g.datasize.x + 1 := by ring
            simp only [e]; exact hinvT)
      simp only at hz' hinv'
      have e : (y + 1) * g.datasize.x = g.datasize.x + y * g.datasize.x := by ring
      exact ⟨(z', s'), hrun, by simp only [hz', e], by simp only [e]; exact hinv'⟩)
  simp only at hinv
  refine ⟨s, ?_, hinv⟩
  simp only [bivector.for_each_xy]
  rw [hrun]

/-! ## transposed -/

/-- What `transposed` computes on a grid satisfying the invariant. -/
theorem transposed_cells {T : Type} [Inhabited T] (g : bivector T) (hwf : g.wf)
    (hfit : g.datasize.x * g.datasize.y < 2 ^ 31) :
    ∃ d : List T, g.transposed = .ok ⟨⟨g.datasize.y, g.datasize.x⟩, d⟩ ∧
      (d.length : Int) = g.datasize.y * g.datasize.x ∧
      ∀ x y : Int, 0 ≤ x → x < g.datasize.x → 0 ≤ y → y < g.datasize.y →
        vec_get d (y + x * g.datasize.y) = vec_get g.data (x + y * g.datasize.x) := by
  obtain ⟨hw0, hh0, hlen⟩ := hwf
  have hN : 0 ≤ g.datasize.y * g.datasize.x := mul_nonneg hh0 hw0
  obtain ⟨r, hrun, hsz, hrlen, hcells⟩ := for_each_xy_inv g ⟨hw0, hh0, hlen⟩
    (fun value xy _ (r : bivector T) => r.index_set ⟨xy.y, xy.x⟩ value)
    (fun (k : Int) (r : bivector T) => r.datasize = ⟨g.datasize.y, g.datasize.x⟩ ∧
      (r.data.length : Int) = g.datasize.y * g.datasize.x ∧
      ∀ x y : Int, 0 ≤ x → x < g.datasize.x → 0 ≤ y → y < g.datasize.y →
        x + y * g.datasize.x < k →
        vec_get r.data (y + x * g.datasize.y) = vec_get g.data (x + y * g.datasize.x))
    ⟨⟨g.datasize.y, g.datasize.x⟩, List.replicate (g.datasize.y * g.datasize.x).toNat default⟩
    (by
      refine ⟨rfl, by simp [Int.toNat_of_nonneg hN], ?_⟩
      intro x y hx0 hxw hy0 hyh hlt
      have hb := flat_index_bounds g.datasize.x g.datasize.y x y hx0 hxw hy0 hyh
      omega)
    (by
      rintro x y v ⟨rsz, rd⟩ hx0 hxw hy0 hyh hv ⟨hsz, hrlen, hcells⟩
      simp only at hsz hrlen hcells
      subst hsz
      have hdst := flat_index_bounds g.datasize.y g.datasize.x y x hy0 hyh hx0 hxw
      have hd1 : y + x * g.datasize.y < (rd.length : Int) := by rw [hrlen]; exact hdst.2
      refine ⟨⟨⟨g.datasize.y, g.datasize.x⟩, rd.set (y + x * g.datasize.y).toNat v⟩,
        ?_, rfl, ?_, ?_⟩
      · show bivector.index_set _ _ _ = _
        rw [index_set_eq_vec_set]
        simp only [vec_set_ok rd _ v hdst.1 hd1]
      · simpa using hrlen
      · intro x' y' hx0' hxw' hy0' hyh' hlt
        by_cases hsame : x' = x ∧ y' = y
        · obtain ⟨rfl, rfl⟩ := hsame
          simp only
          rw [vec_get_set_same rd _ v hdst.1 hd1, hv]
        · have hne1 : y' + x' * g.datasize.y ≠ y + x * g.datasize.y := by
            intro heq
            have heq' : g.datasize.y * x' + y' = g.datasize.y * x + y := by
              have e1 : g.datasize.y * x' + y' = y' + x' * g.datasize.y := by ring
              have e2 : g.datasize.y * x + y = y + x * g.datasize.y := by ring
              rw [e1, e2]; exact heq
            have := flat_index_inj g.datasize.y y' x' y x hy0' hyh' hy0 hyh heq'
            exact hsame ⟨this.2, this.1⟩
          have hne2 : x' + y' * g.datasize.x ≠ x + y * g.datasize.x := by
            intro heq
            have heq' : g.datasize.x * y' + x' = g.datasize.x * y + x := by
              have e1 : g.datasize.x * y' + x' = x' + y' * g.datasize.x := by ring
              have e2 : g.datasize.x * y + x = x + y * g.datasize.x := by ring
              rw [e1, e2]; exact heq
            exact hsame (flat_index_inj g.datasize.x x' y' x y hx0' hxw' hx0 hxw heq')
          simp only
          rw [vec_get_set_other rd _ _ v hdst.1 hne1]
          exact hcells x' y' hx0' hxw' hy0' hyh' (by omega))
  obtain ⟨rsz, rd⟩ := r
  simp only at hsz hrlen hcells
  subst hsz
  refine ⟨rd, ?_, hrlen, ?_⟩
  · have hc : bivector.ctor ⟨g.datasize.y, g.datasize.x⟩ (default : T) =
        .ok ⟨⟨g.datasize.y, g.datasize.x⟩,
          List.replicate (g.datasize.y * g.datasize.x).toNat default⟩ :=
      ctor_of_nonneg g.datasize.y g.datasize.x default hh0 hw0 (by rw [mul_comm]; exact hfit)
    simp only [bivector.transposed, hc]
    exact hrun
  · intro x y hx0 hxw hy0 hyh
    have hb := flat_index_bounds g.datasize.x g.datasize.y x y hx0 hxw hy0 hyh
    have e : g.datasize.y * g.datasize.x = g.datasize.x * g.datasize.y := by ring
    exact hcells x y hx0 hxw hy0 hyh (by rw [e]; exact hb.2)

/-- C10: for a grid `g` of size `(w,h)` satisfying the invariant (its element count an
`int`), `transposed()` returns a
grid of size `(h,w)` with `transposed().at(y,x) == g.at(x,y)` for every `0 ≤ x < w`,
`0 ≤ y < h`. -/
theorem transposed_mirrors {T : Type} [Inhabited T] (g : bivector T) (hwf : g.wf)
    (hfit : g.size.x * g.size.y < 2 ^ 31) :
    ∃ r : bivector T, g.transposed = .ok r ∧ r.size = ⟨g.size.y, g.size.x⟩ ∧
      ∀ x y : Int, 0 ≤ x → x < g.size.x → 0 ≤ y → y < g.size.y →
        ∃ v : T, g.at_get x y = .ok v ∧ r.at_get y x = .ok v := by
  obtain ⟨d, hrun, _, hcells⟩ := transposed_cells g hwf hfit
  refine ⟨_, hrun, rfl, ?_⟩
  intro x y hx0 hxw hy0 hyh
  simp only [bivector.size] at hxw hyh
  have hb := flat_index_bounds g.datasize.x g.datasize.y x y hx0 hxw hy0 hyh
  obtain ⟨v, hv⟩ := vec_get_of_lt g.data (x + y * g.datasize.x) hb.1
    (by rw [hwf.2.2]; exact hb.2)
  refine ⟨v, ?_, ?_⟩
  · rw [at_get_eq_vec_get, if_neg (by omega), hv]
  · rw [at_get_eq_vec_get]
    simp only [ge_iff_le]
    rw [if_neg (by omega), hcells x y hx0 hxw hy0 hyh, hv]

/-- Witness of C10 on the (2,2) grid. -/
theorem transposed_mirrors_witness :
    grid22.wf ∧
    ∃ r : bivector Int, grid22.transposed = .ok r ∧ r.size = ⟨grid22.size.y, grid22.size.x⟩ ∧
      ∀ x y : Int, 0 ≤ x → x < grid22.size.x → 0 ≤ y → y < grid22.size.y →
        ∃ v : Int, grid22.at_get x y = .ok v ∧ r.at_get y x = .ok v :=
  ⟨by decide, transposed_mirrors grid22 (by decide) (by decide)⟩

/-! ## The class invariant -/

theorem wf_of_same_shape {T : Type} (a b : bivector T) (h : a.same_shape b) (hb : b.wf) :
    a.wf := by
  obtain ⟨h1, h2⟩ := h
  unfold bivector.wf at hb ⊢
  rw [h1, h2]
  exact hb

/-- A constructed grid has the size it was asked for. -/
theorem ctor_datasize {T : Type} (sz : vector2i) (v : T) (g : bivector T)
    (h : bivector.ctor sz v = .ok g) : g.datasize = sz := by
  unfold bivector.ctor at h
  split at h
  · cases h
  · split at h
    · cases h
    · cases h; rfl

/-- A constructed grid whose element count fits an `int` satisfies the invariant. -/
theorem ctor_wf {T : Type} (sz : vector2i) (v : T) (g : bivector T)
    (h : bivector.ctor sz v = .ok g) (hfit : g.datasize.x * g.datasize.y < 2 ^ 31) : g.wf := by
  rw [ctor_datasize sz v g h] at hfit
  by_cases hn : sz.x < 0 ∨ sz.y < 0
  · rw [ctor_negative_cases sz v hn] at h
    split at h <;> cases h
  · have hx : 0 ≤ sz.x := by omega
    have hy : 0 ≤ sz.y := by omega
    have hc : bivector.ctor sz v = .ok ⟨sz, List.replicate (sz.x * sz.y).toNat v⟩ :=
      ctor_of_nonneg sz.x sz.y v hx hy hfit
    rw [hc] at h
    cases h
    exact ⟨hx, hy, by simp [Int.toNat_of_nonneg (mul_nonneg hx hy)]⟩

/-- A grid of the shape of a constructed grid satisfies the invariant when its element
count fits an `int`. -/
theorem wf_of_same_shape_ctor {T : Type} (r r0 : bivector T) (sz : vector2i) (v : T)
    (hs : r.same_shape r0) (hc : bivector.ctor sz v = .ok r0)
    (hfit : r.datasize.x * r.datasize.y < 2 ^ 31) : r.wf :=
  wf_of_same_shape r r0 hs (ctor_wf sz v r0 hc (by rw [← hs.1]; exact hfit))

theorem store_same_shape {T : Type} (r r' : bivector T) (ref : Except Error Nat) (v : T)
    (h : r.store ref v = .ok r') : r'.same_shape r := by
  unfold bivector.store at h
  cases ref with
  | error e => cases h
  | ok i => cases h; exact ⟨rfl, by simp⟩

theorem at_assign_same_shape {T : Type} (r r' : bivector T) (x y : Int) (e : Except Error T)
    (h : r.at_assign x y e = .ok r') : r'.same_shape r := by
  unfold bivector.at_assign at h
  cases e with
  | error err => cases h
  | ok v => exact store_same_shape r r' _ v h

theorem index_set_same_shape {T : Type} (r r' : bivector T) (p : vector2i) (v : T)
    (h : r.index_set p v = .ok r') : r'.same_shape r :=
  store_same_shape r r' _ v h

theorem same_shape_trans {T : Type} (a b c : bivector T) (h1 : a.same_shape b)
    (h2 : b.same_shape c) : a.same_shape c :=
  ⟨h1.1.trans h2.1, h1.2.trans h2.2⟩

/-- A successful bind has a successful first step. -/
theorem bind_ok_inv {ε α β : Type} (m : Except ε α) (f : α → Except ε β) (b : β)
    (h : (m >>= f) = .ok b) : ∃ a, m = .ok a ∧ f a = .ok b := by
  cases m with
  | error e => cases h
  | ok a => exact ⟨a, rfl, h⟩

/-- A loop whose iterations keep the shape of the grid keeps it. -/
theorem forLoop_same_shape {T : Type} (lo hi : Int)
    (body : Int → bivector T → Except Error (bivector T))
    (hbody : ∀ i r r', body i r = .ok r' → r'.same_shape r) (r r' : bivector T)
    (h : forLoop lo hi body r = .ok r') : r'.same_shape r := by
  have hk := loopN_keeps (fun t : bivector T => t.same_shape r) (fun _ : Error => True) body
    (by
      intro j t ht
      cases hb : body j t with
      | error e => trivial
      | ok t' => exact same_shape_trans _ _ _ (hbody j t t' hb) ht)
    (hi - lo).toNat lo r ⟨rfl, rfl⟩
  unfold forLoop at h
  rw [h] at hk
  exact hk

/-- A property that every successful iteration keeps is kept by a successful loop. -/
theorem forLoop_keeps {ε σ : Type} (P : σ → Prop) (lo hi : Int)
    (body : Int → σ → Except ε σ) (hbody : ∀ i s s', P s → body i s = .ok s' → P s')
    (s s' : σ) (hs : P s) (h : forLoop lo hi body s = .ok s') : P s' := by
  have hk := loopN_keeps P (fun _ : ε => True) body
    (by
      intro j t ht
      cases hb : body j t with
      | error e => trivial
      | ok t' => exact hbody j t t' ht hb)
    (hi - lo).toNat lo s hs
  unfold forLoop at h
  rw [h] at hk
  exact hk

/-- A loop keeps a property of its state, and a property of the error it may return,
when every iteration does. -/
theorem forLoop_keeps_both {ε σ : Type} (P : σ → Prop) (Q : ε → Prop) (lo hi : Int)
    (body : Int → σ → Except ε σ)
    (hbody : ∀ j t, P t → match body j t with
      | .ok t' => P t'
      | .error e => Q e)
    (s : σ) (hs : P s) :
    match forLoop lo hi body s with
    | .ok s' => P s'
    | .error e => Q e :=
  loopN_keeps P Q body hbody (hi - lo).toNat lo s hs

theorem resize_wf {T : Type} [Inhabited T] (g : bivector T) (hwf : g.wf) (newsz : vector2i)
    (v : T) (hfit : newsz.x * newsz.y < 2 ^ 31) :
    match g.resize newsz v with
    | .ok g' => g'.wf
    | .error e => e.2.wf := by
  unfold bivector.resize
  by_cases hneg : newsz.x < 0 ∨ newsz.y < 0
  · simp only [hneg, if_true]; exact hwf
  · have hN : 0 ≤ newsz.x * newsz.y := mul_nonneg (by omega) (by omega)
    simp only [hneg, if_false, vector_n,
      int_mul_of_fits newsz.x newsz.y (by omega) (by omega) hfit, not_lt.mpr hN]
    generalize hrun : forLoop 0 (g.datasize.min newsz).y _ _ = res
    cases res with
    | error e => exact hwf
    | ok nd =>
      have hlen := forLoop_keeps (fun d : List T => d.length = (newsz.x * newsz.y).toNat) _ _ _
        (by
          intro i s s' hs hb
          exact forLoop_keeps (fun d : List T => d.length = (newsz.x * newsz.y).toNat) _ _ _
            (by
              intro j t t' ht hbt
              split at hbt
              · cases hbt
              · show t'.length = _
                rw [vec_set_length _ _ _ _ hbt]; exact ht)
            s s' hs hb)
        _ nd (by simp) hrun
      simp only at hlen
      refine ⟨?_, ?_, ?_⟩
      · show 0 ≤ newsz.x
        omega
      · show 0 ≤ newsz.y
        omega
      · show (nd.length : Int) = newsz.x * newsz.y
        rw [hlen]; exact Int.toNat_of_nonneg hN

theorem for_each_xy_ref_same_shape {T : Type} (g : bivector T)
    (func : bivector T → T → vector2i → Int → Except Error T) :
    match g.for_each_xy_ref func with
    | .ok g' => g'.same_shape g
    | .error e => e.2.same_shape g := by
  have hk := forLoop_keeps_both (fun zd : Int × List T => zd.2.length = g.data.length)
    (fun e : Error × bivector T => e.2.same_shape g) 0 g.datasize.y
    (fun y zd =>
      forLoop 0 g.datasize.x (fun x (zd : Int × List T) =>
        match vec_get zd.2 zd.1 with
        | .error e => .error (e, (⟨g.datasize, zd.2⟩ : bivector T))
        | .ok value =>
          match func ⟨g.datasize, zd.2⟩ value ⟨x, y⟩ zd.1 with
          | .error e => .error (e, ⟨g.datasize, zd.2⟩)
          | .ok value' => .ok (zd.1 + 1, zd.2.set zd.1.toNat value')) zd)
    (by
      intro y zd hzd
      exact forLoop_keeps_both (fun zd : Int × List T => zd.2.length = g.data.length)
        (fun e : Error × bivector T => e.2.same_shape g) 0 g.datasize.x _
        (by
          intro x t ht
          cases hv : vec_get t.2 t.1 with
          | error e => exact ⟨rfl, ht⟩
          | ok value =>
            dsimp only
            cases hf : func ⟨g.datasize, t.2⟩ value ⟨x, y⟩ t.1 with
            | error e => exact ⟨rfl, ht⟩
            | ok value' =>
              dsimp only
              simpa using ht)
        zd hzd)
    ((0 : Int), g.data) rfl
  unfold bivector.for_each_xy_ref
  generalize hrun : forLoop 0 g.datasize.y _ _ = res at hk ⊢
  cases res with
  | error e => exact hk
  | ok zd => exact ⟨rfl, hk⟩

/-- A callback that does not read the receiver: the two renderings of the non-const
`for_each_xy` are the same computation. -/
theorem for_each_xy_ref_const {T : Type} (g : bivector T)
    (func : T → vector2i → Int → Except Error T) :
    g.for_each_xy_ref (fun _ => func) = g.for_each_xy_mut func := rfl

theorem for_each_xy_mut_same_shape {T : Type} (g : bivector T)
    (func : T → vector2i → Int → Except Error T) :
    match g.for_each_xy_mut func with
    | .ok g' => g'.same_shape g
    | .error e => e.2.same_shape g :=
  for_each_xy_ref_same_shape g (fun _ => func)

theorem for_each_xy_keeps {T σ : Type} (P : σ → Prop) (g : bivector T)
    (func : T → vector2i → Int → σ → Except Error σ)
    (hfunc : ∀ v xy z s s', P s → func v xy z s = .ok s' → P s') (s s' : σ) (hs : P s)
    (h : g.for_each_xy func s = .ok s') : P s' := by
  unfold bivector.for_each_xy at h
  split at h
  · cases h
  · rename_i zs hzs
    cases h
    exact forLoop_keeps (fun zs : Int × σ => P zs.2) _ _ _
      (by
        intro y t t' ht hb
        exact forLoop_keeps (fun zs : Int × σ => P zs.2) _ _ _
          (by
            intro x u u' hu hbu
            split at hbu
            · cases hbu
            · split at hbu
              · cases hbu
              · rename_i hf
                cases hbu
                exact hfunc _ _ _ _ _ hu hf)
          t t' ht hb)
      _ zs hs hzs

theorem bind_same_shape {T : Type} (m : Except Error (bivector T))
    (f : bivector T → Except Error (bivector T)) (r r' : bivector T)
    (hm : ∀ a, m = .ok a → a.same_shape r) (hf : ∀ a b, f a = .ok b → b.same_shape a)
    (h : (m >>= f) = .ok r') : r'.same_shape r := by
  obtain ⟨a, ha, hb⟩ := bind_ok_inv m f r' h
  exact same_shape_trans _ _ _ (hf a r' hb) (hm a ha)

theorem upsampled_wf {T : Type} [Field T] [Inhabited T] (g : bivector T) (wrap : Bool)
    (r : bivector T) (h : g.upsampled wrap = .ok r)
    (hfit : r.datasize.x * r.datasize.y < 2 ^ 31) : r.wf := by
  unfold bivector.upsampled at h
  split at h
  · cases h
  · obtain ⟨r0, hc, h⟩ := bind_ok_inv _ _ _ h
    obtain ⟨r1, h1, h⟩ := bind_ok_inv _ _ _ h
    obtain ⟨r2, h2, h⟩ := bind_ok_inv _ _ _ h
    obtain ⟨r3, h3, h⟩ := bind_ok_inv _ _ _ h
    have s1 : r1.same_shape r0 :=
      forLoop_same_shape _ _ _ (fun y a b hb =>
        forLoop_same_shape _ _ _ (fun x c d hd =>
          bind_same_shape _ _ _ _ (fun u hu => at_assign_same_shape _ _ _ _ _ hu)
            (fun u v hv => at_assign_same_shape _ _ _ _ _ hv) hd) _ _ hb) _ _ h1
    have s2 : r2.same_shape r1 := by
      split at h2
      · exact forLoop_same_shape _ _ _ (fun y a b hb =>
          bind_same_shape _ _ _ _ (fun u hu => at_assign_same_shape _ _ _ _ _ hu)
            (fun u v hv => at_assign_same_shape _ _ _ _ _ hv) hb) _ _ h2
      · exact forLoop_same_shape _ _ _ (fun y a b hb =>
          at_assign_same_shape _ _ _ _ _ hb) _ _ h2
    have s3 : r3.same_shape r2 :=
      forLoop_same_shape _ _ _ (fun y a b hb =>
        forLoop_same_shape _ _ _ (fun x c d hd =>
          at_assign_same_shape _ _ _ _ _ hd) _ _ hb) _ _ h3
    have s4 : r.same_shape r3 := by
      split at h
      · exact forLoop_same_shape _ _ _ (fun x a b hb =>
          at_assign_same_shape _ _ _ _ _ hb) _ _ h
      · cases h; exact ⟨rfl, rfl⟩
    exact wf_of_same_shape_ctor _ _ _ _
      (same_shape_trans _ _ _ s4 (same_shape_trans _ _ _ s3 (same_shape_trans _ _ _ s2 s1)))
      hc hfit

theorem downsampled_wf {T : Type} [Field T] [Inhabited T] (g : bivector T)
    (force_even_size : Bool) (r : bivector T) (h : g.downsampled force_even_size = .ok r)
    (hfit : r.datasize.x * r.datasize.y < 2 ^ 31) : r.wf := by
  unfold bivector.downsampled at h
  obtain ⟨r0, hc, h⟩ := bind_ok_inv _ _ _ h
  obtain ⟨r1, h1, h⟩ := bind_ok_inv _ _ _ h
  have s1 : r1.same_shape r0 :=
    forLoop_same_shape _ _ _ (fun y a b hb =>
      forLoop_same_shape _ _ _ (fun x c d hd =>
        at_assign_same_shape _ _ _ _ _ hd) _ _ hb) _ _ h1
  have s2 : r.same_shape r1 := by
    split at h
    · cases h; exact ⟨rfl, rfl⟩
    · obtain ⟨r2, h2, h⟩ := bind_ok_inv _ _ _ h
      obtain ⟨r3, h3, h⟩ := bind_ok_inv _ _ _ h
      have t2 : r2.same_shape r1 := by
        split at h2
        · exact forLoop_same_shape _ _ _ (fun y a b hb =>
            at_assign_same_shape _ _ _ _ _ hb) _ _ h2
        · cases h2; exact ⟨rfl, rfl⟩
      have t3 : r3.same_shape r2 := by
        split at h3
        · exact forLoop_same_shape _ _ _ (fun y a b hb =>
            at_assign_same_shape _ _ _ _ _ hb) _ _ h3
        · cases h3; exact ⟨rfl, rfl⟩
      have t4 : r.same_shape r3 := by
        split at h
        · exact at_assign_same_shape _ _ _ _ _ h
        · cases h; exact ⟨rfl, rfl⟩
      exact same_shape_trans _ _ _ t4 (same_shape_trans _ _ _ t3 t2)
  exact wf_of_same_shape_ctor _ _ _ _ (same_shape_trans _ _ _ s2 s1) hc hfit

theorem smooth_upsampled_wf {T : Type} [Field T] [Inhabited T] (g : bivector T) (wrap : Bool)
    (r : bivector T) (h : g.smooth_upsampled wrap = .ok r)
    (hfit : r.datasize.x * r.datasize.y < 2 ^ 31) : r.wf := by
  unfold bivector.smooth_upsampled at h
  split at h
  · cases h
  · obtain ⟨r0, hc, h⟩ := bind_ok_inv _ _ _ h
    obtain ⟨r1, h1, h⟩ := bind_ok_inv _ _ _ h
    obtain ⟨r2, h2, h⟩ := bind_ok_inv _ _ _ h
    obtain ⟨r3, h3, h⟩ := bind_ok_inv _ _ _ h
    have s1 : r1.same_shape r0 :=
      forLoop_same_shape _ _ _ (fun y a b hb =>
        bind_same_shape _ _ _ _ (fun u hu => at_assign_same_shape _ _ _ _ _ hu)
          (fun u v hv =>
            bind_same_shape _ _ _ _
              (fun u' hu' => forLoop_same_shape _ _ _ (fun x c d hd =>
                bind_same_shape _ _ _ _ (fun p hp => at_assign_same_shape _ _ _ _ _ hp)
                  (fun p q hq => at_assign_same_shape _ _ _ _ _ hq) hd) _ _ hu')
              (fun u' v' hv' =>
                bind_same_shape _ _ _ _ (fun p hp => at_assign_same_shape _ _ _ _ _ hp)
                  (fun p q hq => at_assign_same_shape _ _ _ _ _ hq) hv') hv) hb) _ _ h1
    have s2 : r2.same_shape r1 := by
      split at h2
      · exact forLoop_same_shape _ _ _ (fun y a b hb =>
          bind_same_shape _ _ _ _ (fun u hu => at_assign_same_shape _ _ _ _ _ hu)
            (fun u v hv =>
              bind_same_shape _ _ _ _ (fun p hp => at_assign_same_shape _ _ _ _ _ hp)
                (fun p q hq => at_assign_same_shape _ _ _ _ _ hq) hv) hb) _ _ h2
      · exact forLoop_same_shape _ _ _ (fun y a b hb =>
          bind_same_shape _ _ _ _ (fun u hu => at_assign_same_shape _ _ _ _ _ hu)
            (fun u v hv => at_assign_same_shape _ _ _ _ _ hv) hb) _ _ h2
    have s3 : r3.same_shape r2 :=
      forLoop_same_shape _ _ _ (fun y a b hb =>
        forLoop_same_shape _ _ _ (fun x c d hd =>
          at_assign_same_shape _ _ _ _ _ hd) _ _ hb) _ _ h3
    have s4 : r.same_shape r3 := by
      split at h
      · exact forLoop_same_shape _ _ _ (fun y a b hb =>
          bind_same_shape _ _ _ _ (fun u hu => at_assign_same_shape _ _ _ _ _ hu)
            (fun u v hv =>
              bind_same_shape _ _ _ _ (fun p hp => at_assign_same_shape _ _ _ _ _ hp)
                (fun p q hq => at_assign_same_shape _ _ _ _ _ hq) hv) hb) _ _ h
      · exact forLoop_same_shape _ _ _ (fun y a b hb =>
          bind_same_shape _ _ _ _ (fun u hu => at_assign_same_shape _ _ _ _ _ hu)
            (fun u v hv => at_assign_same_shape _ _ _ _ _ hv) hb) _ _ h
    exact wf_of_same_shape_ctor _ _ _ _
      (same_shape_trans _ _ _ s4 (same_shape_trans _ _ _ s3 (same_shape_trans _ _ _ s2 s1)))
      hc hfit

theorem sub_area_wf {T : Type} [Inhabited T] (g : bivector T) (offset sz : vector2i)
    (r : bivector T) (h : g.sub_area offset sz = .ok r)
    (hfit : r.datasize.x * r.datasize.y < 2 ^ 31) : r.wf := by
  unfold bivector.sub_area at h
  split at h
  · cases h
  · split at h
    · cases h
    · cases hc : bivector.ctor sz (default : T) with
      | error e => rw [hc] at h; cases h
      | ok r0 =>
        rw [hc] at h
        dsimp only at h
        have hs := for_each_xy_mut_same_shape r0 (fun _ xy _ => g.index_get (offset.add xy))
        generalize bivector.for_each_xy_mut r0 _ = res at h hs
        cases res with
        | error e => cases h
        | ok r1 =>
          cases h
          exact wf_of_same_shape_ctor _ _ _ _ hs hc hfit

theorem transposed_wf {T : Type} [Inhabited T] (g : bivector T) (r : bivector T)
    (h : g.transposed = .ok r)
    (hfit : r.datasize.x * r.datasize.y < 2 ^ 31) : r.wf := by
  unfold bivector.transposed at h
  cases hc : bivector.ctor ⟨g.datasize.y, g.datasize.x⟩ (default : T) with
  | error e => rw [hc] at h; cases h
  | ok r0 =>
    rw [hc] at h
    dsimp only at h
    have hs := for_each_xy_keeps (fun t : bivector T => t.same_shape r0) g _
      (fun v xy z s s' hs hf =>
        same_shape_trans _ _ _ (index_set_same_shape _ _ _ _ hf) hs) r0 r ⟨rfl, rfl⟩ h
    exact wf_of_same_shape_ctor _ _ _ _ hs hc hfit

theorem shifted_wf {T : Type} [Inhabited T] (g : bivector T) (offset : vector2i)
    (r : bivector T) (h : g.shifted offset = .ok r)
    (hfit : r.datasize.x * r.datasize.y < 2 ^ 31) : r.wf := by
  unfold bivector.shifted at h
  cases hc : bivector.ctor g.datasize (default : T) with
  | error e => rw [hc] at h; cases h
  | ok r0 =>
    rw [hc] at h
    dsimp only at h
    have hs := for_each_xy_keeps (fun t : bivector T => t.same_shape r0) g _
      (fun v xy z s s' hs hf =>
        same_shape_trans _ _ _ (index_set_same_shape _ _ _ _ hf) hs) r0 r ⟨rfl, rfl⟩ h
    exact wf_of_same_shape_ctor _ _ _ _ hs hc hfit

theorem insert_wf {T : Type} (g other : bivector T) (offset : vector2i) (hwf : g.wf)
    (r : bivector T) (h : g.insert other offset = .ok r) : r.wf := by
  unfold bivector.insert at h
  have hs := for_each_xy_keeps (fun t : bivector T => t.same_shape g) other _
    (fun v xy z s s' hs hf =>
      same_shape_trans _ _ _ (index_set_same_shape _ _ _ _ hf) hs) g r ⟨rfl, rfl⟩ h
  exact wf_of_same_shape _ _ hs hwf

/-- A property of the errors that every iteration establishes holds of the error a
failing loop returns. -/
theorem forLoop_error_keeps {ε σ : Type} (P : σ → Prop) (Q : ε → Prop) (lo hi : Int)
    (body : Int → σ → Except ε σ)
    (hbody : ∀ j t, P t → match body j t with
      | .ok t' => P t'
      | .error e => Q e)
    (s : σ) (hs : P s) (e : ε) (h : forLoop lo hi body s = .error e) : Q e := by
  have hk := forLoop_keeps_both P Q lo hi body hbody s hs
  rw [h] at hk
  exact hk

/-- The only way `insert` can fail is an unchecked access outside the storage. -/
theorem insert_error_undefined {T : Type} (g other : bivector T) (offset : vector2i)
    (e : Error) (h : g.insert other offset = .error e) : e = .undefined := by
  unfold bivector.insert bivector.for_each_xy at h
  split at h
  · rename_i e' hrun
    cases h
    refine forLoop_error_keeps (fun _ : Int × bivector T => True)
      (fun e : Error => e = .undefined) _ _ _ ?_ _ trivial _ hrun
    intro y zs _
    dsimp only
    generalize hin : forLoop 0 other.datasize.x _ zs = res
    cases res with
    | ok t => trivial
    | error e'' =>
      refine forLoop_error_keeps (fun _ : Int × bivector T => True)
        (fun e : Error => e = .undefined) _ _ _ ?_ _ trivial _ hin
      intro x t _
      cases hv : vec_get other.data t.1 with
      | error e =>
        dsimp only
        unfold vec_get at hv
        split at hv
        · split at hv
          · cases hv
          · cases hv; rfl
        · cases hv; rfl
      | ok value =>
        dsimp only
        cases hf : t.2.index_set (offset.add ⟨x, y⟩) value with
        | error e =>
          dsimp only
          unfold bivector.index_set bivector.index bivector.store at hf
          split at hf
          · rename_i e' he'
            split at he'
            · cases he'
            · cases he'; cases hf; rfl
          · cases hf
        | ok s' => trivial
  · cases h

theorem add_assign_grid_wf {T : Type} [Add T] (g v : bivector T) (hwf : g.wf) :
    match g.add_assign_grid v with
    | .ok g' => g'.wf
    | .error e => e.2.wf := by
  unfold bivector.add_assign_grid
  have hk := forLoop_keeps_both (fun d : List T => d.length = g.data.length)
    (fun e : Error × bivector T => e.2.same_shape g) 0 g.data.length
    (fun z (d : List T) =>
      match vec_get v.data z with
      | .error e => .error (e, (⟨g.datasize, d⟩ : bivector T))
      | .ok o =>
        match vec_get d z with
        | .error e => .error (e, ⟨g.datasize, d⟩)
        | .ok e => .ok (d.set z.toNat (e + o)))
    (by
      intro z d hd
      dsimp only
      cases hv : vec_get v.data z with
      | error e => exact ⟨rfl, hd⟩
      | ok o =>
        dsimp only
        cases hf : vec_get d z with
        | error e => exact ⟨rfl, hd⟩
        | ok value' =>
          dsimp only
          simpa using hd)
    g.data rfl
  generalize hrun : forLoop 0 (g.data.length : Int) _ _ = res at hk ⊢
  cases res with
  | error e => exact wf_of_same_shape _ g hk hwf
  | ok d =>
    have hk' : d.length = g.data.length := hk
    exact wf_of_same_shape _ g ⟨rfl, hk'⟩ hwf

theorem add_tiled_wf {T : Type} [Add T] [Mul T] (g other : bivector T) (scal : T)
    (hwf : g.wf) :
    match g.add_tiled other scal with
    | .ok g' => g'.wf
    | .error e => e.2.wf := by
  unfold bivector.add_tiled
  have hs := for_each_xy_mut_same_shape g (fun value xy _ =>
    match other.at_get (int_and xy.x (other.datasize.x - 1))
        (int_and xy.y (other.datasize.y - 1)) with
    | .error e => .error e
    | .ok o => .ok (value + o * scal))
  generalize bivector.for_each_xy_mut g _ = res at hs ⊢
  cases res with
  | error e => exact wf_of_same_shape _ _ hs hwf
  | ok d => exact wf_of_same_shape _ _ hs hwf

theorem add_shifted_wf {T : Type} [Add T] (g : bivector T) (other : grid_ref T)
    (offset : vector2i) (hwf : g.wf) :
    match g.add_shifted other offset with
    | .ok g' => g'.wf
    | .error e => e.2.wf := by
  unfold bivector.add_shifted
  have hs := for_each_xy_ref_same_shape g (fun cur value xy _ =>
    match (other.deref cur).at_get
        (int_and (xy.x + offset.x) ((other.deref cur).datasize.x - 1))
        (int_and (xy.y + offset.y) ((other.deref cur).datasize.y - 1)) with
    | .error e => .error e
    | .ok o => .ok (value + o))
  generalize bivector.for_each_xy_ref g _ = res at hs ⊢
  cases res with
  | error e => exact wf_of_same_shape _ _ hs hwf
  | ok d => exact wf_of_same_shape _ _ hs hwf

theorem convert_wf {T U : Type} [Inhabited U] (g : bivector T) (conv : T → U)
    (r : bivector U) (h : g.convert conv = .ok r)
    (hfit : r.datasize.x * r.datasize.y < 2 ^ 31) : r.wf := by
  unfold bivector.convert at h
  cases hc : bivector.ctor g.datasize (default : U) with
  | error e => rw [hc] at h; cases h
  | ok r0 =>
    rw [hc] at h
    dsimp only at h
    split at h
    · cases h
    · rename_i d hd
      cases h
      have hlen := forLoop_keeps (fun d : List U => d.length = r0.data.length) _ _ _
        (by
          intro z t t' ht hb
          split at hb
          · cases hb
          · show t'.length = _
            rw [vec_set_length _ _ _ _ hb]; exact ht)
        _ d rfl hd
      exact wf_of_same_shape_ctor _ r0 _ _ ⟨rfl, hlen⟩ hc hfit

/-- The operations other than `move_plain_data` keep the class invariant wherever the
element count of the grid they build fits an `int`: it holds for every constructed grid;
for the receiver after `resize`, `swap`, `*=`, `+=`, `add_tiled`, `add_shifted` and
`insert`, also when one of them throws; and for every grid returned by `sub_area`,
`shifted`, `transposed`, `convert`, `upsampled`, `downsampled` and `smooth_upsampled`. -/
theorem invariant_kept_by_other_operations {T : Type} [Field T] [LinearOrder T] [Inhabited T]
    (g other : bivector T) (hg : g.wf) (ho : other.wf) :
    (∀ (sz : vector2i) (v : T) (r : bivector T), bivector.ctor sz v = .ok r →
      r.size.x * r.size.y < 2 ^ 31 → r.wf) ∧
    (∀ (newsz : vector2i) (v : T), newsz.x * newsz.y < 2 ^ 31 →
      match g.resize newsz v with
      | .ok g' => g'.wf
      | .error e => e.2.wf) ∧
    ((g.swap other).1.wf ∧ (g.swap other).2.wf) ∧
    (∀ s : T, (g.mul_assign s).wf) ∧
    (∀ a : T, (g.add_assign a).wf) ∧
    (match g.add_assign_grid other with
      | .ok g' => g'.wf
      | .error e => e.2.wf) ∧
    (∀ scal : T,
      match g.add_tiled other scal with
      | .ok g' => g'.wf
      | .error e => e.2.wf) ∧
    (∀ (ref : grid_ref T) (offset : vector2i),
      match g.add_shifted ref offset with
      | .ok g' => g'.wf
      | .error e => e.2.wf) ∧
    (∀ (offset : vector2i) (r : bivector T), g.insert other offset = .ok r → r.wf) ∧
    (∀ (offset : vector2i) (e : Error), g.insert other offset = .error e → e = .undefined) ∧
    (∀ (offset sz : vector2i) (r : bivector T), g.sub_area offset sz = .ok r →
      r.size.x * r.size.y < 2 ^ 31 → r.wf) ∧
    (∀ (offset : vector2i) (r : bivector T), g.shifted offset = .ok r →
      r.size.x * r.size.y < 2 ^ 31 → r.wf) ∧
    (∀ r : bivector T, g.transposed = .ok r → r.size.x * r.size.y < 2 ^ 31 → r.wf) ∧
    (∀ (conv : T → T) (r : bivector T), g.convert conv = .ok r →
      r.size.x * r.size.y < 2 ^ 31 → r.wf) ∧
    (∀ (conv : T → T) (minv maxv : T) (r : bivector T),
      g.convert_clamped conv minv maxv = .ok r → r.size.x * r.size.y < 2 ^ 31 → r.wf) ∧
    (∀ (wrap : Bool) (r : bivector T), g.upsampled wrap = .ok r →
      r.size.x * r.size.y < 2 ^ 31 → r.wf) ∧
    (∀ (f : Bool) (r : bivector T), g.downsampled f = .ok r →
      r.size.x * r.size.y < 2 ^ 31 → r.wf) ∧
    (∀ (wrap : Bool) (r : bivector T), g.smooth_upsampled wrap = .ok r →
      r.size.x * r.size.y < 2 ^ 31 → r.wf) := by
  refine ⟨fun sz v r h hf => ctor_wf sz v r h hf, fun newsz v hf => resize_wf g hg newsz v hf,
    ⟨ho, hg⟩, ?_, ?_, add_assign_grid_wf g other hg, fun scal => add_tiled_wf g other scal hg,
    fun ref offset => add_shifted_wf g ref offset hg,
    fun offset r h => insert_wf g other offset hg r h,
    fun offset e h => insert_error_undefined g other offset e h,
    fun offset sz r h hf => sub_area_wf g offset sz r h hf,
    fun offset r h hf => shifted_wf g offset r h hf, fun r h hf => transposed_wf g r h hf,
    fun conv r h hf => convert_wf g conv r h hf,
    fun conv minv maxv r h hf => convert_wf g _ r h hf,
    fun wrap r h hf => upsampled_wf g wrap r h hf, fun f r h hf => downsampled_wf g f r h hf,
    fun wrap r h hf => smooth_upsampled_wf g wrap r h hf⟩
  · intro s
    exact wf_of_same_shape _ g ⟨rfl, by simp [bivector.mul_assign]⟩ hg
  · intro a
    exact wf_of_same_shape _ g ⟨rfl, by simp [bivector.add_assign]⟩ hg

/-- C3 (evaluation at the failing input): `move_plain_data` on the (1,1) grid holding 7
sets `datasize` to (0,0) and returns a reference to `data`, which still holds its one
element when the call returns: the receiver no longer has
`data.size() == datasize.x * datasize.y`. -/
theorem move_plain_data_breaks_invariant :
    grid11.wf ∧ grid11.move_plain_data = ([7], ⟨⟨0, 0⟩, [7]⟩) ∧
    ¬ (grid11.move_plain_data).2.wf := by
  refine ⟨by decide, rfl, by decide⟩

/-- After `move_plain_data` the receiver satisfies the class invariant only if the grid
had no elements. -/
theorem move_plain_data_wf_iff {T : Type} (g : bivector T) :
    (g.move_plain_data).2.wf ↔ g.data = [] := by
  unfold bivector.move_plain_data bivector.wf
  constructor
  · rintro ⟨_, _, h⟩
    simp only [zero_mul] at h
    exact List.length_eq_zero.mp (by exact_mod_cast h)
  · intro h
    simp [h]

/-! ## Bit masks -/

/-- For a power of two `2^k` that fits an `int`, masking with `2^k - 1` is the
non-negative remainder modulo `2^k`, also for negative values. -/
theorem int_and_mask (a : Int) (k : Nat) (hk : k ≤ 30) :
    int_and a (2 ^ k - 1) = a % 2 ^ k := by
  have hpk : (2 : Nat) ^ k ≤ 2 ^ 30 := Nat.pow_le_pow_right (by norm_num) hk
  have hpos : 0 < (2 : Nat) ^ k := Nat.pow_pos (by norm_num)
  have hb : ((2 : Int) ^ k - 1) % 2 ^ 32 = ((2 ^ k - 1 : Nat) : Int) := by
    have h1 : ((2 ^ k - 1 : Nat) : Int) = (2 : Int) ^ k - 1 := by
      rw [Nat.cast_sub hpos]; push_cast; ring
    rw [← h1]
    apply Int.emod_eq_of_lt (by omega)
    have : (2 ^ k - 1 : Nat) < 2 ^ 32 := by omega
    exact_mod_cast this
  have ha0 : 0 ≤ a % 2 ^ 32 := Int.emod_nonneg _ (by norm_num)
  unfold int_and
  simp only [hb, Int.toNat_ofNat]
  have hland : Nat.land (a % 2 ^ 32).toNat (2 ^ k - 1) = (a % 2 ^ 32).toNat % 2 ^ k :=
    Nat.and_pow_two_sub_one_eq_mod _ _
  rw [hland]
  have hlt : (a % 2 ^ 32).toNat % 2 ^ k < 2 ^ 31 := by
    have := Nat.mod_lt (a % 2 ^ 32).toNat hpos
    omega
  rw [if_pos hlt]
  rw [Int.natCast_mod, Int.toNat_of_nonneg ha0]
  push_cast
  have hdvd : ((2 : Int) ^ k) ∣ 2 ^ 32 := pow_dvd_pow 2 (by omega)
  exact Int.emod_emod_of_dvd a hdvd

/-- The test `a & 1` is the parity of `a`. -/
theorem int_and_one (a : Int) : int_and a 1 = a % 2 := by
  have := int_and_mask a 1 (by norm_num)
  simpa using this

/-- Two values in `[0, w)` whose shifts by the same offset agree modulo `w` are equal. -/
theorem shift_mod_inj (w o x x' : Int) (hx0 : 0 ≤ x) (hxw : x < w) (hx0' : 0 ≤ x')
    (hxw' : x' < w) (h : (x + o) % w = (x' + o) % w) : x = x' := by
  have hd : (x + o - (x' + o)) % w = 0 := Int.emod_eq_emod_iff_emod_sub_eq_zero.mp h
  have hdvd : w ∣ x - x' := by
    have : x + o - (x' + o) = x - x' := by ring
    rw [this] at hd
    exact Int.dvd_of_emod_eq_zero hd
  obtain ⟨c, hc⟩ := hdvd
  have hc0 : c = 0 := by
    by_contra hne
    rcases lt_or_gt_of_ne hne with hlt | hgt
    · have : w * c ≤ w * (-1) := mul_le_mul_of_nonneg_left (by omega) (by omega)
      omega
    · have : w * 1 ≤ w * c := mul_le_mul_of_nonneg_left (by omega) (by omega)
      omega
  rw [hc0] at hc
  omega

theorem flat_index_ne (w x y x' y' : Int) (hx0 : 0 ≤ x) (hxw : x < w) (hx0' : 0 ≤ x')
    (hxw' : x' < w) (hne : ¬ (x = x' ∧ y = y')) : x + y * w ≠ x' + y' * w := by
  intro heq
  apply hne
  have e1 : w * y + x = x + y * w := by ring
  have e2 : w * y' + x' = x' + y' * w := by ring
  exact flat_index_inj w x y x' y' hx0 hxw hx0' hxw' (by rw [e1, e2]; exact heq)

/-! ## Scattering one grid into another (shifted, insert) -/

/-- A traversal of `g` that stores every cell `(x,y)` at position `(tx x y, ty x y)` of
another grid `r0`, when the targets lie inside `r0` and distinct cells have distinct
targets: it succeeds, keeps the shape of `r0`, every target holds its source value and
every cell of `r0` that is no target keeps its value. -/
theorem scatter_cells {T : Type} (g r0 : bivector T) (hwf : g.wf) (hr0 : r0.wf)
    (tx ty : Int → Int → Int)
    (hin : ∀ x y : Int, 0 ≤ x → x < g.datasize.x → 0 ≤ y → y < g.datasize.y →
      0 ≤ tx x y ∧ tx x y < r0.datasize.x ∧ 0 ≤ ty x y ∧ ty x y < r0.datasize.y)
    (hinj : ∀ x y x' y' : Int, 0 ≤ x → x < g.datasize.x → 0 ≤ y → y < g.datasize.y →
      0 ≤ x' → x' < g.datasize.x → 0 ≤ y' → y' < g.datasize.y →
      tx x y = tx x' y' → ty x y = ty x' y' → x = x' ∧ y = y') :
    ∃ d : List T,
      g.for_each_xy (fun value xy _ (r : bivector T) =>
        r.index_set ⟨tx xy.x xy.y, ty xy.x xy.y⟩ value) r0 = .ok ⟨r0.datasize, d⟩ ∧
      d.length = r0.data.length ∧
      (∀ x y : Int, 0 ≤ x → x < g.datasize.x → 0 ≤ y → y < g.datasize.y →
        vec_get d (tx x y + ty x y * r0.datasize.x) = vec_get g.data (x + y * g.datasize.x)) ∧
      (∀ x' y' : Int, 0 ≤ x' → x' < r0.datasize.x → 0 ≤ y' → y' < r0.datasize.y →
        (∀ x y : Int, 0 ≤ x → x < g.datasize.x → 0 ≤ y → y < g.datasize.y →
          ¬ (tx x y = x' ∧ ty x y = y')) →
        vec_get d (x' + y' * r0.datasize.x) = vec_get r0.data (x' + y' * r0.datasize.x)) := by
  obtain ⟨hW0, hH0, hrlen0⟩ := hr0
  obtain ⟨r, hrun, hsz, hrlen, hcells, hframe⟩ := for_each_xy_inv g hwf
    (fun value xy _ (r : bivector T) => r.index_set ⟨tx xy.x xy.y, ty xy.x xy.y⟩ value)
    (fun (k : Int) (r : bivector T) => r.datasize = r0.datasize ∧
      r.data.length = r0.data.length ∧
      (∀ x y : Int, 0 ≤ x → x < g.datasize.x → 0 ≤ y → y < g.datasize.y →
        x + y * g.datasize.x < k →
        vec_get r.data (tx x y + ty x y * r0.datasize.x) =
          vec_get g.data (x + y * g.datasize.x)) ∧
      (∀ x' y' : Int, 0 ≤ x' → x' < r0.datasize.x → 0 ≤ y' → y' < r0.datasize.y →
        (∀ x y : Int, 0 ≤ x → x < g.datasize.x → 0 ≤ y → y < g.datasize.y →
          x + y * g.datasize.x < k → ¬ (tx x y = x' ∧ ty x y = y')) →
        vec_get r.data (x' + y' * r0.datasize.x) = vec_get r0.data (x' + y' * r0.datasize.x)))
    r0
    (by
      refine ⟨rfl, rfl, ?_, fun _ _ _ _ _ _ _ => rfl⟩
      intro x y hx0 hxw hy0 hyh hlt
      have hb := flat_index_bounds g.datasize.x g.datasize.y x y hx0 hxw hy0 hyh
      omega)
    (by
      rintro x y v ⟨rsz, rd⟩ hx0 hxw hy0 hyh hv ⟨hsz, hrlen, hcells, hframe⟩
      simp only at hsz hrlen hcells hframe
      subst hsz
      obtain ⟨ht0, ht1, hu0, hu1⟩ := hin x y hx0 hxw hy0 hyh
      have hdst := flat_index_bounds r0.datasize.x r0.datasize.y (tx x y) (ty x y) ht0 ht1
        hu0 hu1
      have hd1 : tx x y + ty x y * r0.datasize.x < (rd.length : Int) := by
        rw [hrlen, hrlen0]; exact hdst.2
      refine ⟨⟨r0.datasize, rd.set (tx x y + ty x y * r0.datasize.x).toNat v⟩,
        ?_, rfl, ?_, ?_, ?_⟩
      · show bivector.index_set _ _ _ = _
        rw [index_set_eq_vec_set]
        simp only [vec_set_ok rd _ v hdst.1 hd1]
      · simpa using hrlen
      · intro x' y' hx0' hxw' hy0' hyh' hlt
        by_cases hsame : x' = x ∧ y' = y
        · obtain ⟨rfl, rfl⟩ := hsame
          simp only
          rw [vec_get_set_same rd _ v hdst.1 hd1, hv]
        · obtain ⟨ht0', ht1', _, _⟩ := hin x' y' hx0' hxw' hy0' hyh'
          have hne1 : tx x' y' + ty x' y' * r0.datasize.x ≠
              tx x y + ty x y * r0.datasize.x :=
            flat_index_ne r0.datasize.x _ _ _ _ ht0' ht1' ht0 ht1
              (fun hc => hsame (hinj x' y' x y hx0' hxw' hy0' hyh' hx0 hxw hy0 hyh hc.1 hc.2))
          have hne2 : x' + y' * g.datasize.x ≠ x + y * g.datasize.x :=
            flat_index_ne g.datasize.x _ _ _ _ hx0' hxw' hx0 hxw hsame
          simp only
          rw [vec_get_set_other rd _ _ v hdst.1 hne1]
          exact hcells x' y' hx0' hxw' hy0' hyh' (by omega)
      · intro x' y' hx0' hxw' hy0' hyh' hno
        have hnot : ¬ (x' = tx x y ∧ y' = ty x y) := fun hc =>
          hno x y hx0 hxw hy0 hyh (by omega) ⟨hc.1.symm, hc.2.symm⟩
        have hne : x' + y' * r0.datasize.x ≠ tx x y + ty x y * r0.datasize.x :=
          flat_index_ne r0.datasize.x _ _ _ _ hx0' hxw' ht0 ht1 hnot
        simp only
        rw [vec_get_set_other rd _ _ v hdst.1 hne]
        exact hframe x' y' hx0' hxw' hy0' hyh'
          (fun a b ha0 haw hb0 hbh hlt => hno a b ha0 haw hb0 hbh (by omega)))
  obtain ⟨rsz, rd⟩ := r
  simp only at hsz hrlen hcells hframe
  subst hsz
  refine ⟨rd, hrun, hrlen, ?_, ?_⟩
  · intro x y hx0 hxw hy0 hyh
    have hb := flat_index_bounds g.datasize.x g.datasize.y x y hx0 hxw hy0 hyh
    have e : g.datasize.y * g.datasize.x = g.datasize.x * g.datasize.y := by ring
    exact hcells x y hx0 hxw hy0 hyh (by rw [e]; exact hb.2)
  · intro x' y' hx0' hxw' hy0' hyh' hno
    exact hframe x' y' hx0' hxw' hy0' hyh' (fun a b ha0 haw hb0 hbh _ => hno a b ha0 haw hb0 hbh)

theorem vec_get_eq_get {T : Type} (d : List T) (i : Int) (h0 : 0 ≤ i)
    (h1 : i.toNat < d.length) : vec_get d i = .ok (d.get ⟨i.toNat, h1⟩) := by
  simp [vec_get, h0, List.getElem?_eq_getElem h1]

/-- Two lists of the same length are permutations of each other when an injective map of
positions carries every element of the second to an equal element of the first. -/
theorem perm_of_index_injection {T : Type} (a b : List T) (hlen : a.length = b.length)
    (σ : Fin b.length → Fin a.length) (hinj : Function.Injective σ)
    (h : ∀ k, a.get (σ k) = b.get k) : a.Perm b := by
  let τ : Fin b.length → Fin b.length := fun k => Fin.cast hlen (σ k)
  have hτ : Function.Injective τ := fun i j hij => hinj (Fin.cast_injective hlen hij)
  let e : Equiv.Perm (Fin b.length) :=
    Equiv.ofBijective τ (Finite.injective_iff_bijective.mp hτ)
  let f : Fin b.length → T := fun i => a.get (Fin.cast hlen.symm i)
  have h1 : List.ofFn f = a := by
    apply List.ext_get
    · simp [hlen]
    · intro n h1 h2
      simp [f]
  have h2 : List.ofFn (f ∘ e) = b := by
    apply List.ext_get
    · simp
    · intro n h1 h2
      simp only [List.get_eq_getElem, List.getElem_ofFn, Function.comp_apply]
      have := h ⟨n, h2⟩
      simpa [f, e, τ] using this
  have := Equiv.Perm.ofFn_comp_perm e f
  rw [h1, h2] at this
  exact this.symm

/-- The storage `d` of a grid of the size of `g` that holds, at an injective target of
every cell of `g`, the value of that cell, is a permutation of the storage of `g`. -/
theorem scatter_perm {T : Type} (g : bivector T) (hwf : g.wf) (d : List T)
    (hlen : d.length = g.data.length) (tx ty : Int → Int → Int)
    (hin : ∀ x y : Int, 0 ≤ x → x < g.datasize.x → 0 ≤ y → y < g.datasize.y →
      0 ≤ tx x y ∧ tx x y < g.datasize.x ∧ 0 ≤ ty x y ∧ ty x y < g.datasize.y)
    (hinj : ∀ x y x' y' : Int, 0 ≤ x → x < g.datasize.x → 0 ≤ y → y < g.datasize.y →
      0 ≤ x' → x' < g.datasize.x → 0 ≤ y' → y' < g.datasize.y →
      tx x y = tx x' y' → ty x y = ty x' y' → x = x' ∧ y = y')
    (hcells : ∀ x y : Int, 0 ≤ x → x < g.datasize.x → 0 ≤ y → y < g.datasize.y →
      vec_get d (tx x y + ty x y * g.datasize.x) = vec_get g.data (x + y * g.datasize.x)) :
    d.Perm g.data := by
  obtain ⟨hw0, hh0, hglen⟩ := hwf
  -- the cell of a flat position
  have hcell : ∀ k : Fin g.data.length,
      0 ≤ (k : Int) % g.datasize.x ∧ (k : Int) % g.datasize.x < g.datasize.x ∧
      0 ≤ (k : Int) / g.datasize.x ∧ (k : Int) / g.datasize.x < g.datasize.y ∧
      (k : Int) % g.datasize.x + (k : Int) / g.datasize.x * g.datasize.x = k := by
    intro k
    have hk : ((k : Nat) : Int) < g.datasize.x * g.datasize.y := by
      rw [← hglen]; exact_mod_cast k.2
    have hk0 : (0 : Int) ≤ ((k : Nat) : Int) := Int.natCast_nonneg _
    have hwpos : 0 < g.datasize.x := by
      by_contra hc
      have hz : g.datasize.x = 0 := by omega
      rw [hz, zero_mul] at hk
      omega
    refine ⟨Int.emod_nonneg _ (by omega), Int.emod_lt_of_pos _ hwpos,
      Int.ediv_nonneg hk0 (by omega), ?_, ?_⟩
    · exact Int.ediv_lt_of_lt_mul hwpos (by rw [mul_comm]; exact hk)
    · have := Int.emod_add_ediv (k : Int) g.datasize.x
      rw [mul_comm]; exact this
  have htgt : ∀ k : Fin g.data.length,
      0 ≤ tx ((k : Int) % g.datasize.x) ((k : Int) / g.datasize.x) +
        ty ((k : Int) % g.datasize.x) ((k : Int) / g.datasize.x) * g.datasize.x ∧
      (tx ((k : Int) % g.datasize.x) ((k : Int) / g.datasize.x) +
        ty ((k : Int) % g.datasize.x) ((k : Int) / g.datasize.x) * g.datasize.x).toNat <
        d.length := by
    intro k
    obtain ⟨c1, c2, c3, c4, _⟩ := hcell k
    obtain ⟨t0, t1, u0, u1⟩ := hin _ _ c1 c2 c3 c4
    have hb := flat_index_bounds g.datasize.x g.datasize.y _ _ t0 t1 u0 u1
    refine ⟨hb.1, ?_⟩
    have : (d.length : Int) = g.datasize.x * g.datasize.y := by rw [hlen]; exact hglen
    omega
  refine perm_of_index_injection d g.data hlen
    (fun k => ⟨_, (htgt k).2⟩) ?_ ?_
  · intro k k' hkk
    have hval : tx ((k : Int) % g.datasize.x) ((k : Int) / g.datasize.x) +
        ty ((k : Int) % g.datasize.x) ((k : Int) / g.datasize.x) * g.datasize.x =
        tx ((k' : Int) % g.datasize.x) ((k' : Int) / g.datasize.x) +
        ty ((k' : Int) % g.datasize.x) ((k' : Int) / g.datasize.x) * g.datasize.x := by
      have h1 := congrArg Fin.val hkk
      simp only at h1
      have := (htgt k).1
      have := (htgt k').1
      omega
    obtain ⟨c1, c2, c3, c4, c5⟩ := hcell k
    obtain ⟨c1', c2', c3', c4', c5'⟩ := hcell k'
    obtain ⟨t0, t1, _, _⟩ := hin _ _ c1 c2 c3 c4
    obtain ⟨t0', t1', _, _⟩ := hin _ _ c1' c2' c3' c4'
    have hsame : tx ((k : Int) % g.datasize.x) ((k : Int) / g.datasize.x) =
        tx ((k' : Int) % g.datasize.x) ((k' : Int) / g.datasize.x) ∧
        ty ((k : Int) % g.datasize.x) ((k : Int) / g.datasize.x) =
        ty ((k' : Int) % g.datasize.x) ((k' : Int) / g.datasize.x) := by
      by_contra hc
      exact flat_index_ne g.datasize.x _ _ _ _ t0 t1 t0' t1' hc hval
    have hxy := hinj _ _ _ _ c1 c2 c3 c4 c1' c2' c3' c4' hsame.1 hsame.2
    have : ((k : Nat) : Int) = ((k' : Nat) : Int) := by
      rw [← c5, ← c5', hxy.1, hxy.2]
    exact Fin.ext (by exact_mod_cast this)
  · intro k
    obtain ⟨c1, c2, c3, c4, c5⟩ := hcell k
    have hc := hcells _ _ c1 c2 c3 c4
    rw [c5, vec_get_eq_get d _ (htgt k).1 (htgt k).2,
      vec_get_eq_get g.data _ (Int.natCast_nonneg _) (by simp)] at hc
    injection hc with hc

/-! ## shifted -/

/-- What `shifted` computes on a grid whose width and height are powers of two. -/
theorem shifted_cells {T : Type} [Inhabited T] (g : bivector T) (hwf : g.wf)
    (hfit : g.datasize.x * g.datasize.y < 2 ^ 31) (kx ky : Nat)
    (hkx : kx ≤ 30) (hky : ky ≤ 30) (hw : g.datasize.x = 2 ^ kx) (hh : g.datasize.y = 2 ^ ky)
    (offset : vector2i) :
    ∃ d : List T, g.shifted offset = .ok ⟨g.datasize, d⟩ ∧ d.length = g.data.length ∧
      (∀ x y : Int, 0 ≤ x → x < g.datasize.x → 0 ≤ y → y < g.datasize.y →
        vec_get d ((x + offset.x) % g.datasize.x + (y + offset.y) % g.datasize.y * g.datasize.x)
          = vec_get g.data (x + y * g.datasize.x)) ∧
      d.Perm g.data := by
  have hwpos : 0 < g.datasize.x := by rw [hw]; positivity
  have hhpos : 0 < g.datasize.y := by rw [hh]; positivity
  have hmx : ∀ a : Int, int_and a (g.datasize.x - 1) = a % g.datasize.x := by
    intro a; rw [hw]; exact int_and_mask a kx hkx
  have hmy : ∀ a : Int, int_and a (g.datasize.y - 1) = a % g.datasize.y := by
    intro a; rw [hh]; exact int_and_mask a ky hky
  have hN : 0 ≤ g.datasize.x * g.datasize.y := mul_nonneg hwf.1 hwf.2.1
  have hc : bivector.ctor g.datasize (default : T) =
      .ok ⟨g.datasize, List.replicate (g.datasize.x * g.datasize.y).toNat default⟩ :=
    ctor_of_nonneg g.datasize.x g.datasize.y default hwf.1 hwf.2.1 hfit
  have hr0 : (bivector.mk g.datasize
      (List.replicate (g.datasize.x * g.datasize.y).toNat (default : T))).wf :=
    ⟨hwf.1, hwf.2.1, by simp [Int.toNat_of_nonneg hN]⟩
  have hin : ∀ x y : Int, 0 ≤ x → x < g.datasize.x → 0 ≤ y → y < g.datasize.y →
      0 ≤ (x + offset.x) % g.datasize.x ∧ (x + offset.x) % g.datasize.x < g.datasize.x ∧
      0 ≤ (y + offset.y) % g.datasize.y ∧ (y + offset.y) % g.datasize.y < g.datasize.y :=
    fun x y _ _ _ _ => ⟨Int.emod_nonneg _ (by omega), Int.emod_lt_of_pos _ hwpos,
      Int.emod_nonneg _ (by omega), Int.emod_lt_of_pos _ hhpos⟩
  have hinj : ∀ x y x' y' : Int, 0 ≤ x → x < g.datasize.x → 0 ≤ y → y < g.datasize.y →
      0 ≤ x' → x' < g.datasize.x → 0 ≤ y' → y' < g.datasize.y →
      (x + offset.x) % g.datasize.x = (x' + offset.x) % g.datasize.x →
      (y + offset.y) % g.datasize.y = (y' + offset.y) % g.datasize.y → x = x' ∧ y = y' :=
    fun x y x' y' hx0 hxw hy0 hyh hx0' hxw' hy0' hyh' h1 h2 =>
      ⟨shift_mod_inj _ _ x x' hx0 hxw hx0' hxw' h1, shift_mod_inj _ _ y y' hy0 hyh hy0' hyh' h2⟩
  obtain ⟨d, hrun, hlen, hcells, _⟩ := scatter_cells g _ hwf hr0
    (fun x _ => (x + offset.x) % g.datasize.x) (fun _ y => (y + offset.y) % g.datasize.y)
    hin hinj
  have hlen' : d.length = g.data.length := by
    rw [hlen]
    have := hwf.2.2
    simp only [List.length_replicate]
    omega
  refine ⟨d, ?_, hlen', hcells, ?_⟩
  · simp only [bivector.shifted, hc, hmx, hmy]
    exact hrun
  · exact scatter_perm g hwf d hlen' _ _ hin hinj hcells

/-- C11: for a grid `g` whose width `w` and height `h` are powers of two (at most `2^30`,
the largest an `int` holds; the element count `w*h` an `int` as well) and every integer
offset, `shifted(offset)` returns a grid of
the same size with `shifted(offset).at((x+ox) mod w, (y+oy) mod h) == g.at(x,y)` for every
cell, `mod` being the non-negative remainder; every cell of the result is the target of
exactly one cell of `g`, and the result's elements are a permutation of `g`'s. -/
theorem shifted_wraps {T : Type} [Inhabited T] (g : bivector T) (hwf : g.wf)
    (hfit : g.size.x * g.size.y < 2 ^ 31) (kx ky : Nat)
    (hkx : kx ≤ 30) (hky : ky ≤ 30) (hw : g.size.x = 2 ^ kx) (hh : g.size.y = 2 ^ ky)
    (offset : vector2i) :
    ∃ r : bivector T, g.shifted offset = .ok r ∧ r.size = g.size ∧
      (∀ x y : Int, 0 ≤ x → x < g.size.x → 0 ≤ y → y < g.size.y →
        ∃ v : T, g.at_get x y = .ok v ∧
          r.at_get ((x + offset.x) % g.size.x) ((y + offset.y) % g.size.y) = .ok v) ∧
      (∀ x' y' : Int, 0 ≤ x' → x' < g.size.x → 0 ≤ y' → y' < g.size.y →
        ∃ x y : Int, (0 ≤ x ∧ x < g.size.x ∧ 0 ≤ y ∧ y < g.size.y ∧
          (x + offset.x) % g.size.x = x' ∧ (y + offset.y) % g.size.y = y') ∧
          ∀ a b : Int, 0 ≤ a → a < g.size.x → 0 ≤ b → b < g.size.y →
            (a + offset.x) % g.size.x = x' → (b + offset.y) % g.size.y = y' →
            a = x ∧ b = y) ∧
      r.data.Perm g.data := by
  simp only [bivector.size] at hw hh hfit ⊢
  have hwpos : 0 < g.datasize.x := by rw [hw]; positivity
  have hhpos : 0 < g.datasize.y := by rw [hh]; positivity
  obtain ⟨d, hrun, hlen, hcells, hperm⟩ :=
    shifted_cells g hwf hfit kx ky hkx hky hw hh offset
  refine ⟨⟨g.datasize, d⟩, hrun, rfl, ?_, ?_, hperm⟩
  · intro x y hx0 hxw hy0 hyh
    have hb := flat_index_bounds g.datasize.x g.datasize.y x y hx0 hxw hy0 hyh
    obtain ⟨v, hv⟩ := vec_get_of_lt g.data (x + y * g.datasize.x) hb.1
      (by rw [hwf.2.2]; exact hb.2)
    refine ⟨v, ?_, ?_⟩
    · rw [at_get_eq_vec_get, if_neg (by omega), hv]
    · have h1 := Int.emod_lt_of_pos (x + offset.x) hwpos
      have h2 := Int.emod_lt_of_pos (y + offset.y) hhpos
      rw [at_get_eq_vec_get]
      simp only [ge_iff_le]
      rw [if_neg (by omega), hcells x y hx0 hxw hy0 hyh, hv]
  · intro x' y' hx0' hxw' hy0' hyh'
    have ex : ((x' - offset.x) % g.datasize.x + offset.x) % g.datasize.x = x' := by
      rw [Int.emod_add_cancel_right (i := offset.x) |>.mpr (Int.emod_emod_of_dvd _ dvd_rfl)]
      rw [sub_add_cancel]
      exact Int.emod_eq_of_lt hx0' hxw'
    have ey : ((y' - offset.y) % g.datasize.y + offset.y) % g.datasize.y = y' := by
      rw [Int.emod_add_cancel_right (i := offset.y) |>.mpr (Int.emod_emod_of_dvd _ dvd_rfl)]
      rw [sub_add_cancel]
      exact Int.emod_eq_of_lt hy0' hyh'
    refine ⟨(x' - offset.x) % g.datasize.x, (y' - offset.y) % g.datasize.y,
      ⟨Int.emod_nonneg _ (by omega), Int.emod_lt_of_pos _ hwpos, Int.emod_nonneg _ (by omega),
        Int.emod_lt_of_pos _ hhpos, ex, ey⟩, ?_⟩
    intro a b ha0 haw hb0 hbh ha hb
    exact ⟨shift_mod_inj _ offset.x a _ ha0 haw (Int.emod_nonneg _ (by omega))
        (Int.emod_lt_of_pos _ hwpos) (by rw [ha, ex]),
      shift_mod_inj _ offset.y b _ hb0 hbh (Int.emod_nonneg _ (by omega))
        (Int.emod_lt_of_pos _ hhpos) (by rw [hb, ey])⟩

/-- Witness of C11: the (2,2) grid shifted by (1,-1). -/
theorem shifted_wraps_witness :
    grid22.wf ∧ grid22.size.x = 2 ^ 1 ∧
    ∃ r : bivector Int, grid22.shifted ⟨1, -1⟩ = .ok r ∧ r.size = grid22.size ∧
      (∀ x y : Int, 0 ≤ x → x < grid22.size.x → 0 ≤ y → y < grid22.size.y →
        ∃ v : Int, grid22.at_get x y = .ok v ∧
          r.at_get ((x + (⟨1, -1⟩ : vector2i).x) % grid22.size.x)
            ((y + (⟨1, -1⟩ : vector2i).y) % grid22.size.y) = .ok v) ∧
      (∀ x' y' : Int, 0 ≤ x' → x' < grid22.size.x → 0 ≤ y' → y' < grid22.size.y →
        ∃ x y : Int, (0 ≤ x ∧ x < grid22.size.x ∧ 0 ≤ y ∧ y < grid22.size.y ∧
          (x + (⟨1, -1⟩ : vector2i).x) % grid22.size.x = x' ∧
          (y + (⟨1, -1⟩ : vector2i).y) % grid22.size.y = y') ∧
          ∀ a b : Int, 0 ≤ a → a < grid22.size.x → 0 ≤ b → b < grid22.size.y →
            (a + (⟨1, -1⟩ : vector2i).x) % grid22.size.x = x' →
            (b + (⟨1, -1⟩ : vector2i).y) % grid22.size.y = y' → a = x ∧ b = y) ∧
      r.data.Perm grid22.data :=
  ⟨by decide, by decide,
    shifted_wraps grid22 (by decide) (by decide) 1 1 (by decide) (by decide) (by decide)
      (by decide)
      ⟨1, -1⟩⟩

/-! ## insert -/

/-- C12: for a grid `self` of size `(w,h)`, a grid `other` of size `(ow,oh)` (both
satisfying the invariant) and an offset `≥ (0,0)` with `ox+ow ≤ w`, `oy+oh ≤ h`, after
`self.insert(other, offset)` the size of `self` is unchanged,
`self.at(ox+px, oy+py) == other.at(px,py)` for every cell of `other`, and every cell of
`self` outside the rectangle keeps its value.  (`other` is a `const&` that is only read:
the operation yields the new receiver and nothing else.) -/
theorem insert_overwrites {T : Type} (g other : bivector T) (hg : g.wf) (ho : other.wf)
    (offset : vector2i) (hox : 0 ≤ offset.x) (hoy : 0 ≤ offset.y)
    (hfx : offset.x + other.size.x ≤ g.size.x) (hfy : offset.y + other.size.y ≤ g.size.y) :
    ∃ r : bivector T, g.insert other offset = .ok r ∧ r.size = g.size ∧
      (∀ px py : Int, 0 ≤ px → px < other.size.x → 0 ≤ py → py < other.size.y →
        ∃ v : T, other.at_get px py = .ok v ∧
          r.at_get (offset.x + px) (offset.y + py) = .ok v) ∧
      (∀ x y : Int, 0 ≤ x → x < g.size.x → 0 ≤ y → y < g.size.y →
        ¬ (offset.x ≤ x ∧ x < offset.x + other.size.x ∧
            offset.y ≤ y ∧ y < offset.y + other.size.y) →
        r.at_get x y = g.at_get x y) := by
  simp only [bivector.size] at hfx hfy ⊢
  obtain ⟨d, hrun, hlen, hcells, hframe⟩ := scatter_cells other g ho hg
    (fun x _ => offset.x + x) (fun _ y => offset.y + y)
    (fun x y hx0 hxw hy0 hyh => by dsimp only; omega)
    (fun x y x' y' _ _ _ _ _ _ _ _ h1 h2 => by dsimp only at h1 h2; omega)
  refine ⟨⟨g.datasize, d⟩, ?_, rfl, ?_, ?_⟩
  · simp only [bivector.insert, vector2i.add]
    exact hrun
  · intro px py hx0 hxw hy0 hyh
    have hb := flat_index_bounds other.datasize.x other.datasize.y px py hx0 hxw hy0 hyh
    obtain ⟨v, hv⟩ := vec_get_of_lt other.data (px + py * other.datasize.x) hb.1
      (by rw [ho.2.2]; exact hb.2)
    refine ⟨v, ?_, ?_⟩
    · rw [at_get_eq_vec_get, if_neg (by omega), hv]
    · rw [at_get_eq_vec_get]
      simp only [ge_iff_le]
      rw [if_neg (by omega), hcells px py hx0 hxw hy0 hyh, hv]
  · intro x y hx0 hxw hy0 hyh hout
    rw [at_get_eq_vec_get, at_get_eq_vec_get]
    simp only [ge_iff_le]
    rw [if_neg (by omega), if_neg (by omega)]
    exact hframe x y hx0 hxw hy0 hyh (fun a b ha0 haw hb0 hbh hc => hout (by omega))

/-- Witness of C12: the (1,1) grid inserted into the (2,2) grid at (1,0). -/
theorem insert_overwrites_witness :
    grid22.wf ∧ grid11.wf ∧
    ∃ r : bivector Int, grid22.insert grid11 ⟨1, 0⟩ = .ok r ∧ r.size = grid22.size ∧
      (∀ px py : Int, 0 ≤ px → px < grid11.size.x → 0 ≤ py → py < grid11.size.y →
        ∃ v : Int, grid11.at_get px py = .ok v ∧
          r.at_get ((⟨1, 0⟩ : vector2i).x + px) ((⟨1, 0⟩ : vector2i).y + py) = .ok v) ∧
      (∀ x y : Int, 0 ≤ x → x < grid22.size.x → 0 ≤ y → y < grid22.size.y →
        ¬ ((⟨1, 0⟩ : vector2i).x ≤ x ∧ x < (⟨1, 0⟩ : vector2i).x + grid11.size.x ∧
            (⟨1, 0⟩ : vector2i).y ≤ y ∧ y < (⟨1, 0⟩ : vector2i).y + grid11.size.y) →
        r.at_get x y = grid22.at_get x y) :=
  ⟨by decide, by decide,
    insert_overwrites grid22 grid11 (by decide) (by decide) ⟨1, 0⟩ (by decide) (by decide)
      (by decide) (by decide)⟩

/-! ## Filling a result grid cell by cell -/

theorem at_get_cell {T : Type} [Inhabited T] (g : bivector T) (hwf : g.wf) (x y : Int)
    (hx0 : 0 ≤ x) (hxw : x < g.datasize.x) (hy0 : 0 ≤ y) (hyh : y < g.datasize.y) :
    g.at_get x y = .ok (g.cell x y) := by
  have hb := flat_index_bounds g.datasize.x g.datasize.y x y hx0 hxw hy0 hyh
  obtain ⟨v, hv⟩ := vec_get_of_lt g.data (x + y * g.datasize.x) hb.1
    (by rw [hwf.2.2]; exact hb.2)
  have h : g.at_get x y = .ok v := by
    rw [at_get_eq_vec_get, if_neg (by omega), hv]
  simp only [bivector.cell, h]

theorem bind_ok_of {ε α β : Type} (m : Except ε α) (f : α → Except ε β) (a : α) (b : β)
    (hm : m = .ok a) (hf : f a = .ok b) : (m >>= f) = .ok b := by
  subst hm
  exact hf

/-- A freshly constructed grid is `filled` for the empty set of cells. -/
theorem filled_ctor {T : Type} (sz : vector2i) (v : T) (val : Int → Int → T)
    (hw : 0 ≤ sz.x) (hh : 0 ≤ sz.y) (hfit : sz.x * sz.y < 2 ^ 31) :
    ∃ r : bivector T, bivector.ctor sz v = .ok r ∧ r.filled sz (fun _ _ => False) val := by
  refine ⟨_, ctor_of_nonneg sz.x sz.y v hw hh hfit, rfl, ?_, ?_⟩
  · simp [Int.toNat_of_nonneg (mul_nonneg hw hh)]
  · intro x y _ _ _ _ hF
    exact hF.elim

theorem filled_mono {T : Type} (r : bivector T) (sz : vector2i) (P Q : Int → Int → Prop)
    (val : Int → Int → T) (hf : r.filled sz P val)
    (hQ : ∀ x y : Int, 0 ≤ x → x < sz.x → 0 ≤ y → y < sz.y → Q x y → P x y) :
    r.filled sz Q val :=
  ⟨hf.1, hf.2.1, fun x y hx0 hxw hy0 hyh hq => hf.2.2 x y hx0 hxw hy0 hyh (hQ x y hx0 hxw hy0 hyh hq)⟩

/-- The statement `r.at(x, y) = e` on a `filled` grid, with `(x,y)` inside the grid and
`e` evaluating to the value wanted there: it succeeds and adds `(x,y)` to the cells that
hold their value. -/
theorem filled_assign {T : Type} (r : bivector T) (sz : vector2i) (P Q : Int → Int → Prop)
    (val : Int → Int → T) (x y : Int) (e : Except Error T) (hf : r.filled sz P val)
    (hx0 : 0 ≤ x) (hxw : x < sz.x) (hy0 : 0 ≤ y) (hyh : y < sz.y) (he : e = .ok (val x y))
    (hQ : ∀ x' y' : Int, 0 ≤ x' → x' < sz.x → 0 ≤ y' → y' < sz.y → Q x' y' →
      P x' y' ∨ (x' = x ∧ y' = y)) :
    ∃ r' : bivector T, r.at_assign x y e = .ok r' ∧ r'.filled sz Q val := by
  obtain ⟨hsz, hlen, hcells⟩ := hf
  obtain ⟨rsz, rd⟩ := r
  simp only at hsz hlen
  subst hsz
  have hb := flat_index_bounds rsz.x rsz.y x y hx0 hxw hy0 hyh
  have hd1 : x + y * rsz.x < (rd.length : Int) := by rw [hlen]; exact hb.2
  refine ⟨⟨rsz, rd.set (x + y * rsz.x).toNat (val x y)⟩, ?_, rfl, ?_, ?_⟩
  · subst he
    simp [bivector.at_assign, bivector.store, bivector.at_xy, not_le.mpr hxw, not_le.mpr hyh,
      hb.1, hd1]
  · simpa using hlen
  · intro x' y' hx0' hxw' hy0' hyh' hq
    rw [at_get_eq_vec_get]
    simp only [ge_iff_le]
    rw [if_neg (by omega)]
    by_cases hsame : x' = x ∧ y' = y
    · obtain ⟨rfl, rfl⟩ := hsame
      exact vec_get_set_same rd _ _ hb.1 hd1
    · have hne := flat_index_ne rsz.x x' y' x y hx0' hxw' hx0 hxw hsame
      rw [vec_get_set_other rd _ _ _ hb.1 hne]
      have hp : P x' y' := by
        rcases hQ x' y' hx0' hxw' hy0' hyh' hq with hp | hc
        · exact hp
        · exact (hsame hc).elim
      have := hcells x' y' hx0' hxw' hy0' hyh' hp
      rw [at_get_eq_vec_get] at this
      simp only [ge_iff_le] at this
      rw [if_neg (by omega)] at this
      exact this

/-- The statement `r.at(x, y) = e` followed by the rest `k` of a `do` block. -/
theorem filled_assign_then {T β : Type} (r : bivector T) (sz : vector2i)
    (P Q : Int → Int → Prop) (val : Int → Int → T) (x y : Int) (e : Except Error T)
    (k : bivector T → Except Error β) (Post : β → Prop) (hf : r.filled sz P val)
    (hx0 : 0 ≤ x) (hxw : x < sz.x) (hy0 : 0 ≤ y) (hyh : y < sz.y) (he : e = .ok (val x y))
    (hQ : ∀ x' y' : Int, 0 ≤ x' → x' < sz.x → 0 ≤ y' → y' < sz.y → Q x' y' →
      P x' y' ∨ (x' = x ∧ y' = y))
    (hk : ∀ r', r'.filled sz Q val → ∃ b, k r' = .ok b ∧ Post b) :
    ∃ b, (r.at_assign x y e >>= k) = .ok b ∧ Post b := by
  obtain ⟨r', hrun, hf'⟩ := filled_assign r sz P Q val x y e hf hx0 hxw hy0 hyh he hQ
  obtain ⟨b, hb, hp⟩ := hk r' hf'
  exact ⟨b, bind_ok_of _ _ _ _ hrun hb, hp⟩

theorem mean2_ok {T : Type} [Field T] (a b : Except Error T) (va vb : T) (ha : a = .ok va)
    (hb : b = .ok vb) : bivector.mean2 a b = .ok ((va + vb) * 2⁻¹) := by
  subst ha hb
  rfl

theorem mean4_ok {T : Type} [Field T] (a b c d : Except Error T) (va vb vc vd : T)
    (ha : a = .ok va) (hb : b = .ok vb) (hc : c = .ok vc) (hd : d = .ok vd) :
    bivector.mean4 a b c d = .ok ((va + vb + vc + vd) * 4⁻¹) := by
  subst ha hb hc hd
  rfl

theorem tap4_ok {T : Type} [Field T] (a b c d : Except Error T) (va vb vc vd : T)
    (ha : a = .ok va) (hb : b = .ok vb) (hc : c = .ok vc) (hd : d = .ok vd) :
    bivector.tap4 a b c d =
      .ok (va * (-1 / 16) + vb * (9 / 16) + vc * (9 / 16) + vd * (-1 / 16)) := by
  subst ha hb hc hd
  rfl

/-! ## upsampled -/

theorem upsampled_row_even {T : Type} [Field T] [Inhabited T] (g : bivector T) (x y : Int) :
    g.upsampled_row (2 * x) y = g.cell x y := by
  have h1 : (2 * x) % 2 = 0 := by omega
  have h2 : (2 * x) / 2 = x := by omega
  simp only [bivector.upsampled_row, h1, h2, if_true]

theorem upsampled_row_odd {T : Type} [Field T] [Inhabited T] (g : bivector T) (x y : Int) :
    g.upsampled_row (2 * x + 1) y =
      (g.cell x y + g.cell ((x + 1) % g.datasize.x) y) * 2⁻¹ := by
  have h1 : ¬ ((2 * x + 1) % 2 = 0) := by omega
  have h2 : (2 * x + 1) / 2 = x := by omega
  simp only [bivector.upsampled_row, h1, h2, if_false]

theorem upsampled_val_even {T : Type} [Field T] [Inhabited T] (g : bivector T) (x' y : Int) :
    g.upsampled_val x' (2 * y) = g.upsampled_row x' y := by
  have h1 : (2 * y) % 2 = 0 := by omega
  have h2 : (2 * y) / 2 = y := by omega
  simp only [bivector.upsampled_val, h1, h2, if_true]

theorem upsampled_val_odd {T : Type} [Field T] [Inhabited T] (g : bivector T) (x' y : Int) :
    g.upsampled_val x' (2 * y + 1) =
      (g.upsampled_row x' y + g.upsampled_row x' ((y + 1) % g.datasize.y)) * 2⁻¹ := by
  have h1 : ¬ ((2 * y + 1) % 2 = 0) := by omega
  have h2 : (2 * y + 1) / 2 = y := by omega
  simp only [bivector.upsampled_val, h1, h2, if_false]

theorem bind_ok_exists {ε α β : Type} (m : Except ε α) (f : α → Except ε β) (a : α)
    (Post : β → Prop) (hm : m = .ok a) (hf : ∃ b, f a = .ok b ∧ Post b) :
    ∃ b, (m >>= f) = .ok b ∧ Post b := by
  obtain ⟨b, hb, hp⟩ := hf
  exact ⟨b, bind_ok_of _ _ _ _ hm hb, hp⟩

/-- Invariant rule for a loop in tail position, with a weakened postcondition. -/
theorem forLoop_post {ε σ : Type} (Inv : Int → σ → Prop) (body : Int → σ → Except ε σ)
    (lo hi : Int) (s : σ) (Post : σ → Prop) (hle : lo ≤ hi) (h0 : Inv lo s)
    (hstep : ∀ j t, lo ≤ j → j < hi → Inv j t → ∃ t', body j t = .ok t' ∧ Inv (j + 1) t')
    (hpost : ∀ s', Inv hi s' → Post s') :
    ∃ s', forLoop lo hi body s = .ok s' ∧ Post s' := by
  obtain ⟨s', hrun, hinv⟩ := forLoop_inv Inv body lo hi s hle h0 hstep
  exact ⟨s', hrun, hpost s' hinv⟩

/-- First pass of `upsampled`: the even rows, all columns before `2w - 2`. -/
theorem upsampled_pass_even_rows {T : Type} [Field T] [Inhabited T] (g : bivector T)
    (hwf : g.wf) (sz : vector2i) (hw : 1 ≤ g.datasize.x) (hh : 1 ≤ g.datasize.y)
    (hsx : 2 * g.datasize.x - 1 ≤ sz.x) (hsy : 2 * g.datasize.y - 1 ≤ sz.y)
    (r0 : bivector T) (f0 : r0.filled sz (fun _ _ => False) g.upsampled_val) :
    ∃ r1 : bivector T,
      forLoop 0 g.datasize.y (fun y r =>
        forLoop 0 (g.datasize.x - 1) (fun x r => do
          let r ← r.at_assign (2 * x) (2 * y) (g.at_get x y)
          r.at_assign (2 * x + 1) (2 * y)
            (bivector.mean2 (g.at_get x y) (g.at_get (x + 1) y))) r) r0 = .ok r1 ∧
      r1.filled sz (fun x' y' => y' % 2 = 0 ∧ y' < 2 * g.datasize.y ∧
        x' < 2 * g.datasize.x - 2) g.upsampled_val := by
  have hcell : ∀ x y : Int, 0 ≤ x → x < g.datasize.x → 0 ≤ y → y < g.datasize.y →
      g.at_get x y = .ok (g.cell x y) := fun x y a b c d => at_get_cell g hwf x y a b c d
  apply forLoop_post
    (fun (y : Int) (r : bivector T) => r.filled sz
      (fun x' y' => y' % 2 = 0 ∧ y' < 2 * y ∧ x' < 2 * g.datasize.x - 2) g.upsampled_val)
  · omega
  · exact filled_mono _ _ _ _ _ f0 (fun x y _ _ _ _ hq => by omega)
  · intro y r hy0 hyh fr
    dsimp only
    apply forLoop_post
      (fun (x : Int) (r : bivector T) => r.filled sz
        (fun x' y' => (y' % 2 = 0 ∧ y' < 2 * y ∧ x' < 2 * g.datasize.x - 2) ∨
          (y' = 2 * y ∧ x' < 2 * x)) g.upsampled_val)
    · omega
    · exact filled_mono _ _ _ _ _ fr (fun x' y' _ _ _ _ hq => by omega)
    · intro x t hx0 hxw ft
      apply filled_assign_then _ _ _
        (fun x' y' => ((y' % 2 = 0 ∧ y' < 2 * y ∧ x' < 2 * g.datasize.x - 2) ∨
          (y' = 2 * y ∧ x' < 2 * x)) ∨ (x' = 2 * x ∧ y' = 2 * y)) _ _ _ _ _ _ ft
      · omega
      · omega
      · omega
      · omega
      · rw [upsampled_val_even, upsampled_row_even]
        exact hcell x y hx0 (by omega) hy0 hyh
      · intro x' y' _ _ _ _ hq; exact hq
      · intro t1 ft1
        refine filled_assign _ _ _ _ _ _ _ _ ft1 (by omega) (by omega) (by omega) (by omega)
          ?_ ?_
        · rw [upsampled_val_even, upsampled_row_odd,
            Int.emod_eq_of_lt (by omega : (0 : Int) ≤ x + 1) (by omega)]
          exact mean2_ok _ _ _ _ (hcell x y hx0 (by omega) hy0 hyh)
            (hcell (x + 1) y (by omega) (by omega) hy0 hyh)
        · intro x' y' _ _ _ _ hq; omega
    · intro r' fr'
      exact filled_mono _ _ _ _ _ fr' (fun x' y' _ _ _ _ hq => by omega)
  · intro r1 f1
    exact f1

/-- Second pass of `upsampled` without wrap: the last column of the even rows. -/
theorem upsampled_pass_last_column {T : Type} [Field T] [Inhabited T] (g : bivector T)
    (hwf : g.wf) (sz : vector2i) (hw : 1 ≤ g.datasize.x) (hh : 1 ≤ g.datasize.y)
    (hsx : sz.x = 2 * g.datasize.x - 1) (hsy : 2 * g.datasize.y - 1 ≤ sz.y)
    (hsy' : sz.y ≤ 2 * g.datasize.y)
    (r1 : bivector T) (f1 : r1.filled sz (fun x' y' => y' % 2 = 0 ∧ y' < 2 * g.datasize.y ∧
        x' < 2 * g.datasize.x - 2) g.upsampled_val) :
    ∃ r2 : bivector T,
      forLoop 0 g.datasize.y (fun y r =>
        r.at_assign (2 * g.datasize.x - 2) (2 * y) (g.at_get (g.datasize.x - 1) y)) r1
        = .ok r2 ∧
      r2.filled sz (fun _ y' => y' % 2 = 0) g.upsampled_val := by
  have hcell : ∀ x y : Int, 0 ≤ x → x < g.datasize.x → 0 ≤ y → y < g.datasize.y →
      g.at_get x y = .ok (g.cell x y) := fun x y a b c d => at_get_cell g hwf x y a b c d
  apply forLoop_post
    (fun (y : Int) (r : bivector T) => r.filled sz
      (fun x' y' => y' % 2 = 0 ∧ (x' < 2 * g.datasize.x - 2 ∨ y' < 2 * y)) g.upsampled_val)
  · omega
  · exact filled_mono _ _ _ _ _ f1 (fun x y _ _ _ _ hq => by omega)
  · intro y r hy0 hyh fr
    refine filled_assign _ _ _ _ _ _ _ _ fr (by omega) (by omega) (by omega) (by omega) ?_ ?_
    · have e : 2 * g.datasize.x - 2 = 2 * (g.datasize.x - 1) := by ring
      rw [e, upsampled_val_even, upsampled_row_even]
      exact hcell _ y (by omega) (by omega) hy0 hyh
    · intro x' y' _ _ _ _ hq; omega
  · intro r2 f2
    exact filled_mono _ _ _ _ _ f2 (fun x y _ _ _ _ hq => by omega)

/-- Second pass of `upsampled` with wrap: the last two columns of the even rows. -/
theorem upsampled_pass_last_columns_wrap {T : Type} [Field T] [Inhabited T] (g : bivector T)
    (hwf : g.wf) (sz : vector2i) (hw : 1 ≤ g.datasize.x) (hh : 1 ≤ g.datasize.y)
    (hsx : sz.x = 2 * g.datasize.x) (hsy : 2 * g.datasize.y - 1 ≤ sz.y)
    (hsy' : sz.y ≤ 2 * g.datasize.y)
    (r1 : bivector T) (f1 : r1.filled sz (fun x' y' => y' % 2 = 0 ∧ y' < 2 * g.datasize.y ∧
        x' < 2 * g.datasize.x - 2) g.upsampled_val) :
    ∃ r2 : bivector T,
      forLoop 0 g.datasize.y (fun y r => do
        let r ← r.at_assign (2 * g.datasize.x - 2) (2 * y) (g.at_get (g.datasize.x - 1) y)
        r.at_assign (2 * g.datasize.x - 1) (2 * y)
          (bivector.mean2 (g.at_get (g.datasize.x - 1) y) (g.at_get 0 y))) r1 = .ok r2 ∧
      r2.filled sz (fun _ y' => y' % 2 = 0) g.upsampled_val := by
  have hcell : ∀ x y : Int, 0 ≤ x → x < g.datasize.x → 0 ≤ y → y < g.datasize.y →
      g.at_get x y = .ok (g.cell x y) := fun x y a b c d => at_get_cell g hwf x y a b c d
  apply forLoop_post
    (fun (y : Int) (r : bivector T) => r.filled sz
      (fun x' y' => y' % 2 = 0 ∧ (x' < 2 * g.datasize.x - 2 ∨ y' < 2 * y)) g.upsampled_val)
  · omega
  · exact filled_mono _ _ _ _ _ f1 (fun x y _ _ _ _ hq => by omega)
  · intro y r hy0 hyh fr
    apply filled_assign_then _ _ _
      (fun x' y' => (y' % 2 = 0 ∧ (x' < 2 * g.datasize.x - 2 ∨ y' < 2 * y)) ∨
        (x' = 2 * g.datasize.x - 2 ∧ y' = 2 * y)) _ _ _ _ _ _ fr
    · omega
    · omega
    · omega
    · omega
    · have e : 2 * g.datasize.x - 2 = 2 * (g.datasize.x - 1) := by ring
      rw [e, upsampled_val_even, upsampled_row_even]
      exact hcell _ y (by omega) (by omega) hy0 hyh
    · intro x' y' _ _ _ _ hq; exact hq
    · intro t1 ft1
      refine filled_assign _ _ _ _ _ _ _ _ ft1 (by omega) (by omega) (by omega) (by omega)
        ?_ ?_
      · have e : 2 * g.datasize.x - 1 = 2 * (g.datasize.x - 1) + 1 := by ring
        have e0 : (g.datasize.x - 1 + 1) % g.datasize.x = 0 := by
          rw [sub_add_cancel]; exact Int.emod_self
        rw [e, upsampled_val_even, upsampled_row_odd, e0]
        exact mean2_ok _ _ _ _ (hcell _ y (by omega) (by omega) hy0 hyh)
          (hcell 0 y (by omega) (by omega) hy0 hyh)
      · intro x' y' _ _ _ _ hq; omega
  · intro r2 f2
    exact filled_mono _ _ _ _ _ f2 (fun x y _ _ _ _ hq => by omega)

/-- Third pass of `upsampled`: the odd rows between two even rows. -/
theorem upsampled_pass_odd_rows {T : Type} [Field T] [Inhabited T] (g : bivector T)
    (sz : vector2i) (hh : 1 ≤ g.datasize.y) (hsx : 0 ≤ sz.x)
    (hsy : 2 * g.datasize.y - 1 ≤ sz.y)
    (r2 : bivector T) (f2 : r2.filled sz (fun _ y' => y' % 2 = 0) g.upsampled_val) :
    ∃ r3 : bivector T,
      forLoop 0 (g.datasize.y - 1) (fun y r =>
        forLoop 0 sz.x (fun x r =>
          r.at_assign x (2 * y + 1)
            (bivector.mean2 (r.at_get x (2 * y)) (r.at_get x (2 * y + 2)))) r) r2 = .ok r3 ∧
      r3.filled sz (fun _ y' => y' % 2 = 0 ∨ y' < 2 * g.datasize.y - 2) g.upsampled_val := by
  apply forLoop_post
    (fun (y : Int) (r : bivector T) => r.filled sz
      (fun _ y' => y' % 2 = 0 ∨ y' < 2 * y) g.upsampled_val)
  · omega
  · exact filled_mono _ _ _ _ _ f2 (fun x y _ _ _ _ hq => by omega)
  · intro y r hy0 hyh fr
    dsimp only
    apply forLoop_post
      (fun (x : Int) (r : bivector T) => r.filled sz
        (fun x' y' => (y' % 2 = 0 ∨ y' < 2 * y) ∨ (y' = 2 * y + 1 ∧ x' < x)) g.upsampled_val)
    · omega
    · exact filled_mono _ _ _ _ _ fr (fun x' y' _ _ _ _ hq => by omega)
    · intro x t hx0 hxw ft
      refine filled_assign _ _ _ _ _ _ _ _ ft (by omega) (by omega) (by omega) (by omega) ?_ ?_
      · have ha := ft.2.2 x (2 * y) hx0 hxw (by omega) (by omega) (Or.inl (Or.inl (by omega)))
        have hb := ft.2.2 x (2 * y + 2) hx0 hxw (by omega) (by omega)
          (Or.inl (Or.inl (by omega)))
        have e : 2 * y + 2 = 2 * (y + 1) := by ring
        rw [mean2_ok _ _ _ _ ha hb, upsampled_val_odd, e, upsampled_val_even,
          upsampled_val_even, Int.emod_eq_of_lt (by omega : (0 : Int) ≤ y + 1) (by omega)]
      · intro x' y' _ _ _ _ hq; omega
    · intro r' fr'
      exact filled_mono _ _ _ _ _ fr' (fun x' y' _ _ _ _ hq => by omega)
  · intro r3 f3
    exact filled_mono _ _ _ _ _ f3 (fun x y _ _ _ _ hq => by omega)

/-- Fourth pass of `upsampled` with wrap: the last row, between the row above and row 0. -/
theorem upsampled_pass_last_row_wrap {T : Type} [Field T] [Inhabited T] (g : bivector T)
    (sz : vector2i) (hh : 1 ≤ g.datasize.y) (hsx : 0 ≤ sz.x) (hsy : sz.y = 2 * g.datasize.y)
    (r3 : bivector T)
    (f3 : r3.filled sz (fun _ y' => y' % 2 = 0 ∨ y' < 2 * g.datasize.y - 2) g.upsampled_val) :
    ∃ r4 : bivector T,
      forLoop 0 sz.x (fun x r =>
        r.at_assign x (sz.y - 1)
          (bivector.mean2 (r.at_get x (sz.y - 2)) (r.at_get x 0))) r3 = .ok r4 ∧
      r4.filled sz (fun _ _ => True) g.upsampled_val := by
  apply forLoop_post
    (fun (x : Int) (r : bivector T) => r.filled sz
      (fun x' y' => (y' % 2 = 0 ∨ y' < 2 * g.datasize.y - 2) ∨
        (y' = 2 * g.datasize.y - 1 ∧ x' < x)) g.upsampled_val)
  · omega
  · exact filled_mono _ _ _ _ _ f3 (fun x y _ _ _ _ hq => by omega)
  · intro x t hx0 hxw ft
    refine filled_assign _ _ _ _ _ _ _ _ ft (by omega) (by omega) (by omega) (by omega) ?_ ?_
    · have ha := ft.2.2 x (sz.y - 2) hx0 hxw (by omega) (by omega) (Or.inl (Or.inl (by omega)))
      have hb := ft.2.2 x 0 hx0 hxw (by omega) (by omega) (Or.inl (Or.inl (by omega)))
      have e1 : sz.y - 1 = 2 * (g.datasize.y - 1) + 1 := by omega
      have e2 : sz.y - 2 = 2 * (g.datasize.y - 1) := by omega
      have hv0 : g.upsampled_val x 0 = g.upsampled_row x 0 := by
        have := upsampled_val_even g x 0
        simpa using this
      have e0 : (g.datasize.y - 1 + 1) % g.datasize.y = 0 := by
        rw [sub_add_cancel]; exact Int.emod_self
      rw [mean2_ok _ _ _ _ ha hb, e1, upsampled_val_odd, e2, upsampled_val_even, e0, hv0]
    · intro x' y' _ _ _ _ hq; omega
  · intro r4 f4
    exact filled_mono _ _ _ _ _ f4 (fun x y _ _ _ _ hq => by omega)

/-- What `upsampled` computes on a grid with both dimensions at least 1 when the element
count of the result fits an `int`: it succeeds, the result has the upsampled size and
every cell holds its reference value. -/
theorem upsampled_cells {T : Type} [Field T] [Inhabited T] (g : bivector T) (hwf : g.wf)
    (wrap : Bool) (hw : 1 ≤ g.datasize.x) (hh : 1 ≤ g.datasize.y)
    (hfit : (g.upsampled_size wrap).x * (g.upsampled_size wrap).y < 2 ^ 31) :
    ∃ r : bivector T, g.upsampled wrap = .ok r ∧
      r.filled (g.upsampled_size wrap) (fun _ _ => True) g.upsampled_val := by
  unfold bivector.upsampled
  rw [if_neg (by omega)]
  cases wrap with
  | false =>
    have hsx : (g.upsampled_size false).x = 2 * g.datasize.x - 1 := by
      simp [bivector.upsampled_size]; ring
    have hsy : (g.upsampled_size false).y = 2 * g.datasize.y - 1 := by
      simp [bivector.upsampled_size]; ring
    obtain ⟨r0, hc, f0⟩ := filled_ctor (g.upsampled_size false) (default : T) g.upsampled_val
      (by omega) (by omega) hfit
    obtain ⟨r1, h1, f1⟩ := upsampled_pass_even_rows g hwf _ hw hh (by omega) (by omega) r0 f0
    obtain ⟨r2, h2, f2⟩ := upsampled_pass_last_column g hwf _ hw hh hsx (by omega) (by omega)
      r1 f1
    obtain ⟨r3, h3, f3⟩ := upsampled_pass_odd_rows g _ hh (by omega) (by omega) r2 f2
    refine ⟨r3, ?_, filled_mono _ _ _ _ _ f3 (fun x y _ _ _ _ _ => by omega)⟩
    exact bind_ok_of _ _ _ _ hc (bind_ok_of _ _ _ _ h1 (bind_ok_of _ _ _ _ h2
      (bind_ok_of _ _ _ _ h3 rfl)))
  | true =>
    have hsx : (g.upsampled_size true).x = 2 * g.datasize.x := by
      simp [bivector.upsampled_size]; ring
    have hsy : (g.upsampled_size true).y = 2 * g.datasize.y := by
      simp [bivector.upsampled_size]; ring
    obtain ⟨r0, hc, f0⟩ := filled_ctor (g.upsampled_size true) (default : T) g.upsampled_val
      (by omega) (by omega) hfit
    obtain ⟨r1, h1, f1⟩ := upsampled_pass_even_rows g hwf _ hw hh (by omega) (by omega) r0 f0
    obtain ⟨r2, h2, f2⟩ := upsampled_pass_last_columns_wrap g hwf _ hw hh hsx (by omega)
      (by omega) r1 f1
    obtain ⟨r3, h3, f3⟩ := upsampled_pass_odd_rows g _ hh (by omega) (by omega) r2 f2
    obtain ⟨r4, h4, f4⟩ := upsampled_pass_last_row_wrap g _ hh (by omega) hsy r3 f3
    refine ⟨r4, ?_, f4⟩
    exact bind_ok_of _ _ _ _ hc (bind_ok_of _ _ _ _ h1 (bind_ok_of _ _ _ _ h2
      (bind_ok_of _ _ _ _ h3 h4)))

/-- C13, amended: on a grid of size `(w,h)` satisfying the invariant, with `w ≥ 1` and
`h ≥ 1`, `upsampled(true)` succeeds with size `(2w, 2h)` when the element count
`(2w)*(2h)` of the result fits an `int`, and `upsampled(false)` succeeds with size
`(2w-1, 2h-1)` when `(2w-1)*(2h-1)` does; with `w < 1` or `h < 1` both throw
`invalid_argument`. -/
theorem upsampled_size_law {T : Type} [Field T] [Inhabited T] (g : bivector T) (hwf : g.wf) :
    (1 ≤ g.size.x → 1 ≤ g.size.y →
      ((2 * g.size.x) * (2 * g.size.y) < 2 ^ 31 →
        ∃ r : bivector T, g.upsampled true = .ok r ∧
          r.size = ⟨2 * g.size.x, 2 * g.size.y⟩) ∧
      ((2 * g.size.x - 1) * (2 * g.size.y - 1) < 2 ^ 31 →
        ∃ r : bivector T, g.upsampled false = .ok r ∧
          r.size = ⟨2 * g.size.x - 1, 2 * g.size.y - 1⟩)) ∧
    (g.size.x < 1 ∨ g.size.y < 1 →
      g.upsampled true = .error .invalid_argument ∧
      g.upsampled false = .error .invalid_argument) := by
  simp only [bivector.size]
  constructor
  · intro hw hh
    constructor
    · intro hf
      obtain ⟨r, hr, fr⟩ := upsampled_cells g hwf true hw hh (by
        show g.datasize.x * 2 * (g.datasize.y * 2) < 2 ^ 31
        rw [mul_comm g.datasize.x, mul_comm g.datasize.y]; exact hf)
      refine ⟨r, hr, ?_⟩
      rw [fr.1]; simp [bivector.upsampled_size, mul_comm]
    · intro hf
      obtain ⟨r', hr', fr'⟩ := upsampled_cells g hwf false hw hh (by
        show (g.datasize.x * 2 - 1) * (g.datasize.y * 2 - 1) < 2 ^ 31
        rw [mul_comm g.datasize.x, mul_comm g.datasize.y]; exact hf)
      refine ⟨r', hr', ?_⟩
      rw [fr'.1]; simp [bivector.upsampled_size, mul_comm]
  · intro hlt
    constructor <;> simp [bivector.upsampled, hlt]

/-- Witness of C13: the (2,2) grid over the rationals. -/
theorem upsampled_size_law_witness :
    gridq22.wf ∧ (1 : Int) ≤ gridq22.size.x ∧ (1 : Int) ≤ gridq22.size.y ∧
    (∃ r : bivector ℚ, gridq22.upsampled true = .ok r ∧
      r.size = ⟨2 * gridq22.size.x, 2 * gridq22.size.y⟩) ∧
    (∃ r : bivector ℚ, gridq22.upsampled false = .ok r ∧
      r.size = ⟨2 * gridq22.size.x - 1, 2 * gridq22.size.y - 1⟩) :=
  ⟨by decide, by decide, by decide,
    ((upsampled_size_law gridq22 (by decide)).1 (by decide) (by decide)).1 (by decide),
    ((upsampled_size_law gridq22 (by decide)).1 (by decide) (by decide)).2 (by decide)⟩

/-- C13 as stated fails where the element count of the result does not fit an `int`: the
grid of size `(32768, 16384)` satisfies the invariant with `2^29` elements, and
`upsampled(true)` asks the constructor for `65536 * 32768 = 2^31` elements, an `int`
product that wraps to `-2^31`: the call throws `length_error`. -/
theorem upsampled_count_overflow :
    gridq_wide.wf ∧ (1 : Int) ≤ gridq_wide.size.x ∧ (1 : Int) ≤ gridq_wide.size.y ∧
    gridq_wide.upsampled true = .error .length_error := by
  refine ⟨⟨by decide, by decide, ?_⟩, by decide, by decide, ?_⟩
  · show ((List.replicate (2 ^ 29) (0 : ℚ)).length : Int) = 32768 * 16384
    rw [List.length_replicate]
    norm_num
  · have hc : bivector.ctor (gridq_wide.upsampled_size true) (default : ℚ) =
        .error .length_error := rfl
    unfold bivector.upsampled
    rw [if_neg (by decide)]
    show (bivector.ctor (gridq_wide.upsampled_size true) (default : ℚ) >>= _) = _
    rw [hc]
    rfl

/-- C14: for a grid `g` of size `(w,h)` with `w,h ≥ 1` satisfying the invariant, over a
field, and `R = g.upsampled(wrap)` in either mode (the element count of `R` an `int`):
(i) `R.at(2x,2y) == g.at(x,y)`;
(ii) for every odd column `2x+1` inside `R` and every source row `y`,
`R.at(2x+1,2y) == (g.at(x,y) + g.at((x+1) mod w, y)) / 2`; (iii) for every odd row `2y+1`
inside `R` and every column `x'` of `R`,
`R.at(x',2y+1) == (R.at(x',2y) + R.at(x',(2y+2) mod 2h)) / 2`.  Without wrap the `mod`
never takes effect; with wrap the last column and row interpolate against column and
row 0. -/
theorem upsampled_interpolates {T : Type} [Field T] [Inhabited T] (g : bivector T)
    (hwf : g.wf) (wrap : Bool) (hw : 1 ≤ g.size.x) (hh : 1 ≤ g.size.y)
    (hfit : (g.upsampled_size wrap).x * (g.upsampled_size wrap).y < 2 ^ 31) :
    ∃ r : bivector T, g.upsampled wrap = .ok r ∧ r.size = g.upsampled_size wrap ∧
      (∀ x y : Int, 0 ≤ x → x < g.size.x → 0 ≤ y → y < g.size.y →
        ∃ v : T, g.at_get x y = .ok v ∧ r.at_get (2 * x) (2 * y) = .ok v) ∧
      (∀ x y : Int, 0 ≤ x → 2 * x + 1 < r.size.x → 0 ≤ y → y < g.size.y →
        ∃ a b : T, g.at_get x y = .ok a ∧ g.at_get ((x + 1) % g.size.x) y = .ok b ∧
          r.at_get (2 * x + 1) (2 * y) = .ok ((a + b) / 2)) ∧
      (∀ x' y : Int, 0 ≤ x' → x' < r.size.x → 0 ≤ y → 2 * y + 1 < r.size.y →
        ∃ a b : T, r.at_get x' (2 * y) = .ok a ∧
          r.at_get x' ((2 * y + 2) % (2 * g.size.y)) = .ok b ∧
          r.at_get x' (2 * y + 1) = .ok ((a + b) / 2)) ∧
      (wrap = false →
        (∀ x : Int, 0 ≤ x → 2 * x + 1 < r.size.x → (x + 1) % g.size.x = x + 1) ∧
        (∀ y : Int, 0 ≤ y → 2 * y + 1 < r.size.y → (2 * y + 2) % (2 * g.size.y) = 2 * y + 2)) ∧
      (wrap = true →
        r.size.x = 2 * g.size.x ∧ r.size.y = 2 * g.size.y ∧
        (g.size.x - 1 + 1) % g.size.x = 0 ∧
        (2 * (g.size.y - 1) + 2) % (2 * g.size.y) = 0) := by
  simp only [bivector.size] at hw hh ⊢
  obtain ⟨r, hr, hsz, hlen, hcells⟩ := upsampled_cells g hwf wrap hw hh hfit
  have hsx : r.datasize.x = if wrap then 2 * g.datasize.x else 2 * g.datasize.x - 1 := by
    rw [hsz]; cases wrap <;> simp [bivector.upsampled_size, mul_comm]
  have hsy : r.datasize.y = if wrap then 2 * g.datasize.y else 2 * g.datasize.y - 1 := by
    rw [hsz]; cases wrap <;> simp [bivector.upsampled_size, mul_comm]
  have hsx' : 2 * g.datasize.x - 1 ≤ r.datasize.x ∧ r.datasize.x ≤ 2 * g.datasize.x := by
    rw [hsx]; cases wrap <;> simp
  have hsy' : 2 * g.datasize.y - 1 ≤ r.datasize.y ∧ r.datasize.y ≤ 2 * g.datasize.y := by
    rw [hsy]; cases wrap <;> simp
  have hcell : ∀ x y : Int, 0 ≤ x → x < g.datasize.x → 0 ≤ y → y < g.datasize.y →
      g.at_get x y = .ok (g.cell x y) := fun x y a b c d => at_get_cell g hwf x y a b c d
  have hR : ∀ x y : Int, 0 ≤ x → x < r.datasize.x → 0 ≤ y → y < r.datasize.y →
      r.at_get x y = .ok (g.upsampled_val x y) := by
    intro x y hx0 hxw hy0 hyh
    exact hcells x y hx0 (by rw [← hsz]; exact hxw) hy0 (by rw [← hsz]; exact hyh) trivial
  have hmodw : ∀ k : Int, 0 ≤ k % g.datasize.x ∧ k % g.datasize.x < g.datasize.x :=
    fun k => ⟨Int.emod_nonneg _ (by omega), Int.emod_lt_of_pos _ (by omega)⟩
  have hmodh : ∀ k : Int, 0 ≤ k % g.datasize.y ∧ k % g.datasize.y < g.datasize.y :=
    fun k => ⟨Int.emod_nonneg _ (by omega), Int.emod_lt_of_pos _ (by omega)⟩
  have hmod2 : ∀ y : Int, (2 * y + 2) % (2 * g.datasize.y) = 2 * ((y + 1) % g.datasize.y) := by
    intro y
    have e : 2 * y + 2 = 2 * (y + 1) := by ring
    rw [e, Int.mul_emod_mul_of_pos _ _ (by norm_num : (0 : Int) < 2)]
  refine ⟨r, hr, hsz, ?_, ?_, ?_, ?_, ?_⟩
  · intro x y hx0 hxw hy0 hyh
    refine ⟨g.cell x y, hcell x y hx0 hxw hy0 hyh, ?_⟩
    rw [hR (2 * x) (2 * y) (by omega) (by omega) (by omega) (by omega), upsampled_val_even,
      upsampled_row_even]
  · intro x y hx0 hxw hy0 hyh
    refine ⟨g.cell x y, g.cell ((x + 1) % g.datasize.x) y, hcell x y hx0 (by omega) hy0 hyh,
      hcell _ y (hmodw _).1 (hmodw _).2 hy0 hyh, ?_⟩
    rw [hR (2 * x + 1) (2 * y) (by omega) hxw (by omega) (by omega), upsampled_val_even,
      upsampled_row_odd, div_eq_mul_inv]
  · intro x' y hx0 hxw hy0 hyh
    have h1 := (hmodh (y + 1)).1
    have h2 := (hmodh (y + 1)).2
    refine ⟨g.upsampled_val x' (2 * y), g.upsampled_val x' (2 * ((y + 1) % g.datasize.y)),
      hR x' (2 * y) hx0 hxw (by omega) (by omega), ?_, ?_⟩
    · rw [hmod2]
      exact hR x' _ hx0 hxw (by omega) (by omega)
    · rw [hR x' (2 * y + 1) hx0 hxw (by omega) hyh, upsampled_val_odd, upsampled_val_even,
        upsampled_val_even, div_eq_mul_inv]
  · intro hwrap
    subst hwrap
    simp only [Bool.false_eq_true, if_false] at hsx hsy
    refine ⟨fun x hx0 hx => Int.emod_eq_of_lt (by omega) (by omega),
      fun y hy0 hy => Int.emod_eq_of_lt (by omega) (by omega)⟩
  · intro hwrap
    subst hwrap
    simp only [if_true] at hsx hsy
    refine ⟨hsx, hsy, by rw [sub_add_cancel]; exact Int.emod_self, ?_⟩
    have e : 2 * (g.datasize.y - 1) + 2 = 2 * g.datasize.y := by ring
    rw [e]; exact Int.emod_self

/-- Witness of C14: the (2,2) grid over the rationals, without wrap. -/
theorem upsampled_interpolates_witness :
    gridq22.wf ∧ (1 : Int) ≤ gridq22.size.x ∧ (1 : Int) ≤ gridq22.size.y ∧
    ∃ r : bivector ℚ, gridq22.upsampled false = .ok r ∧
      r.size = gridq22.upsampled_size false ∧
      (∀ x y : Int, 0 ≤ x → x < gridq22.size.x → 0 ≤ y → y < gridq22.size.y →
        ∃ v : ℚ, gridq22.at_get x y = .ok v ∧ r.at_get (2 * x) (2 * y) = .ok v) ∧
      (∀ x y : Int, 0 ≤ x → 2 * x + 1 < r.size.x → 0 ≤ y → y < gridq22.size.y →
        ∃ a b : ℚ, gridq22.at_get x y = .ok a ∧
          gridq22.at_get ((x + 1) % gridq22.size.x) y = .ok b ∧
          r.at_get (2 * x + 1) (2 * y) = .ok ((a + b) / 2)) :=
  ⟨by decide, by decide, by decide,
    (upsampled_interpolates gridq22 (by decide) false (by decide) (by decide)
      (by decide)).imp
      (fun _ h => ⟨h.1, h.2.1, h.2.2.1, h.2.2.2.1⟩)⟩

theorem mean2_const {T : Type} [Field T] [CharZero T] (c : T) : (c + c) * 2⁻¹ = c := by
  have h2 : (2 : T) ≠ 0 := two_ne_zero
  field_simp

/-- Where every cell of `g` holds `c`, every reference value of the upsampled grid is `c`. -/
theorem upsampled_val_const {T : Type} [Field T] [CharZero T] [Inhabited T] (g : bivector T)
    (c : T) (hw : 1 ≤ g.datasize.x) (hh : 1 ≤ g.datasize.y)
    (hc : ∀ x y : Int, 0 ≤ x → x < g.datasize.x → 0 ≤ y → y < g.datasize.y → g.cell x y = c)
    (x' y' : Int) (hx0 : 0 ≤ x') (hxw : x' < 2 * g.datasize.x) (hy0 : 0 ≤ y')
    (hyh : y' < 2 * g.datasize.y) : g.upsampled_val x' y' = c := by
  have hmodw : ∀ k : Int, 0 ≤ k % g.datasize.x ∧ k % g.datasize.x < g.datasize.x :=
    fun k => ⟨Int.emod_nonneg _ (by omega), Int.emod_lt_of_pos _ (by omega)⟩
  have hmodh : ∀ k : Int, 0 ≤ k % g.datasize.y ∧ k % g.datasize.y < g.datasize.y :=
    fun k => ⟨Int.emod_nonneg _ (by omega), Int.emod_lt_of_pos _ (by omega)⟩
  have hrow : ∀ y : Int, 0 ≤ y → y < g.datasize.y → g.upsampled_row x' y = c := by
    intro y hy0' hyh'
    unfold bivector.upsampled_row
    split
    · exact hc _ y (by omega) (by omega) hy0' hyh'
    · rw [hc _ y (by omega) (by omega) hy0' hyh', hc _ y (hmodw _).1 (hmodw _).2 hy0' hyh']
      exact mean2_const c
  unfold bivector.upsampled_val
  split
  · exact hrow _ (by omega) (by omega)
  · rw [hrow _ (by omega) (by omega), hrow _ (hmodh _).1 (hmodh _).2]
    exact mean2_const c

/-- C15, amended: over exact arithmetic (a field of characteristic zero), for every value
`c` and every grid of size `(w,h)`, `w,h ≥ 1`, whose cells all equal `c`, `upsampled` in
either mode yields a grid of the upsampled size whose cells all equal `c` (every output
cell is written), when the element count of the result fits an `int`. -/
theorem upsampled_constant {T : Type} [Field T] [CharZero T] [Inhabited T] (g : bivector T)
    (hwf : g.wf) (wrap : Bool) (c : T) (hw : 1 ≤ g.size.x) (hh : 1 ≤ g.size.y)
    (hfit : (g.upsampled_size wrap).x * (g.upsampled_size wrap).y < 2 ^ 31)
    (hc : ∀ x y : Int, 0 ≤ x → x < g.size.x → 0 ≤ y → y < g.size.y → g.at_get x y = .ok c) :
    ∃ r : bivector T, g.upsampled wrap = .ok r ∧ r.size = g.upsampled_size wrap ∧
      ∀ x y : Int, 0 ≤ x → x < r.size.x → 0 ≤ y → y < r.size.y → r.at_get x y = .ok c := by
  simp only [bivector.size] at hw hh hc ⊢
  obtain ⟨r, hr, hsz, hlen, hcells⟩ := upsampled_cells g hwf wrap hw hh hfit
  have hsx : r.datasize.x ≤ 2 * g.datasize.x := by
    rw [hsz]; cases wrap <;> simp [bivector.upsampled_size] <;> omega
  have hsy : r.datasize.y ≤ 2 * g.datasize.y := by
    rw [hsz]; cases wrap <;> simp [bivector.upsampled_size] <;> omega
  have hcc : ∀ x y : Int, 0 ≤ x → x < g.datasize.x → 0 ≤ y → y < g.datasize.y →
      g.cell x y = c := by
    intro x y hx0 hxw hy0 hyh
    simp only [bivector.cell, hc x y hx0 hxw hy0 hyh]
  refine ⟨r, hr, hsz, ?_⟩
  intro x y hx0 hxw hy0 hyh
  rw [hcells x y hx0 (by rw [← hsz]; exact hxw) hy0 (by rw [← hsz]; exact hyh) trivial,
    upsampled_val_const g c hw hh hcc x y hx0 (by omega) hy0 (by omega)]

/-- Witness of C15: the (2,2) grid of fives gives the (3,3) grid of fives. -/
theorem upsampled_constant_witness :
    gridq22c.wf ∧
    ∃ r : bivector ℚ, gridq22c.upsampled false = .ok r ∧ r.size = ⟨3, 3⟩ ∧
      ∀ x y : Int, 0 ≤ x → x < r.size.x → 0 ≤ y → y < r.size.y → r.at_get x y = .ok 5 :=
  ⟨by decide,
    upsampled_constant gridq22c (by decide) false 5 (by decide) (by decide) (by decide)
      (by
        intro x y hx0 hxw hy0 hyh
        have hxw' : x < 2 := hxw
        have hyh' : y < 2 := hyh
        interval_cases x <;> interval_cases y <;> rfl)⟩

/-- C15 as stated fails on an element type whose arithmetic is not exact, and where the
result is too large.  On `bivector<unsigned>` the (2,2) grid whose cells all equal
3000000000 gives a (3,3) grid whose midpoint cells hold 852516352: the sum `c + c` wraps
modulo `2^32` before it is halved.  And the (32768,16384) grid whose cells all equal 0
gives no grid in wrap mode: the element count `2^31` of the result wraps and the
constructor throws `length_error`. -/
theorem upsampled_constant_inexact :
    gridu22c.wf ∧
    (∀ x y : Int, 0 ≤ x → x < gridu22c.size.x → 0 ≤ y → y < gridu22c.size.y →
      gridu22c.at_get x y = .ok ⟨3000000000⟩) ∧
    gridu22c.upsampled false = .ok ⟨⟨3, 3⟩,
      [⟨3000000000⟩, ⟨852516352⟩, ⟨3000000000⟩,
       ⟨852516352⟩, ⟨852516352⟩, ⟨852516352⟩,
       ⟨3000000000⟩, ⟨852516352⟩, ⟨3000000000⟩]⟩ ∧
    gridq_wide.upsampled true = .error .length_error := by
  refine ⟨by decide, ?_, rfl, ?_⟩
  · intro x y hx0 hxw hy0 hyh
    have hxw' : x < 2 := hxw
    have hyh' : y < 2 := hyh
    interval_cases x <;> interval_cases y <;> rfl
  · have hc : bivector.ctor (gridq_wide.upsampled_size true) (default : ℚ) =
        .error .length_error := rfl
    unfold bivector.upsampled
    rw [if_neg (by decide)]
    show (bivector.ctor (gridq_wide.upsampled_size true) (default : ℚ) >>= _) = _
    rw [hc]
    rfl

/-- The corner test `(a & b) & 1` holds exactly when `a` and `b` are both odd. -/
theorem int_and_and_one (a b : Int) :
    int_and (int_and a b) 1 ≠ 0 ↔ a % 2 = 1 ∧ b % 2 = 1 := by
  rw [int_and_one]
  have hr : (int_and a b) % 2 =
      ((Nat.land (a % 2 ^ 32).toNat (b % 2 ^ 32).toNat : Nat) : Int) % 2 := by
    unfold int_and
    dsimp only
    split <;> omega
  rw [hr]
  have hnat := @Nat.and_mod_two_eq_one (a % 2 ^ 32).toNat (b % 2 ^ 32).toNat
  have hland : Nat.land (a % 2 ^ 32).toNat (b % 2 ^ 32).toNat =
      (a % 2 ^ 32).toNat &&& (b % 2 ^ 32).toNat := rfl
  rw [hland]
  constructor
  · intro h
    have h1 : ((a % 2 ^ 32).toNat &&& (b % 2 ^ 32).toNat) % 2 = 1 := by omega
    have := hnat.mp h1
    omega
  · intro h
    have h1 : ((a % 2 ^ 32).toNat &&& (b % 2 ^ 32).toNat) % 2 = 1 := hnat.mpr (by omega)
    omega

/-! ## downsampled -/

/-- First pass of `downsampled`: the means of the 2×2 blocks. -/
theorem downsampled_pass_blocks {T : Type} [Field T] [Inhabited T] (g : bivector T)
    (hwf : g.wf) (sz : vector2i) (hsx : g.datasize.x / 2 ≤ sz.x)
    (hsy : g.datasize.y / 2 ≤ sz.y) (r0 : bivector T)
    (f0 : r0.filled sz (fun _ _ => False) g.downsampled_val) :
    ∃ r1 : bivector T,
      forLoop 0 (g.datasize.y / 2) (fun y r =>
        forLoop 0 (g.datasize.x / 2) (fun x r =>
          r.at_assign x y (bivector.mean4 (g.at_get (2 * x) (2 * y))
            (g.at_get (2 * x + 1) (2 * y)) (g.at_get (2 * x) (2 * y + 1))
            (g.at_get (2 * x + 1) (2 * y + 1)))) r) r0 = .ok r1 ∧
      r1.filled sz (fun x' y' => x' < g.datasize.x / 2 ∧ y' < g.datasize.y / 2)
        g.downsampled_val := by
  have hw0 := hwf.1
  have hh0 := hwf.2.1
  have hcell : ∀ x y : Int, 0 ≤ x → x < g.datasize.x → 0 ≤ y → y < g.datasize.y →
      g.at_get x y = .ok (g.cell x y) := fun x y a b c d => at_get_cell g hwf x y a b c d
  apply forLoop_post
    (fun (y : Int) (r : bivector T) => r.filled sz
      (fun x' y' => x' < g.datasize.x / 2 ∧ y' < y) g.downsampled_val)
  · omega
  · exact filled_mono _ _ _ _ _ f0 (fun x y _ _ _ _ hq => by omega)
  · intro y r hy0 hyh fr
    dsimp only
    apply forLoop_post
      (fun (x : Int) (r : bivector T) => r.filled sz
        (fun x' y' => (x' < g.datasize.x / 2 ∧ y' < y) ∨ (y' = y ∧ x' < x)) g.downsampled_val)
    · omega
    · exact filled_mono _ _ _ _ _ fr (fun x' y' _ _ _ _ hq => by omega)
    · intro x t hx0 hxw ft
      refine filled_assign _ _ _ _ _ _ _ _ ft (by omega) (by omega) (by omega) (by omega) ?_ ?_
      · rw [mean4_ok _ _ _ _ _ _ _ _
          (hcell (2 * x) (2 * y) (by omega) (by omega) (by omega) (by omega))
          (hcell (2 * x + 1) (2 * y) (by omega) (by omega) (by omega) (by omega))
          (hcell (2 * x) (2 * y + 1) (by omega) (by omega) (by omega) (by omega))
          (hcell (2 * x + 1) (2 * y + 1) (by omega) (by omega) (by omega) (by omega))]
        simp only [bivector.downsampled_val, hxw, hyh, if_true]
      · intro x' y' _ _ _ _ hq; omega
    · intro r' fr'
      exact filled_mono _ _ _ _ _ fr' (fun x' y' _ _ _ _ hq => by omega)
  · intro r1 f1
    exact f1

/-- The leftover last column of `downsampled` for an odd width. -/
theorem downsampled_pass_column {T : Type} [Field T] [Inhabited T] (g : bivector T)
    (hwf : g.wf) (sz : vector2i) (hodd : g.datasize.x % 2 = 1)
    (hsx : g.datasize.x / 2 < sz.x) (hsy : g.datasize.y / 2 ≤ sz.y) (r1 : bivector T)
    (f1 : r1.filled sz (fun x' y' => x' < g.datasize.x / 2 ∧ y' < g.datasize.y / 2)
      g.downsampled_val) :
    ∃ r2 : bivector T,
      forLoop 0 (g.datasize.y / 2) (fun y r =>
        r.at_assign (g.datasize.x / 2) y
          (bivector.mean2 (g.at_get (g.datasize.x - 1) (2 * y))
            (g.at_get (g.datasize.x - 1) (2 * y + 1)))) r1 = .ok r2 ∧
      r2.filled sz (fun x' y' => x' ≤ g.datasize.x / 2 ∧ y' < g.datasize.y / 2)
        g.downsampled_val := by
  have hw0 := hwf.1
  have hh0 := hwf.2.1
  have hcell : ∀ x y : Int, 0 ≤ x → x < g.datasize.x → 0 ≤ y → y < g.datasize.y →
      g.at_get x y = .ok (g.cell x y) := fun x y a b c d => at_get_cell g hwf x y a b c d
  apply forLoop_post
    (fun (y : Int) (r : bivector T) => r.filled sz
      (fun x' y' => (x' < g.datasize.x / 2 ∧ y' < g.datasize.y / 2) ∨
        (x' = g.datasize.x / 2 ∧ y' < y)) g.downsampled_val)
  · omega
  · exact filled_mono _ _ _ _ _ f1 (fun x y _ _ _ _ hq => by omega)
  · intro y r hy0 hyh fr
    refine filled_assign _ _ _ _ _ _ _ _ fr (by omega) (by omega) (by omega) (by omega) ?_ ?_
    · rw [mean2_ok _ _ _ _
        (hcell (g.datasize.x - 1) (2 * y) (by omega) (by omega) (by omega) (by omega))
        (hcell (g.datasize.x - 1) (2 * y + 1) (by omega) (by omega) (by omega) (by omega))]
      simp only [bivector.downsampled_val, lt_irrefl, hyh, if_true, if_false]
    · intro x' y' _ _ _ _ hq; omega
  · intro r2 f2
    exact filled_mono _ _ _ _ _ f2 (fun x y _ _ _ _ hq => by omega)

/-- The leftover last row of `downsampled` for an odd height, when the result has a row
for it. -/
theorem downsampled_pass_row {T : Type} [Field T] [Inhabited T] (g : bivector T)
    (hwf : g.wf) (sz : vector2i) (P : Int → Int → Prop) (hodd : g.datasize.y % 2 = 1)
    (hsx : g.datasize.x / 2 ≤ sz.x) (hsy : g.datasize.y / 2 < sz.y) (r2 : bivector T)
    (f2 : r2.filled sz P g.downsampled_val) :
    ∃ r3 : bivector T,
      forLoop 0 (g.datasize.x / 2) (fun x r =>
        r.at_assign x (g.datasize.y / 2)
          (bivector.mean2 (g.at_get (2 * x) (g.datasize.y - 1))
            (g.at_get (2 * x + 1) (g.datasize.y - 1)))) r2 = .ok r3 ∧
      r3.filled sz (fun x' y' => P x' y' ∨ (x' < g.datasize.x / 2 ∧ y' = g.datasize.y / 2))
        g.downsampled_val := by
  have hw0 := hwf.1
  have hh0 := hwf.2.1
  have hcell : ∀ x y : Int, 0 ≤ x → x < g.datasize.x → 0 ≤ y → y < g.datasize.y →
      g.at_get x y = .ok (g.cell x y) := fun x y a b c d => at_get_cell g hwf x y a b c d
  apply forLoop_post
    (fun (x : Int) (r : bivector T) => r.filled sz
      (fun x' y' => P x' y' ∨ (x' < x ∧ y' = g.datasize.y / 2)) g.downsampled_val)
  · omega
  · exact filled_mono _ _ _ _ _ f2 (fun x y _ _ _ _ hq => by
      rcases hq with hq | hq
      · exact hq
      · omega)
  · intro x r hx0 hxw fr
    refine filled_assign _ _ _ _ _ _ _ _ fr (by omega) (by omega) (by omega) (by omega) ?_ ?_
    · rw [mean2_ok _ _ _ _
        (hcell (2 * x) (g.datasize.y - 1) (by omega) (by omega) (by omega) (by omega))
        (hcell (2 * x + 1) (g.datasize.y - 1) (by omega) (by omega) (by omega) (by omega))]
      simp only [bivector.downsampled_val, hxw, lt_irrefl, if_true, if_false]
    · intro x' y' _ _ _ _ hq
      rcases hq with hq | hq
      · exact Or.inl (Or.inl hq)
      · by_cases hx : x' = x
        · exact Or.inr ⟨hx, hq.2⟩
        · exact Or.inl (Or.inr ⟨by omega, hq.2⟩)
  · intro r3 f3
    exact f3

/-- The element count of a downsampled grid of size `(w/2, h/2)` fits an `int` when that
of the source does. -/
theorem downsampled_count_even (w h : Int) (hw0 : 0 ≤ w) (hh0 : 0 ≤ h)
    (hfit : w * h < 2 ^ 31) :
    (⟨w / 2, h / 2⟩ : vector2i).x * (⟨w / 2, h / 2⟩ : vector2i).y < 2 ^ 31 :=
  lt_of_le_of_lt (mul_le_mul (by show w / 2 ≤ w; omega) (by show h / 2 ≤ h; omega)
    (by show 0 ≤ h / 2; omega) hw0) hfit

/-- The element count of a downsampled grid of size `(w/2 + 1, h/2 + 1)`, `w` odd, fits an
`int` when that of the source does (and the width is an `int`). -/
theorem downsampled_count_odd (w h : Int) (hw0 : 0 ≤ w) (hh0 : 0 ≤ h) (hodd : w % 2 = 1)
    (hwi : w < 2 ^ 31) (hfit : w * h < 2 ^ 31) :
    (⟨w / 2 + 1, h / 2 + 1⟩ : vector2i).x * (⟨w / 2 + 1, h / 2 + 1⟩ : vector2i).y
      < 2 ^ 31 := by
  show (w / 2 + 1) * (h / 2 + 1) < 2 ^ 31
  rcases eq_or_lt_of_le hh0 with h0 | hpos
  · rw [← h0]
    have : (w / 2 + 1) * (0 / 2 + 1) = w / 2 + 1 := by norm_num
    rw [this]
    omega
  · exact lt_of_le_of_lt (mul_le_mul (by omega) (by omega) (by omega) hw0) hfit

/-- What `downsampled` computes with `force_even_size`, or without it on a grid whose
width and height are even: a grid of size `(w/2, h/2)` of block means. -/
theorem downsampled_cells_even {T : Type} [Field T] [Inhabited T] (g : bivector T)
    (hwf : g.wf) (hfit : g.datasize.x * g.datasize.y < 2 ^ 31) (f : Bool)
    (hcase : f = true ∨ (g.datasize.x % 2 = 0 ∧ g.datasize.y % 2 = 0)) :
    ∃ r : bivector T, g.downsampled f = .ok r ∧
      r.filled ⟨g.datasize.x / 2, g.datasize.y / 2⟩ (fun _ _ => True) g.downsampled_val := by
  have hw0 := hwf.1
  have hh0 := hwf.2.1
  have hsz : g.downsampled_size f = ⟨g.datasize.x / 2, g.datasize.y / 2⟩ := by
    unfold bivector.downsampled_size
    rcases hcase with hf | ⟨hx, _⟩
    · simp [hf]
    · cases f
      · simp [int_and_one, hx]
      · simp
  obtain ⟨r0, hc, f0⟩ := filled_ctor (⟨g.datasize.x / 2, g.datasize.y / 2⟩ : vector2i)
    (default : T) g.downsampled_val (by show 0 ≤ g.datasize.x / 2; omega)
    (by show 0 ≤ g.datasize.y / 2; omega)
    (downsampled_count_even _ _ hwf.1 hwf.2.1 hfit)
  obtain ⟨r1, h1, f1⟩ := downsampled_pass_blocks g hwf _ (le_refl _) (le_refl _) r0 f0
  refine ⟨r1, ?_, filled_mono _ _ _ _ _ f1 (fun x y _ hx _ hy _ => ⟨hx, hy⟩)⟩
  unfold bivector.downsampled
  rw [hsz]
  refine bind_ok_of _ _ _ _ hc (bind_ok_of _ _ _ _ h1 ?_)
  rcases hcase with hf | ⟨hx, hy⟩
  · subst hf
    rfl
  · cases f
    · have c1 : ¬ (int_and g.datasize.x 1 ≠ 0) := by rw [int_and_one]; omega
      have c2 : ¬ (int_and g.datasize.y 1 ≠ 0) := by rw [int_and_one]; omega
      have c3 : ¬ (int_and (int_and g.datasize.x g.datasize.y) 1 ≠ 0) := by
        rw [int_and_and_one]; omega
      simp only [Bool.false_eq_true, if_false, c1, c2, c3]
      rfl
    · rfl

/-- What `downsampled` without `force_even_size` computes on a grid of odd width: it
succeeds with size `(w/2 + 1, h/2 + 1)`; the rows below `h/2` hold block means and the
pair means of the last column; row `h/2` is written only when the height is odd too. -/
theorem downsampled_cells_odd_width {T : Type} [Field T] [Inhabited T] (g : bivector T)
    (hwf : g.wf) (hfit : g.datasize.x * g.datasize.y < 2 ^ 31) (hwi : g.datasize.x < 2 ^ 31)
    (hodd : g.datasize.x % 2 = 1) :
    ∃ r : bivector T, g.downsampled false = .ok r ∧
      r.filled ⟨g.datasize.x / 2 + 1, g.datasize.y / 2 + 1⟩
        (fun _ y' => y' < g.datasize.y / 2 ∨ g.datasize.y % 2 = 1) g.downsampled_val := by
  have hw0 := hwf.1
  have hh0 := hwf.2.1
  have hcell : ∀ x y : Int, 0 ≤ x → x < g.datasize.x → 0 ≤ y → y < g.datasize.y →
      g.at_get x y = .ok (g.cell x y) := fun x y a b c d => at_get_cell g hwf x y a b c d
  have hsz : g.downsampled_size false = ⟨g.datasize.x / 2 + 1, g.datasize.y / 2 + 1⟩ := by
    simp [bivector.downsampled_size, int_and_one, hodd]
  have hsx : (⟨g.datasize.x / 2 + 1, g.datasize.y / 2 + 1⟩ : vector2i).x =
      g.datasize.x / 2 + 1 := rfl
  have hsy : (⟨g.datasize.x / 2 + 1, g.datasize.y / 2 + 1⟩ : vector2i).y =
      g.datasize.y / 2 + 1 := rfl
  obtain ⟨r0, hc, f0⟩ := filled_ctor (⟨g.datasize.x / 2 + 1, g.datasize.y / 2 + 1⟩ : vector2i)
    (default : T) g.downsampled_val (by rw [hsx]; omega) (by rw [hsy]; omega)
    (downsampled_count_odd _ _ hw0 hh0 hodd hwi hfit)
  obtain ⟨r1, h1, f1⟩ := downsampled_pass_blocks g hwf _ (by rw [hsx]; omega)
    (by rw [hsy]; omega) r0 f0
  obtain ⟨r2, h2, f2⟩ := downsampled_pass_column g hwf _ hodd (by rw [hsx]; omega)
    (by rw [hsy]; omega) r1 f1
  have c1 : int_and g.datasize.x 1 ≠ 0 := by rw [int_and_one]; omega
  unfold bivector.downsampled
  rw [hsz]
  by_cases hy : g.datasize.y % 2 = 1
  · -- odd height: last row and corner
    obtain ⟨r3, h3, f3⟩ := downsampled_pass_row g hwf _ _ hy (by rw [hsx]; omega)
      (by rw [hsy]; omega) r2 f2
    obtain ⟨r4, h4, f4⟩ := filled_assign r3 _ _
      (fun _ _ => True) g.downsampled_val (g.datasize.x / 2) (g.datasize.y / 2)
      (g.at_get (g.datasize.x - 1) (g.datasize.y - 1)) f3 (by omega) (by rw [hsx]; omega)
      (by omega) (by rw [hsy]; omega)
      (by
        rw [hcell _ _ (by omega) (by omega) (by omega) (by omega)]
        simp only [bivector.downsampled_val, lt_irrefl, if_false])
      (by
        intro x' y' _ hx' _ hy' _
        rw [hsx] at hx'
        rw [hsy] at hy'
        by_cases hc : x' = g.datasize.x / 2 ∧ y' = g.datasize.y / 2
        · exact Or.inr hc
        · left
          by_cases hr : y' < g.datasize.y / 2
          · exact Or.inl ⟨by omega, hr⟩
          · exact Or.inr ⟨by omega, by omega⟩)
    have c2 : int_and g.datasize.y 1 ≠ 0 := by rw [int_and_one]; omega
    have c3 : int_and (int_and g.datasize.x g.datasize.y) 1 ≠ 0 := by
      rw [int_and_and_one]; exact ⟨hodd, hy⟩
    refine ⟨r4, ?_, filled_mono _ _ _ _ _ f4 (fun _ _ _ _ _ _ _ => trivial)⟩
    refine bind_ok_of _ _ _ _ hc (bind_ok_of _ _ _ _ h1 ?_)
    simp only [Bool.false_eq_true, if_false, c1, c2, c3, if_true, ne_eq, not_false_eq_true]
    exact bind_ok_of _ _ _ _ h2 (bind_ok_of _ _ _ _ h3 h4)
  · have c2 : ¬ (int_and g.datasize.y 1 ≠ 0) := by rw [int_and_one]; omega
    have c3 : ¬ (int_and (int_and g.datasize.x g.datasize.y) 1 ≠ 0) := by
      rw [int_and_and_one]; omega
    refine ⟨r2, ?_, filled_mono _ _ _ _ _ f2 (fun x' y' _ hx' _ hy' hq => by
      rw [hsx] at hx'
      rcases hq with hq | hq
      · exact ⟨by omega, hq⟩
      · exact (hy hq).elim)⟩
    refine bind_ok_of _ _ _ _ hc (bind_ok_of _ _ _ _ h1 ?_)
    simp only [Bool.false_eq_true, if_false, c1, c2, c3, if_true, ne_eq, not_false_eq_true]
    exact bind_ok_of _ _ _ _ h2 rfl

/-- C16: on a grid `g` of size `(w,h)` satisfying the invariant (its element count an
`int`), over a field,
`downsampled(true)` for any `w,h`, and `downsampled(false)` when `w` and `h` are even,
succeeds with size `(w/2, h/2)` (rounded down) and every cell `(x,y)` is
`(g.at(2x,2y) + g.at(2x+1,2y) + g.at(2x,2y+1) + g.at(2x+1,2y+1)) / 4`; the cells read lie
in `[0, 2(w/2)) × [0, 2(h/2))`, so an odd trailing row or column has no influence. -/
theorem downsampled_block_means {T : Type} [Field T] [Inhabited T] (g : bivector T)
    (hwf : g.wf) (hfit : g.size.x * g.size.y < 2 ^ 31) (f : Bool)
    (hcase : f = true ∨ (g.size.x % 2 = 0 ∧ g.size.y % 2 = 0)) :
    ∃ r : bivector T, g.downsampled f = .ok r ∧ r.size = ⟨g.size.x / 2, g.size.y / 2⟩ ∧
      ∀ x y : Int, 0 ≤ x → x < g.size.x / 2 → 0 ≤ y → y < g.size.y / 2 →
        (2 * x + 1 < 2 * (g.size.x / 2) ∧ 2 * y + 1 < 2 * (g.size.y / 2)) ∧
        ∃ a b c d : T, g.at_get (2 * x) (2 * y) = .ok a ∧ g.at_get (2 * x + 1) (2 * y) = .ok b ∧
          g.at_get (2 * x) (2 * y + 1) = .ok c ∧ g.at_get (2 * x + 1) (2 * y + 1) = .ok d ∧
          r.at_get x y = .ok ((a + b + c + d) / 4) := by
  simp only [bivector.size] at hcase hfit ⊢
  have hw0 := hwf.1
  have hh0 := hwf.2.1
  have hcell : ∀ x y : Int, 0 ≤ x → x < g.datasize.x → 0 ≤ y → y < g.datasize.y →
      g.at_get x y = .ok (g.cell x y) := fun x y a b c d => at_get_cell g hwf x y a b c d
  obtain ⟨r, hr, hsz, _, hcells⟩ := downsampled_cells_even g hwf hfit f hcase
  refine ⟨r, hr, hsz, ?_⟩
  intro x y hx0 hxw hy0 hyh
  refine ⟨⟨by omega, by omega⟩, g.cell (2 * x) (2 * y), g.cell (2 * x + 1) (2 * y),
    g.cell (2 * x) (2 * y + 1), g.cell (2 * x + 1) (2 * y + 1),
    hcell _ _ (by omega) (by omega) (by omega) (by omega),
    hcell _ _ (by omega) (by omega) (by omega) (by omega),
    hcell _ _ (by omega) (by omega) (by omega) (by omega),
    hcell _ _ (by omega) (by omega) (by omega) (by omega), ?_⟩
  rw [hcells x y hx0 hxw hy0 hyh trivial, div_eq_mul_inv]
  simp only [bivector.downsampled_val, hxw, hyh, if_true]

/-- Witness of C16: the (2,2) grid over the rationals, without `force_even_size`. -/
theorem downsampled_block_means_witness :
    gridq22.wf ∧
    ∃ r : bivector ℚ, gridq22.downsampled false = .ok r ∧
      r.size = ⟨gridq22.size.x / 2, gridq22.size.y / 2⟩ ∧
      ∀ x y : Int, 0 ≤ x → x < gridq22.size.x / 2 → 0 ≤ y → y < gridq22.size.y / 2 →
        (2 * x + 1 < 2 * (gridq22.size.x / 2) ∧ 2 * y + 1 < 2 * (gridq22.size.y / 2)) ∧
        ∃ a b c d : ℚ, gridq22.at_get (2 * x) (2 * y) = .ok a ∧
          gridq22.at_get (2 * x + 1) (2 * y) = .ok b ∧
          gridq22.at_get (2 * x) (2 * y + 1) = .ok c ∧
          gridq22.at_get (2 * x + 1) (2 * y + 1) = .ok d ∧
          r.at_get x y = .ok ((a + b + c + d) / 4) :=
  ⟨by decide,
    downsampled_block_means gridq22 (by decide) (by decide) false (Or.inr (by decide))⟩

theorem bind_ok_inv_error {ε α β : Type} (m : Except ε α) (f : α → Except ε β) (a : α)
    {e : ε} (hm : m = .ok a) (hf : f a = .error e) : (m >>= f) = .error e := by
  subst hm
  exact hf

theorem bind_error_of {ε α β : Type} (m : Except ε α) (f : α → Except ε β) (e : ε)
    (hm : m = .error e) : (m >>= f) = .error e := by
  subst hm
  rfl

/-- A loop whose first iteration fails, fails with that error. -/
theorem forLoop_first_error {ε σ : Type} (lo hi : Int) (body : Int → σ → Except ε σ) (s : σ)
    (e : ε) (hlt : lo < hi) (hb : body lo s = .error e) : forLoop lo hi body s = .error e := by
  unfold forLoop
  obtain ⟨n, hn⟩ : ∃ n, (hi - lo).toNat = n + 1 := ⟨(hi - lo).toNat - 1, by omega⟩
  rw [hn]
  simp only [loopN, hb]

/-- Without `force_even_size`, on a grid of even width `w ≥ 2` and odd height, `downsampled`
throws `out_of_range`: the result is built with `h/2` rows (`resultsize.y` is increased by
`datasize.x & 1`, which is 0), and the pass for the leftover row writes row `h/2`. -/
theorem downsampled_even_width_odd_height {T : Type} [Field T] [Inhabited T]
    (g : bivector T) (hwf : g.wf) (hfit : g.datasize.x * g.datasize.y < 2 ^ 31)
    (hx : g.datasize.x % 2 = 0) (hw : 2 ≤ g.datasize.x)
    (hy : g.datasize.y % 2 = 1) : g.downsampled false = .error .out_of_range := by
  have hh0 := hwf.2.1
  have hcell : ∀ x y : Int, 0 ≤ x → x < g.datasize.x → 0 ≤ y → y < g.datasize.y →
      g.at_get x y = .ok (g.cell x y) := fun x y a b c d => at_get_cell g hwf x y a b c d
  have hsz : g.downsampled_size false = ⟨g.datasize.x / 2, g.datasize.y / 2⟩ := by
    simp [bivector.downsampled_size, int_and_one, hx]
  obtain ⟨r0, hc, f0⟩ := filled_ctor (⟨g.datasize.x / 2, g.datasize.y / 2⟩ : vector2i)
    (default : T) g.downsampled_val (by show 0 ≤ g.datasize.x / 2; omega)
    (by show 0 ≤ g.datasize.y / 2; omega)
    (downsampled_count_even _ _ hwf.1 hwf.2.1 hfit)
  obtain ⟨r1, h1, f1⟩ := downsampled_pass_blocks g hwf _ (le_refl _) (le_refl _) r0 f0
  have c1 : ¬ (int_and g.datasize.x 1 ≠ 0) := by rw [int_and_one]; omega
  have c2 : int_and g.datasize.y 1 ≠ 0 := by rw [int_and_one]; omega
  have hrow : forLoop 0 (g.datasize.x / 2) (fun x (r : bivector T) =>
      r.at_assign x (g.datasize.y / 2)
        (bivector.mean2 (g.at_get (2 * x) (g.datasize.y - 1))
          (g.at_get (2 * x + 1) (g.datasize.y - 1)))) r1 = .error .out_of_range := by
    apply forLoop_first_error _ _ _ _ _ (by omega)
    dsimp only
    rw [mean2_ok _ _ _ _ (hcell _ _ (by omega) (by omega) (by omega) (by omega))
      (hcell _ _ (by omega) (by omega) (by omega) (by omega))]
    have hd : r1.datasize.y = g.datasize.y / 2 := by rw [f1.1]
    simp [bivector.at_assign, bivector.store, bivector.at_xy, hd]
  unfold bivector.downsampled
  rw [hsz]
  refine (bind_ok_inv_error _ _ _ hc ?_)
  refine (bind_ok_inv_error _ _ _ h1 ?_)
  simp only [Bool.false_eq_true, if_false, c1, c2, if_true, ne_eq, not_false_eq_true]
  exact bind_ok_inv_error _ _ _ rfl (bind_error_of _ _ _ hrow)

/-- C17 (evaluation at the failing input): on the (2,1) grid with cells 1 3, `downsampled()`
throws `out_of_range` instead of returning the mean 2 of the leftover row. -/
theorem downsampled_odd_height_even_width_throws :
    gridq21.wf ∧ gridq21.downsampled false = .error .out_of_range :=
  ⟨by decide, downsampled_even_width_odd_height gridq21 (by decide) (by decide) (by decide)
    (by decide) (by decide)⟩

/-- The part of C17 that the code fulfils: with odd height and odd width, `downsampled()`
succeeds and the last row of the result holds the means of the 2×1 pairs of the leftover
source row. -/
theorem downsampled_last_row_odd_width {T : Type} [Field T] [Inhabited T] (g : bivector T)
    (hwf : g.wf) (hfit : g.size.x * g.size.y < 2 ^ 31) (hwi : g.size.x < 2 ^ 31)
    (hx : g.size.x % 2 = 1) (hy : g.size.y % 2 = 1) :
    ∃ r : bivector T, g.downsampled false = .ok r ∧
      ∀ x : Int, 0 ≤ x → x < g.size.x / 2 →
        ∃ a b : T, g.at_get (2 * x) (g.size.y - 1) = .ok a ∧
          g.at_get (2 * x + 1) (g.size.y - 1) = .ok b ∧
          r.at_get x (g.size.y / 2) = .ok ((a + b) / 2) := by
  simp only [bivector.size] at hx hy hfit hwi ⊢
  have hw0 := hwf.1
  have hh0 := hwf.2.1
  have hcell : ∀ x y : Int, 0 ≤ x → x < g.datasize.x → 0 ≤ y → y < g.datasize.y →
      g.at_get x y = .ok (g.cell x y) := fun x y a b c d => at_get_cell g hwf x y a b c d
  obtain ⟨r, hr, _, _, hcells⟩ := downsampled_cells_odd_width g hwf hfit hwi hx
  refine ⟨r, hr, ?_⟩
  intro x hx0 hxw
  refine ⟨_, _, hcell _ _ (by omega) (by omega) (by omega) (by omega),
    hcell _ _ (by omega) (by omega) (by omega) (by omega), ?_⟩
  rw [hcells x (g.datasize.y / 2) hx0 (by show x < g.datasize.x / 2 + 1; omega) (by omega)
    (by show g.datasize.y / 2 < g.datasize.y / 2 + 1; omega) (Or.inr hy), div_eq_mul_inv]
  simp only [bivector.downsampled_val, hxw, lt_irrefl, if_true, if_false]

/-- C18: on a grid `g` of size `(w,h)` with odd `w` satisfying the invariant (width and
element count being `int` values), over a field,
`R = g.downsampled(false)` succeeds and `R.at(w/2, y) == (g.at(w-1, 2y) + g.at(w-1, 2y+1)) / 2`
for every `0 ≤ y < h/2`; when `h` is odd as well the corner is copied:
`R.at(w/2, h/2) == g.at(w-1, h-1)`. -/
theorem downsampled_odd_width {T : Type} [Field T] [Inhabited T] (g : bivector T)
    (hwf : g.wf) (hfit : g.size.x * g.size.y < 2 ^ 31) (hwi : g.size.x < 2 ^ 31)
    (hx : g.size.x % 2 = 1) :
    ∃ r : bivector T, g.downsampled false = .ok r ∧
      (∀ y : Int, 0 ≤ y → y < g.size.y / 2 →
        ∃ a b : T, g.at_get (g.size.x - 1) (2 * y) = .ok a ∧
          g.at_get (g.size.x - 1) (2 * y + 1) = .ok b ∧
          r.at_get (g.size.x / 2) y = .ok ((a + b) / 2)) ∧
      (g.size.y % 2 = 1 →
        ∃ v : T, g.at_get (g.size.x - 1) (g.size.y - 1) = .ok v ∧
          r.at_get (g.size.x / 2) (g.size.y / 2) = .ok v) := by
  simp only [bivector.size] at hx hfit hwi ⊢
  have hw0 := hwf.1
  have hh0 := hwf.2.1
  have hcell : ∀ x y : Int, 0 ≤ x → x < g.datasize.x → 0 ≤ y → y < g.datasize.y →
      g.at_get x y = .ok (g.cell x y) := fun x y a b c d => at_get_cell g hwf x y a b c d
  obtain ⟨r, hr, _, _, hcells⟩ := downsampled_cells_odd_width g hwf hfit hwi hx
  refine ⟨r, hr, ?_, ?_⟩
  · intro y hy0 hyh
    refine ⟨_, _, hcell _ _ (by omega) (by omega) (by omega) (by omega),
      hcell _ _ (by omega) (by omega) (by omega) (by omega), ?_⟩
    rw [hcells (g.datasize.x / 2) y (by omega)
      (by show g.datasize.x / 2 < g.datasize.x / 2 + 1; omega) hy0
      (by show y < g.datasize.y / 2 + 1; omega) (Or.inl hyh), div_eq_mul_inv]
    simp only [bivector.downsampled_val, lt_irrefl, hyh, if_true, if_false]
  · intro hy
    refine ⟨_, hcell _ _ (by omega) (by omega) (by omega) (by omega), ?_⟩
    rw [hcells (g.datasize.x / 2) (g.datasize.y / 2) (by omega)
      (by show g.datasize.x / 2 < g.datasize.x / 2 + 1; omega) (by omega)
      (by show g.datasize.y / 2 < g.datasize.y / 2 + 1; omega) (Or.inr hy)]
    simp only [bivector.downsampled_val, lt_irrefl, if_false]

/-- Witness of C18: the (3,2) grid over the rationals. -/
theorem downsampled_odd_width_witness :
    gridq32.wf ∧ gridq32.size.x % 2 = 1 ∧
    ∃ r : bivector ℚ, gridq32.downsampled false = .ok r ∧
      (∀ y : Int, 0 ≤ y → y < gridq32.size.y / 2 →
        ∃ a b : ℚ, gridq32.at_get (gridq32.size.x - 1) (2 * y) = .ok a ∧
          gridq32.at_get (gridq32.size.x - 1) (2 * y + 1) = .ok b ∧
          r.at_get (gridq32.size.x / 2) y = .ok ((a + b) / 2)) :=
  ⟨by decide, by decide,
    (downsampled_odd_width gridq32 (by decide) (by decide) (by decide) (by decide)).imp
      (fun _ h => ⟨h.1, h.2.1⟩)⟩

/-- C19 (evaluation at the failing inputs): on the (2,1) grid of fives `downsampled()`
throws `out_of_range`; on the (1,2) grid of fives it returns a grid of size (1,2), not
(1,1), whose cell (0,1) holds `T() = 0`, not 5. -/
theorem downsampled_constant_odd_sizes :
    gridq21c.downsampled false = .error .out_of_range ∧
    gridq12c.downsampled false = .ok ⟨⟨1, 2⟩, [(5 + 5) * 2⁻¹, 0]⟩ ∧
    (bivector.mk (T := ℚ) ⟨1, 2⟩ [(5 + 5) * 2⁻¹, 0]).at_get 0 1 = .ok 0 := by
  refine ⟨rfl, rfl, rfl⟩

theorem mean4_const {T : Type} [Field T] [CharZero T] (c : T) :
    (c + c + c + c) * 4⁻¹ = c := by
  have h4 : (4 : T) ≠ 0 := by exact_mod_cast (show (4 : ℕ) ≠ 0 by norm_num)
  field_simp
  ring

/-- The part of C19 that the code fulfils: on a grid of even width and height whose cells
all equal `c` (such as the (4,4) grid), `downsampled()` yields the grid of size
`(w/2, h/2)` whose cells all equal `c`. -/
theorem downsampled_constant_even {T : Type} [Field T] [CharZero T] [Inhabited T]
    (g : bivector T) (hwf : g.wf) (hfit : g.size.x * g.size.y < 2 ^ 31) (c : T)
    (hx : g.size.x % 2 = 0) (hy : g.size.y % 2 = 0)
    (hc : ∀ x y : Int, 0 ≤ x → x < g.size.x → 0 ≤ y → y < g.size.y → g.at_get x y = .ok c) :
    ∃ r : bivector T, g.downsampled false = .ok r ∧ r.size = ⟨g.size.x / 2, g.size.y / 2⟩ ∧
      ∀ x y : Int, 0 ≤ x → x < r.size.x → 0 ≤ y → y < r.size.y → r.at_get x y = .ok c := by
  simp only [bivector.size] at hx hy hc hfit ⊢
  obtain ⟨r, hr, hsz, _, hcells⟩ := downsampled_cells_even g hwf hfit false (Or.inr ⟨hx, hy⟩)
  have hcc : ∀ x y : Int, 0 ≤ x → x < g.datasize.x → 0 ≤ y → y < g.datasize.y →
      g.cell x y = c := by
    intro x y hx0 hxw hy0 hyh
    simp only [bivector.cell, hc x y hx0 hxw hy0 hyh]
  refine ⟨r, hr, hsz, ?_⟩
  intro x y hx0 hxw hy0 hyh
  rw [hsz] at hxw hyh
  have hxw' : x < g.datasize.x / 2 := hxw
  have hyh' : y < g.datasize.y / 2 := hyh
  rw [hcells x y hx0 hxw hy0 hyh trivial]
  simp only [bivector.downsampled_val, hxw', hyh', if_true]
  rw [hcc _ _ (by omega) (by omega) (by omega) (by omega),
    hcc _ _ (by omega) (by omega) (by omega) (by omega),
    hcc _ _ (by omega) (by omega) (by omega) (by omega),
    hcc _ _ (by omega) (by omega) (by omega) (by omega), mean4_const]

/-! ## smooth_upsampled -/

/-- C25: negative coordinates are not rejected by `at`.  For a grid of width `w ≥ 1`
satisfying the invariant and every row `1 ≤ y < h`, `at(-1, y)` does not throw: it
designates the flat index `-1 + y*w`, which is the element of cell `(w-1, y-1)`; the
vector form `at(position)` does the same, and reading through either yields the value of
cell `(w-1, y-1)`. -/
theorem at_accepts_negative_x {T : Type} (g : bivector T) (hwf : g.wf) (y : Int)
    (hw : 1 ≤ g.size.x) (hy1 : 1 ≤ y) (hyh : y < g.size.y) :
    0 ≤ -1 + y * g.size.x ∧
    g.at_xy (-1) y = .ok (-1 + y * g.size.x).toNat ∧
    g.at_xy (g.size.x - 1) (y - 1) = .ok (-1 + y * g.size.x).toNat ∧
    g.at_p ⟨-1, y⟩ = .ok (-1 + y * g.size.x).toNat ∧
    ∃ v : T, g.at_get (g.size.x - 1) (y - 1) = .ok v ∧ g.at_get (-1) y = .ok v ∧
      g.at_p_get ⟨-1, y⟩ = .ok v := by
  simp only [bivector.size] at *
  have hb := flat_index_bounds g.datasize.x g.datasize.y (g.datasize.x - 1) (y - 1)
    (by omega) (by omega) (by omega) (by omega)
  have e : g.datasize.x - 1 + (y - 1) * g.datasize.x = -1 + y * g.datasize.x := by ring
  rw [e, ← hwf.2.2] at hb
  have h1 : g.at_xy (-1) y = .ok (-1 + y * g.datasize.x).toNat := by
    unfold bivector.at_xy
    rw [if_neg (by omega), if_pos hb]
  have h2 : g.at_xy (g.datasize.x - 1) (y - 1) = .ok (-1 + y * g.datasize.x).toNat := by
    unfold bivector.at_xy
    rw [if_neg (by omega), e, if_pos hb]
  have h3 : g.at_p ⟨-1, y⟩ = .ok (-1 + y * g.datasize.x).toNat := by
    unfold bivector.at_p
    dsimp only
    rw [if_neg (by omega), if_pos hb]
  obtain ⟨v, hv⟩ := vec_get_of_lt g.data (-1 + y * g.datasize.x) hb.1 hb.2
  refine ⟨hb.1, h1, h2, h3, v, ?_, ?_, ?_⟩
  · rw [at_get_eq_vec_get, if_neg (by omega), e, hv]
  · rw [at_get_eq_vec_get, if_neg (by omega), hv]
  · unfold bivector.at_p_get
    rw [h3, ← h1]
    have := at_get_eq_vec_get g (-1) y
    rw [if_neg (by omega), hv] at this
    exact this

/-- Witness of C25: on the (2,2) grid `at(-1, 1)` reads cell `(1, 0)`. -/
theorem at_accepts_negative_x_witness :
    grid22.wf ∧ grid22.at_get (-1) 1 = .ok 2 ∧ grid22.at_get 1 0 = .ok 2 ∧
    ∃ v : Int, grid22.at_get (grid22.size.x - 1) (1 - 1) = .ok v ∧
      grid22.at_get (-1) 1 = .ok v ∧ grid22.at_p_get ⟨-1, 1⟩ = .ok v :=
  ⟨by decide, rfl, rfl,
    (at_accepts_negative_x grid22 (by decide) 1 (by decide) (by decide) (by decide)).2.2.2.2⟩

/-- C26: read-after-write law of checked access.  On a grid of size `(w,h)` satisfying
the invariant, assigning `v` through `at(x,y)` at an in-range cell succeeds, designates
the same element as `operator[]`, leaves the size unchanged, makes `at(x,y) == v`, and
every other in-range cell keeps its value. -/
theorem at_read_after_write {T : Type} (g : bivector T) (hwf : g.wf) (x y : Int) (v : T)
    (hx0 : 0 ≤ x) (hxw : x < g.size.x) (hy0 : 0 ≤ y) (hyh : y < g.size.y) :
    ∃ r : bivector T, g.at_assign x y (.ok v) = .ok r ∧ g.index_set ⟨x, y⟩ v = .ok r ∧
      r.size = g.size ∧ r.wf ∧ r.at_get x y = .ok v ∧
      ∀ x' y' : Int, 0 ≤ x' → x' < g.size.x → 0 ≤ y' → y' < g.size.y →
        ¬ (x' = x ∧ y' = y) → r.at_get x' y' = g.at_get x' y' := by
  simp only [bivector.size] at *
  have hb := flat_index_bounds g.datasize.x g.datasize.y x y hx0 hxw hy0 hyh
  rw [← hwf.2.2] at hb
  have hat : g.at_xy x y = .ok (x + y * g.datasize.x).toNat := by
    unfold bivector.at_xy
    rw [if_neg (by omega), if_pos hb]
  have hix : g.index ⟨x, y⟩ = .ok (x + y * g.datasize.x).toNat := by
    unfold bivector.index
    dsimp only
    rw [if_pos hb]
  refine ⟨⟨g.datasize, g.data.set (x + y * g.datasize.x).toNat v⟩, ?_, ?_, rfl, ?_, ?_, ?_⟩
  · simp only [bivector.at_assign, hat, bivector.store]
  · simp only [bivector.index_set, hix, bivector.store]
  · exact ⟨hwf.1, hwf.2.1, by simp only [List.length_set]; exact hwf.2.2⟩
  · rw [at_get_eq_vec_get]
    dsimp only
    rw [if_neg (by omega)]
    exact vec_get_set_same g.data _ v hb.1 hb.2
  · intro x' y' hx0' hxw' hy0' hyh' hne
    rw [at_get_eq_vec_get, at_get_eq_vec_get]
    dsimp only
    rw [if_neg (by omega), if_neg (by omega)]
    exact vec_get_set_other g.data _ _ v hb.1
      (flat_index_ne g.datasize.x x' y' x y hx0' hxw' hx0 hxw hne)

/-- Witness of C26: writing 9 to cell `(1,0)` of the (2,2) grid. -/
theorem at_read_after_write_witness :
    grid22.wf ∧
    ∃ r : bivector Int, grid22.at_assign 1 0 (.ok 9) = .ok r ∧
      grid22.index_set ⟨1, 0⟩ 9 = .ok r ∧
      r.size = grid22.size ∧ r.wf ∧ r.at_get 1 0 = .ok 9 ∧
      ∀ x' y' : Int, 0 ≤ x' → x' < grid22.size.x → 0 ≤ y' → y' < grid22.size.y →
        ¬ (x' = 1 ∧ y' = 0) → r.at_get x' y' = grid22.at_get x' y' :=
  ⟨by decide, at_read_after_write grid22 (by decide) 1 0 9 (by decide) (by decide)
    (by decide) (by decide)⟩

/-! ## add_tiled and add_shifted -/

/-- Masking with a non-negative `int` gives a value between 0 and the mask. -/
theorem int_and_nonneg_mask (a m : Int) (hm0 : 0 ≤ m) (hm : m < 2 ^ 31) :
    0 ≤ int_and a m ∧ int_and a m ≤ m := by
  have hmm : m % 2 ^ 32 = m := Int.emod_eq_of_lt hm0 (by omega)
  have hle : Nat.land (a % 2 ^ 32).toNat (m % 2 ^ 32).toNat ≤ (m % 2 ^ 32).toNat :=
    Nat.and_le_right
  rw [hmm] at hle
  unfold int_and
  simp only [hmm]
  have hlt : Nat.land (a % 2 ^ 32).toNat m.toNat < 2 ^ 31 := by omega
  rw [if_pos hlt]
  omega

/-- Masking an `int` with `-1` (all bits set) returns it. -/
theorem int_and_neg_one (a : Int) (h0 : -2 ^ 31 ≤ a) (h1 : a < 2 ^ 31) :
    int_and a (-1) = a := by
  have hm : ((-1 : Int) % 2 ^ 32).toNat = 2 ^ 32 - 1 := by decide
  have ha0 : 0 ≤ a % 2 ^ 32 := Int.emod_nonneg _ (by norm_num)
  have ha1 : a % 2 ^ 32 < 2 ^ 32 := Int.emod_lt_of_pos _ (by norm_num)
  have hland : Nat.land (a % 2 ^ 32).toNat (2 ^ 32 - 1) = (a % 2 ^ 32).toNat % 2 ^ 32 :=
    Nat.and_pow_two_sub_one_eq_mod _ _
  unfold int_and
  simp only [hm, hland]
  rw [Nat.mod_eq_of_lt (by omega)]
  by_cases hneg : 0 ≤ a
  · have e : a % 2 ^ 32 = a := Int.emod_eq_of_lt hneg (by omega)
    rw [e, if_pos (by omega)]
    omega
  · have e : a % 2 ^ 32 = a + 2 ^ 32 := by
      rw [← Int.add_mul_emod_self_left a (2 ^ 32) 1]
      exact Int.emod_eq_of_lt (by omega) (by omega)
    rw [e, if_neg (by omega)]
    omega

/-- The loop of `add_tiled` and `add_shifted`: when the read `src x y` of the other grid
succeeds with `O x y` at every cell of the receiver, the loop completes, keeps the size
and the invariant, and leaves `comb v (O x y)` in each cell that held `v`. -/
theorem for_each_xy_mut_accumulate {T : Type} (g : bivector T) (hwf : g.wf)
    (func : T → vector2i → Int → Except Error T) (comb : T → T → T) (O : Int → Int → T)
    (hfunc : ∀ (x y : Int) (v : T), 0 ≤ x → x < g.datasize.x → 0 ≤ y → y < g.datasize.y →
      func v ⟨x, y⟩ (x + y * g.datasize.x) = .ok (comb v (O x y))) :
    ∃ r : bivector T, g.for_each_xy_mut func = .ok r ∧ r.datasize = g.datasize ∧ r.wf ∧
      ∀ x y : Int, 0 ≤ x → x < g.datasize.x → 0 ≤ y → y < g.datasize.y →
        ∃ v : T, g.at_get x y = .ok v ∧ r.at_get x y = .ok (comb v (O x y)) := by
  obtain ⟨d', hrun, hlen, hcells⟩ := for_each_xy_mut_cells g hwf func
    (fun v x y => comb v (O x y)) hfunc
  refine ⟨_, hrun, rfl, ⟨hwf.1, hwf.2.1, by rw [hlen]; exact hwf.2.2⟩, ?_⟩
  intro x y hx0 hxw hy0 hyh
  obtain ⟨v, hv, hv'⟩ := hcells x y hx0 hxw hy0 hyh
  refine ⟨v, ?_, ?_⟩
  · rw [at_get_eq_vec_get, if_neg (by omega), hv]
  · rw [at_get_eq_vec_get]
    dsimp only
    rw [if_neg (by omega), hv']

/-- What `add_tiled` computes when the masked reads of `other` succeed. -/
theorem add_tiled_cells {T : Type} [Add T] [Mul T] (g other : bivector T) (hwf : g.wf)
    (scal : T) (O : Int → Int → T)
    (hO : ∀ x y : Int, 0 ≤ x → x < g.datasize.x → 0 ≤ y → y < g.datasize.y →
      other.at_get (int_and x (other.datasize.x - 1)) (int_and y (other.datasize.y - 1))
        = .ok (O x y)) :
    ∃ r : bivector T, g.add_tiled other scal = .ok r ∧ r.datasize = g.datasize ∧ r.wf ∧
      ∀ x y : Int, 0 ≤ x → x < g.datasize.x → 0 ≤ y → y < g.datasize.y →
        ∃ v : T, g.at_get x y = .ok v ∧ r.at_get x y = .ok (v + O x y * scal) := by
  unfold bivector.add_tiled
  apply for_each_xy_mut_accumulate g hwf _ (fun v o => v + o * scal) O
  intro x y v hx0 hxw hy0 hyh
  dsimp only
  rw [hO x y hx0 hxw hy0 hyh]

/-- With `other` a grid distinct from the receiver, the callback of `add_shifted` does not
read the receiver. -/
theorem add_shifted_distinct {T : Type} [Add T] (g other : bivector T) (offset : vector2i) :
    g.add_shifted (.distinct other) offset =
      g.for_each_xy_mut (fun value xy _ =>
        match other.at_get (int_and (xy.x + offset.x) (other.datasize.x - 1))
            (int_and (xy.y + offset.y) (other.datasize.y - 1)) with
        | .error e => .error e
        | .ok o => .ok (value + o)) := rfl

/-- What `add_shifted` computes when `other` is distinct from the receiver and the masked
reads of `other` succeed. -/
theorem add_shifted_cells {T : Type} [Add T] (g other : bivector T) (hwf : g.wf)
    (offset : vector2i) (O : Int → Int → T)
    (hO : ∀ x y : Int, 0 ≤ x → x < g.datasize.x → 0 ≤ y → y < g.datasize.y →
      other.at_get (int_and (x + offset.x) (other.datasize.x - 1))
        (int_and (y + offset.y) (other.datasize.y - 1)) = .ok (O x y)) :
    ∃ r : bivector T, g.add_shifted (.distinct other) offset = .ok r ∧
      r.datasize = g.datasize ∧ r.wf ∧
      ∀ x y : Int, 0 ≤ x → x < g.datasize.x → 0 ≤ y → y < g.datasize.y →
        ∃ v : T, g.at_get x y = .ok v ∧ r.at_get x y = .ok (v + O x y) := by
  rw [add_shifted_distinct]
  apply for_each_xy_mut_accumulate g hwf _ (fun v o => v + o) O
  intro x y v hx0 hxw hy0 hyh
  dsimp only
  rw [hO x y hx0 hxw hy0 hyh]

/-- The non-const `for_each_xy` completes when the callback succeeds at every cell on
every state of the receiver that has the receiver's shape. -/
theorem for_each_xy_ref_completes {T : Type} (g : bivector T) (hwf : g.wf)
    (func : bivector T → T → vector2i → Int → Except Error T)
    (hf : ∀ (cur : bivector T) (x y : Int) (v : T), cur.same_shape g → 0 ≤ x →
      x < g.datasize.x → 0 ≤ y → y < g.datasize.y →
      ∃ v' : T, func cur v ⟨x, y⟩ (x + y * g.datasize.x) = .ok v') :
    ∃ r : bivector T, g.for_each_xy_ref func = .ok r ∧ r.same_shape g := by
  obtain ⟨hw0, hh0, hlen⟩ := hwf
  obtain ⟨⟨z, d⟩, hrun, _, hlenF⟩ := forLoop_inv (ε := Error × bivector T)
    (fun (y : Int) (zd : Int × List T) => zd.1 = y * g.datasize.x ∧
      zd.2.length = g.data.length)
    (fun y zd =>
      forLoop 0 g.datasize.x (fun x (zd : Int × List T) =>
        match vec_get zd.2 zd.1 with
        | .error e => .error (e, (⟨g.datasize, zd.2⟩ : bivector T))
        | .ok value =>
          match func ⟨g.datasize, zd.2⟩ value ⟨x, y⟩ zd.1 with
          | .error e => .error (e, ⟨g.datasize, zd.2⟩)
          | .ok value' => .ok (zd.1 + 1, zd.2.set zd.1.toNat value')) zd)
    0 g.datasize.y ((0 : Int), g.data) hh0 ⟨by simp, rfl⟩
    (by
      rintro y ⟨z, d⟩ hy0 hyh ⟨hz, hlenY⟩
      simp only at hz hlenY
      obtain ⟨⟨z', d'⟩, hrun, hz', hlen'⟩ := forLoop_inv (ε := Error × bivector T)
        (fun (x : Int) (zd : Int × List T) => zd.1 = x + y * g.datasize.x ∧
          zd.2.length = g.data.length)
        (fun x (zd : Int × List T) =>
          match vec_get zd.2 zd.1 with
          | .error e => .error (e, (⟨g.datasize, zd.2⟩ : bivector T))
          | .ok value =>
            match func ⟨g.datasize, zd.2⟩ value ⟨x, y⟩ zd.1 with
            | .error e => .error (e, ⟨g.datasize, zd.2⟩)
            | .ok value' => .ok (zd.1 + 1, zd.2.set zd.1.toNat value'))
        0 g.datasize.x (z, d) hw0 ⟨by simp [hz], hlenY⟩
        (by
          rintro x ⟨zz, dd⟩ hx0 hxw ⟨hzz, hlenX⟩
          simp only at hzz hlenX
          subst hzz
          have hb := flat_index_bounds g.datasize.x g.datasize.y x y hx0 hxw hy0 hyh
          obtain ⟨v, hv⟩ := vec_get_of_lt dd (x + y * g.datasize.x) hb.1
            (by rw [hlenX, hlen]; exact hb.2)
          obtain ⟨v', hv'⟩ := hf ⟨g.datasize, dd⟩ x y v ⟨rfl, hlenX⟩ hx0 hxw hy0 hyh
          refine ⟨(x + y * g.datasize.x + 1, dd.set (x + y * g.datasize.x).toNat v'),
            ?_, ?_, ?_⟩
          · simp only [hv, hv']
          · simp only; ring
          · simpa using hlenX)
      simp only at hz' hlen'
      exact ⟨(z', d'), hrun, by simp only [hz']; ring, hlen'⟩)
  simp only at hlenF
  refine ⟨⟨g.datasize, d⟩, ?_, rfl, hlenF⟩
  simp only [bivector.for_each_xy_ref]
  rw [hrun]

/-- C21: `add_tiled` on power-of-two tiles.  For a receiver `self` of any size and a grid
`other` whose width `ow` and height `oh` are powers of two (both grids satisfying the
invariant, elements in a commutative ring), `self.add_tiled(other, s)` succeeds, leaves
the size of `self` unchanged, and every cell `(x,y)` becomes its previous value plus
`s * other.at(x mod ow, y mod oh)`, the mask `x & (ow-1)` being `x mod ow`.  In particular,
if every cell of `other` equals `k` and `s = 1`, exactly `k` is added to every cell. -/
theorem add_tiled_adds_tile {T : Type} [CommRing T] (g other : bivector T) (hg : g.wf)
    (ho : other.wf) (kx ky : Nat) (hkx : kx ≤ 30) (hky : ky ≤ 30)
    (hw : other.size.x = 2 ^ kx) (hh : other.size.y = 2 ^ ky) (s : T) :
    ∃ r : bivector T, g.add_tiled other s = .ok r ∧ r.size = g.size ∧
      (∀ x y : Int, 0 ≤ x → x < g.size.x → 0 ≤ y → y < g.size.y →
        int_and x (other.size.x - 1) = x % other.size.x ∧
        int_and y (other.size.y - 1) = y % other.size.y ∧
        ∃ v o : T, g.at_get x y = .ok v ∧
          other.at_get (x % other.size.x) (y % other.size.y) = .ok o ∧
          r.at_get x y = .ok (v + s * o)) ∧
      (∀ k : T, (∀ x y : Int, 0 ≤ x → x < other.size.x → 0 ≤ y → y < other.size.y →
          other.at_get x y = .ok k) → s = 1 →
        ∀ x y : Int, 0 ≤ x → x < g.size.x → 0 ≤ y → y < g.size.y →
          ∃ v : T, g.at_get x y = .ok v ∧ r.at_get x y = .ok (v + k)) := by
  simp only [bivector.size] at *
  haveI : Inhabited T := ⟨0⟩
  have hwpos : 0 < other.datasize.x := by rw [hw]; positivity
  have hhpos : 0 < other.datasize.y := by rw [hh]; positivity
  have hmx : ∀ a : Int, int_and a (other.datasize.x - 1) = a % other.datasize.x := by
    intro a; rw [hw]; exact int_and_mask a kx hkx
  have hmy : ∀ a : Int, int_and a (other.datasize.y - 1) = a % other.datasize.y := by
    intro a; rw [hh]; exact int_and_mask a ky hky
  have hread : ∀ a b : Int, other.at_get (a % other.datasize.x) (b % other.datasize.y) =
      .ok (other.cell (a % other.datasize.x) (b % other.datasize.y)) := fun a b =>
    at_get_cell other ho _ _ (Int.emod_nonneg _ (by omega)) (Int.emod_lt_of_pos _ hwpos)
      (Int.emod_nonneg _ (by omega)) (Int.emod_lt_of_pos _ hhpos)
  obtain ⟨r, hrun, hsz, _, hcells⟩ := add_tiled_cells g other hg s
    (fun x y => other.cell (x % other.datasize.x) (y % other.datasize.y))
    (by intro x y _ _ _ _; rw [hmx, hmy]; exact hread x y)
  refine ⟨r, hrun, hsz, ?_, ?_⟩
  · intro x y hx0 hxw hy0 hyh
    obtain ⟨v, hv, hv'⟩ := hcells x y hx0 hxw hy0 hyh
    refine ⟨hmx x, hmy y, v, _, hv, hread x y, ?_⟩
    rw [hv', mul_comm]
  · intro k hk hs x y hx0 hxw hy0 hyh
    obtain ⟨v, hv, hv'⟩ := hcells x y hx0 hxw hy0 hyh
    refine ⟨v, hv, ?_⟩
    have hc := hread x y
    rw [hk _ _ (Int.emod_nonneg _ (by omega)) (Int.emod_lt_of_pos _ hwpos)
      (Int.emod_nonneg _ (by omega)) (Int.emod_lt_of_pos _ hhpos)] at hc
    injection hc with hc
    rw [hv', ← hc, hs, mul_one]

/-- Witness of C21: the (1,1) grid holding 5 tiled over the (2,2) grid. -/
theorem add_tiled_adds_tile_witness :
    grid22.wf ∧ grid11five.wf ∧
    ∃ r : bivector Int, grid22.add_tiled grid11five 1 = .ok r ∧ r.size = grid22.size ∧
      ∀ x y : Int, 0 ≤ x → x < grid22.size.x → 0 ≤ y → y < grid22.size.y →
        ∃ v : Int, grid22.at_get x y = .ok v ∧ r.at_get x y = .ok (v + 5) :=
  ⟨by decide, by decide,
    (add_tiled_adds_tile grid22 grid11five (by decide) (by decide) 0 0 (by decide)
      (by decide) rfl rfl 1).imp (fun _ h => ⟨h.1, h.2.1, h.2.2.2 5
        (fun x y hx0 hxw hy0 hyh => by
          have hx : x = 0 := by have : grid11five.size.x = 1 := rfl; omega
          have hy : y = 0 := by have : grid11five.size.y = 1 := rfl; omega
          subst hx; subst hy; rfl) rfl⟩)⟩

/-- C22, amended: `add_shifted` on power-of-two tiles.  For a receiver `self` of any size,
a grid `other` distinct from the receiver whose width `ow` and height `oh` are powers of
two (both satisfying the invariant) and every integer offset `(ox,oy)`, negative components included,
`self.add_shifted(other, offset)` succeeds, leaves the size of `self` unchanged, and every
cell `(x,y)` becomes its previous value plus `other.at((x+ox) mod ow, (y+oy) mod oh)`,
with `mod` the non-negative remainder. -/
theorem add_shifted_adds_shifted_tile {T : Type} [Add T] (g other : bivector T)
    (hg : g.wf) (ho : other.wf) (kx ky : Nat) (hkx : kx ≤ 30) (hky : ky ≤ 30)
    (hw : other.size.x = 2 ^ kx) (hh : other.size.y = 2 ^ ky) (offset : vector2i) :
    ∃ r : bivector T, g.add_shifted (.distinct other) offset = .ok r ∧ r.size = g.size ∧
      ∀ x y : Int, 0 ≤ x → x < g.size.x → 0 ≤ y → y < g.size.y →
        0 ≤ (x + offset.x) % other.size.x ∧ (x + offset.x) % other.size.x < other.size.x ∧
        0 ≤ (y + offset.y) % other.size.y ∧ (y + offset.y) % other.size.y < other.size.y ∧
        ∃ v o : T, g.at_get x y = .ok v ∧
          other.at_get ((x + offset.x) % other.size.x) ((y + offset.y) % other.size.y)
            = .ok o ∧
          r.at_get x y = .ok (v + o) := by
  simp only [bivector.size] at *
  have hwpos : 0 < other.datasize.x := by rw [hw]; positivity
  have hhpos : 0 < other.datasize.y := by rw [hh]; positivity
  obtain ⟨d0, _⟩ := vec_get_of_lt other.data 0 (le_refl _)
    (by rw [ho.2.2]; exact mul_pos hwpos hhpos)
  haveI : Inhabited T := ⟨d0⟩
  have hmx : ∀ a : Int, int_and a (other.datasize.x - 1) = a % other.datasize.x := by
    intro a; rw [hw]; exact int_and_mask a kx hkx
  have hmy : ∀ a : Int, int_and a (other.datasize.y - 1) = a % other.datasize.y := by
    intro a; rw [hh]; exact int_and_mask a ky hky
  have hread : ∀ a b : Int, other.at_get (a % other.datasize.x) (b % other.datasize.y) =
      .ok (other.cell (a % other.datasize.x) (b % other.datasize.y)) := fun a b =>
    at_get_cell other ho _ _ (Int.emod_nonneg _ (by omega)) (Int.emod_lt_of_pos _ hwpos)
      (Int.emod_nonneg _ (by omega)) (Int.emod_lt_of_pos _ hhpos)
  obtain ⟨r, hrun, hsz, _, hcells⟩ := add_shifted_cells g other hg offset
    (fun x y => other.cell ((x + offset.x) % other.datasize.x)
      ((y + offset.y) % other.datasize.y))
    (by intro x y _ _ _ _; rw [hmx, hmy]; exact hread _ _)
  refine ⟨r, hrun, hsz, ?_⟩
  intro x y hx0 hxw hy0 hyh
  obtain ⟨v, hv, hv'⟩ := hcells x y hx0 hxw hy0 hyh
  exact ⟨Int.emod_nonneg _ (by omega), Int.emod_lt_of_pos _ hwpos,
    Int.emod_nonneg _ (by omega), Int.emod_lt_of_pos _ hhpos, v, _, hv, hread _ _, hv'⟩

/-- Witness of C22: the (2,2) grid added to itself with the negative offset `(-1, 1)`. -/
theorem add_shifted_adds_shifted_tile_witness :
    grid22.wf ∧ gridm22.wf ∧
    grid22.add_shifted (.distinct gridm22) ⟨-1, 1⟩ = .ok ⟨⟨2, 2⟩, [0, 4, 4, 1]⟩ ∧
    ∃ r : bivector Int, grid22.add_shifted (.distinct gridm22) ⟨-1, 1⟩ = .ok r ∧ r.size = grid22.size :=
  ⟨by decide, by decide, rfl,
    (add_shifted_adds_shifted_tile grid22 gridm22 (by decide) (by decide) 1 1 (by decide)
      (by decide) rfl rfl ⟨-1, 1⟩).imp (fun _ h => ⟨h.1, h.2.1⟩)⟩

/-- C22 as stated fails when `other` is the receiver itself: on the (2,1) grid `1 2`
(width 2 and height 1 are powers of two) `g.add_shifted(g, (1,0))` leaves `3 5`.  Cell
`(1,0)` held 2 and reads `other.at((1+1) mod 2, 0)`, which held 1 before the call, but the
loop has already made it 3: the cell becomes 5, not `2 + 1`. -/
theorem add_shifted_receiver_reads_updated :
    gridi21.wf ∧ gridi21.size.x = 2 ^ 1 ∧ gridi21.size.y = 2 ^ 0 ∧
    gridi21.add_shifted .receiver ⟨1, 0⟩ = .ok ⟨⟨2, 1⟩, [3, 5]⟩ ∧
    gridi21.at_get 1 0 = .ok 2 ∧
    gridi21.at_get ((1 + 1) % gridi21.size.x) ((0 + 0) % gridi21.size.y) = .ok 1 ∧
    (bivector.mk (T := Int) ⟨2, 1⟩ [3, 5]).at_get 1 0 = .ok 5 ∧ (5 : Int) ≠ 2 + 1 :=
  ⟨by decide, by decide, by decide, rfl, rfl, rfl, rfl, by decide⟩

/-- C27, amended: `add_shifted` agrees with `shifted`.  For a grid `self` and a grid
`other` distinct from it, of the same size `(w,h)` (their element count an `int`), `w` and `h` powers of two, both satisfying the invariant, and every integer
offset `o` (its negation taken component-wise), `self.add_shifted(other, o)` and
`other.shifted(-o)` succeed and every cell `(x,y)` of `self` becomes its previous value
plus `other.shifted(-o).at(x,y)`. -/
theorem add_shifted_agrees_with_shifted {T : Type} [Add T] [Inhabited T]
    (g other : bivector T) (hg : g.wf) (ho : other.wf)
    (hfit : g.size.x * g.size.y < 2 ^ 31) (kx ky : Nat) (hkx : kx ≤ 30)
    (hky : ky ≤ 30) (hw : g.size.x = 2 ^ kx) (hh : g.size.y = 2 ^ ky)
    (hsame : other.size = g.size) (o : vector2i) :
    ∃ r sh : bivector T, g.add_shifted (.distinct other) o = .ok r ∧
      other.shifted ⟨-o.x, -o.y⟩ = .ok sh ∧ r.size = g.size ∧ sh.size = g.size ∧
      ∀ x y : Int, 0 ≤ x → x < g.size.x → 0 ≤ y → y < g.size.y →
        ∃ v u : T, g.at_get x y = .ok v ∧ sh.at_get x y = .ok u ∧
          r.at_get x y = .ok (v + u) := by
  simp only [bivector.size] at *
  have hwo : other.datasize.x = 2 ^ kx := by rw [hsame]; exact hw
  have hho : other.datasize.y = 2 ^ ky := by rw [hsame]; exact hh
  have hwpos : 0 < other.datasize.x := by rw [hwo]; positivity
  have hhpos : 0 < other.datasize.y := by rw [hho]; positivity
  have hmx : ∀ a : Int, int_and a (other.datasize.x - 1) = a % other.datasize.x := by
    intro a; rw [hwo]; exact int_and_mask a kx hkx
  have hmy : ∀ a : Int, int_and a (other.datasize.y - 1) = a % other.datasize.y := by
    intro a; rw [hho]; exact int_and_mask a ky hky
  have hread : ∀ a b : Int, other.at_get (a % other.datasize.x) (b % other.datasize.y) =
      .ok (other.cell (a % other.datasize.x) (b % other.datasize.y)) := fun a b =>
    at_get_cell other ho _ _ (Int.emod_nonneg _ (by omega)) (Int.emod_lt_of_pos _ hwpos)
      (Int.emod_nonneg _ (by omega)) (Int.emod_lt_of_pos _ hhpos)
  obtain ⟨r, hrun, hsz, _, hcells⟩ := add_shifted_cells g other hg o
    (fun x y => other.cell ((x + o.x) % other.datasize.x) ((y + o.y) % other.datasize.y))
    (by intro x y _ _ _ _; rw [hmx, hmy]; exact hread _ _)
  obtain ⟨d, hsh, _, hd, _⟩ := shifted_cells other ho (by rw [hsame]; exact hfit) kx ky hkx hky
    hwo hho ⟨-o.x, -o.y⟩
  refine ⟨r, _, hrun, hsh, hsz, hsame, ?_⟩
  intro x y hx0 hxw hy0 hyh
  obtain ⟨v, hv, hv'⟩ := hcells x y hx0 hxw hy0 hyh
  refine ⟨v, _, hv, ?_, hv'⟩
  have hxo : x < other.datasize.x := by rw [hsame]; exact hxw
  have hyo : y < other.datasize.y := by rw [hsame]; exact hyh
  have hsrc := hd ((x + o.x) % other.datasize.x) ((y + o.y) % other.datasize.y)
    (Int.emod_nonneg _ (by omega)) (Int.emod_lt_of_pos _ hwpos)
    (Int.emod_nonneg _ (by omega)) (Int.emod_lt_of_pos _ hhpos)
  dsimp only at hsrc
  have ex : ((x + o.x) % other.datasize.x + -o.x) % other.datasize.x = x := by
    rw [Int.emod_add_emod]
    have : x + o.x + -o.x = x := by ring
    rw [this]
    exact Int.emod_eq_of_lt hx0 hxo
  have ey : ((y + o.y) % other.datasize.y + -o.y) % other.datasize.y = y := by
    rw [Int.emod_add_emod]
    have : y + o.y + -o.y = y := by ring
    rw [this]
    exact Int.emod_eq_of_lt hy0 hyo
  rw [ex, ey] at hsrc
  rw [at_get_eq_vec_get]
  dsimp only
  rw [if_neg (by omega), hsrc]
  have := hread (x + o.x) (y + o.y)
  rw [at_get_eq_vec_get, if_neg (by
    have := Int.emod_lt_of_pos (x + o.x) hwpos
    have := Int.emod_lt_of_pos (y + o.y) hhpos
    omega)] at this
  exact this

/-- Witness of C27 on two (2,2) grids with the offset `(-1, 1)`. -/
theorem add_shifted_agrees_with_shifted_witness :
    grid22.wf ∧ gridm22.wf ∧
    ∃ r sh : bivector Int, grid22.add_shifted (.distinct gridm22) ⟨-1, 1⟩ = .ok r ∧
      gridm22.shifted ⟨1, -1⟩ = .ok sh ∧ r.size = grid22.size ∧ sh.size = grid22.size ∧
      ∀ x y : Int, 0 ≤ x → x < grid22.size.x → 0 ≤ y → y < grid22.size.y →
        ∃ v u : Int, grid22.at_get x y = .ok v ∧ sh.at_get x y = .ok u ∧
          r.at_get x y = .ok (v + u) :=
  ⟨by decide, by decide,
    add_shifted_agrees_with_shifted grid22 gridm22 (by decide) (by decide) (by decide) 1 1
      (by decide)
      (by decide) rfl rfl rfl ⟨-1, 1⟩⟩

/-- C27 as stated fails when `other` is the receiver itself: on the (2,1) grid `1 2` with
`o = (1,0)`, `g.shifted(-o)` is `2 1`, so the claim gives `1+2, 2+1`, that is `3 3`, while
`g.add_shifted(g, o)` leaves `3 5` (cell `(1,0)` reads cell `(0,0)` after its update). -/
theorem add_shifted_receiver_differs_from_shifted :
    gridi21.wf ∧ gridi21.size.x = 2 ^ 1 ∧ gridi21.size.y = 2 ^ 0 ∧
    gridi21.shifted ⟨-1, -0⟩ = .ok ⟨⟨2, 1⟩, [2, 1]⟩ ∧
    gridi21.add_shifted .receiver ⟨1, 0⟩ = .ok ⟨⟨2, 1⟩, [3, 5]⟩ ∧
    gridi21.add_shifted .receiver ⟨1, 0⟩ ≠ .ok ⟨⟨2, 1⟩, [1 + 2, 2 + 1]⟩ :=
  ⟨by decide, by decide, by decide, rfl, rfl, (by intro h; cases h)⟩

/-! ## The bounds-checked reads inside add_tiled and add_shifted -/

/-- When the callback fails on the first cell of a non-empty grid, the non-const
`for_each_xy` fails with that error and the receiver is untouched. -/
theorem for_each_xy_mut_first_error {T : Type} (g : bivector T) (hwf : g.wf)
    (hw : 1 ≤ g.datasize.x) (hh : 1 ≤ g.datasize.y)
    (func : T → vector2i → Int → Except Error T) (e : Error)
    (hf : ∀ v : T, func v ⟨0, 0⟩ 0 = .error e) :
    g.for_each_xy_mut func = .error (e, ⟨g.datasize, g.data⟩) := by
  obtain ⟨v0, hv0⟩ := vec_get_of_lt g.data 0 (le_refl _)
    (by rw [hwf.2.2]; exact mul_pos (by omega) (by omega))
  unfold bivector.for_each_xy_mut
  generalize hrun : forLoop 0 g.datasize.y _ _ = res
  have hres : res = .error (e, ⟨g.datasize, g.data⟩) := by
    rw [← hrun]
    apply forLoop_first_error _ _ _ _ _ (by omega)
    apply forLoop_first_error _ _ _ _ _ (by omega)
    simp only [hv0, hf]
  rw [hres]

/-- The masked reads never fail on a non-empty `other`, whatever its dimensions: for
grids satisfying the invariant and `other` of width and height at least 1 (within the
range of `int`), `add_tiled` and `add_shifted` complete for every scalar and offset. -/
theorem masked_reads_complete {T : Type} [Add T] [Mul T] (g other : bivector T)
    (hg : g.wf) (ho : other.wf) (hw : 1 ≤ other.datasize.x) (hw' : other.datasize.x < 2 ^ 31)
    (hh : 1 ≤ other.datasize.y) (hh' : other.datasize.y < 2 ^ 31) :
    (∀ s : T, ∃ r : bivector T, g.add_tiled other s = .ok r ∧ r.datasize = g.datasize) ∧
    (∀ offset : vector2i, ∃ r : bivector T, g.add_shifted (.distinct other) offset = .ok r ∧
      r.datasize = g.datasize) := by
  obtain ⟨d0, _⟩ := vec_get_of_lt other.data 0 (le_refl _)
    (by rw [ho.2.2]; exact mul_pos (by omega) (by omega))
  haveI : Inhabited T := ⟨d0⟩
  have hread : ∀ a b : Int, other.at_get (int_and a (other.datasize.x - 1))
      (int_and b (other.datasize.y - 1)) = .ok (other.cell
        (int_and a (other.datasize.x - 1)) (int_and b (other.datasize.y - 1))) := by
    intro a b
    have h1 := int_and_nonneg_mask a (other.datasize.x - 1) (by omega) (by omega)
    have h2 := int_and_nonneg_mask b (other.datasize.y - 1) (by omega) (by omega)
    exact at_get_cell other ho _ _ h1.1 (by omega) h2.1 (by omega)
  constructor
  · intro s
    obtain ⟨r, hrun, hsz, _⟩ := add_tiled_cells g other hg s
      (fun x y => other.cell (int_and x (other.datasize.x - 1))
        (int_and y (other.datasize.y - 1)))
      (fun x y _ _ _ _ => hread x y)
    exact ⟨r, hrun, hsz⟩
  · intro offset
    obtain ⟨r, hrun, hsz, _⟩ := add_shifted_cells g other hg offset
      (fun x y => other.cell (int_and (x + offset.x) (other.datasize.x - 1))
        (int_and (y + offset.y) (other.datasize.y - 1)))
      (fun x y _ _ _ _ => hread _ _)
    exact ⟨r, hrun, hsz⟩

/-- A checked read of a grid with a zero dimension at non-negative coordinates throws
`out_of_range`. -/
theorem at_get_zero_dim {T : Type} (other : bivector T)
    (hz : other.datasize.x = 0 ∨ other.datasize.y = 0) (a b : Int) (ha : 0 ≤ a) (hb : 0 ≤ b)
    (ha' : a < other.datasize.x ∨ other.datasize.x = 0) :
    other.at_get a b = .error .out_of_range := by
  rw [at_get_eq_vec_get, if_pos (by omega)]

/-- On a non-empty receiver, `add_tiled` with an `other` that has a zero dimension throws
`out_of_range` at the first cell. -/
theorem add_tiled_empty_other {T : Type} [Add T] [Mul T] (g other : bivector T)
    (hg : g.wf) (ho : other.wf) (hw : 1 ≤ g.datasize.x) (hh : 1 ≤ g.datasize.y)
    (hw' : other.datasize.x < 2 ^ 31)
    (hz : other.datasize.x = 0 ∨ other.datasize.y = 0) (s : T) :
    g.add_tiled other s = .error (.out_of_range, g) := by
  unfold bivector.add_tiled
  apply for_each_xy_mut_first_error g hg hw hh
  intro v
  dsimp only
  have hx : 0 ≤ int_and 0 (other.datasize.x - 1) ∧
      (int_and 0 (other.datasize.x - 1) < other.datasize.x ∨ other.datasize.x = 0) := by
    by_cases h0 : other.datasize.x = 0
    · rw [h0]; exact ⟨by decide, Or.inr rfl⟩
    · have := int_and_nonneg_mask 0 (other.datasize.x - 1) (by have := ho.1; omega) (by omega)
      exact ⟨this.1, Or.inl (by omega)⟩
  have hy : 0 ≤ int_and 0 (other.datasize.y - 1) := by
    have e : int_and 0 (other.datasize.y - 1) = 0 := by
      unfold int_and
      simp [Nat.land]
    omega
  rw [at_get_zero_dim other hz _ _ hx.1 hy hx.2]

/-- On a non-empty receiver, `add_shifted` with an `other` that has a zero dimension and
an offset without negative component throws `out_of_range` at the first cell. -/
theorem add_shifted_empty_other_nonneg_offset {T : Type} [Add T] (g other : bivector T)
    (hg : g.wf) (ho : other.wf) (hw : 1 ≤ g.datasize.x) (hh : 1 ≤ g.datasize.y)
    (hw' : other.datasize.x < 2 ^ 31) (hh' : other.datasize.y < 2 ^ 31)
    (hz : other.datasize.x = 0 ∨ other.datasize.y = 0) (offset : vector2i)
    (hox : 0 ≤ offset.x) (hox' : offset.x < 2 ^ 31) (hoy : 0 ≤ offset.y)
    (hoy' : offset.y < 2 ^ 31) :
    g.add_shifted (.distinct other) offset = .error (.out_of_range, g) := by
  rw [add_shifted_distinct]
  apply for_each_xy_mut_first_error g hg hw hh
  intro v
  dsimp only
  rw [zero_add, zero_add]
  have hx : 0 ≤ int_and offset.x (other.datasize.x - 1) ∧
      (int_and offset.x (other.datasize.x - 1) < other.datasize.x ∨
        other.datasize.x = 0) := by
    by_cases h0 : other.datasize.x = 0
    · rw [h0]
      have : int_and offset.x (0 - 1) = offset.x := int_and_neg_one _ (by omega) hox'
      exact ⟨by omega, Or.inr rfl⟩
    · have := int_and_nonneg_mask offset.x (other.datasize.x - 1)
        (by have := ho.1; omega) (by omega)
      exact ⟨this.1, Or.inl (by omega)⟩
  have hy : 0 ≤ int_and offset.y (other.datasize.y - 1) := by
    by_cases h0 : other.datasize.y = 0
    · rw [h0]
      have : int_and offset.y (0 - 1) = offset.y := int_and_neg_one _ (by omega) hoy'
      omega
    · exact (int_and_nonneg_mask offset.y (other.datasize.y - 1)
        (by have := ho.2.1; omega) (by omega)).1
  rw [at_get_zero_dim other hz _ _ hx.1 hy hx.2]

/-- With `other` the receiver itself, `add_shifted` completes on every grid satisfying the
invariant (its dimensions `int` values): each masked read lies inside the receiver. -/
theorem add_shifted_receiver_completes {T : Type} [Add T] (g : bivector T) (hg : g.wf)
    (hgw : g.datasize.x < 2 ^ 31) (hgh : g.datasize.y < 2 ^ 31) (offset : vector2i) :
    ∃ r : bivector T, g.add_shifted .receiver offset = .ok r ∧ r.datasize = g.datasize := by
  unfold bivector.add_shifted
  obtain ⟨r, hr, hs⟩ := for_each_xy_ref_completes g hg
    (fun cur value xy _ =>
      match ((grid_ref.receiver : grid_ref T).deref cur).at_get
          (int_and (xy.x + offset.x) (((grid_ref.receiver : grid_ref T).deref cur).datasize.x - 1))
          (int_and (xy.y + offset.y) (((grid_ref.receiver : grid_ref T).deref cur).datasize.y - 1))
        with
      | .error e => .error e
      | .ok o => .ok (value + o))
    (by
      intro cur x y v hs hx0 hxw hy0 hyh
      have hcx : cur.datasize.x = g.datasize.x := by rw [hs.1]
      have hcy : cur.datasize.y = g.datasize.y := by rw [hs.1]
      have h1 := int_and_nonneg_mask (x + offset.x) (g.datasize.x - 1) (by omega) (by omega)
      have h2 := int_and_nonneg_mask (y + offset.y) (g.datasize.y - 1) (by omega) (by omega)
      have hb := flat_index_bounds g.datasize.x g.datasize.y _ _ h1.1
        (by omega : int_and (x + offset.x) (g.datasize.x - 1) < g.datasize.x) h2.1
        (by omega : int_and (y + offset.y) (g.datasize.y - 1) < g.datasize.y)
      obtain ⟨o, ho⟩ := vec_get_of_lt cur.data _ hb.1 (by rw [hs.2, hg.2.2]; exact hb.2)
      have hread : cur.at_get (int_and (x + offset.x) (cur.datasize.x - 1))
          (int_and (y + offset.y) (cur.datasize.y - 1)) = .ok o := by
        rw [at_get_eq_vec_get, hcx, hcy, if_neg (by omega), ho]
      refine ⟨v + o, ?_⟩
      simp only [grid_ref.deref, hread])
  exact ⟨r, hr, hs.1⟩

/-- C30, amended: the bounds-checked reads inside `add_tiled` and `add_shifted` never fail
when `other` has width and height at least 1, whatever its dimensions (powers of two or
not), for every scalar and every integer offset, negative components included: a
coordinate masked with `dimension - 1 ≥ 0` lies in `[0, dimension - 1]`.  This holds for an
`other` distinct from the receiver and, for `add_shifted`, also when `other` is the
receiver itself.  Whereas if `other` has a zero dimension and `self` has at least one
cell, `add_tiled` throws `out_of_range`, and so does `add_shifted` for every offset
without negative component.  All grids satisfy the invariant and their dimensions and
the offset are `int` values. -/
theorem masked_reads_in_range {T : Type} [Add T] [Mul T] (g other : bivector T) (hg : g.wf)
    (ho : other.wf) (hgw : g.size.x < 2 ^ 31) (hgh : g.size.y < 2 ^ 31)
    (how : other.size.x < 2 ^ 31) (hoh : other.size.y < 2 ^ 31) :
    (1 ≤ other.size.x → 1 ≤ other.size.y →
      (∀ s : T, ∃ r : bivector T, g.add_tiled other s = .ok r ∧ r.size = g.size) ∧
      (∀ offset : vector2i, ∃ r : bivector T,
        g.add_shifted (.distinct other) offset = .ok r ∧ r.size = g.size)) ∧
    (∀ offset : vector2i, ∃ r : bivector T,
      g.add_shifted .receiver offset = .ok r ∧ r.size = g.size) ∧
    (1 ≤ g.size.x → 1 ≤ g.size.y → other.size.x = 0 ∨ other.size.y = 0 →
      (∀ s : T, g.add_tiled other s = .error (.out_of_range, g)) ∧
      (∀ offset : vector2i, 0 ≤ offset.x → offset.x < 2 ^ 31 → 0 ≤ offset.y →
        offset.y < 2 ^ 31 →
        g.add_shifted (.distinct other) offset = .error (.out_of_range, g))) := by
  simp only [bivector.size] at *
  refine ⟨?_, ?_, ?_⟩
  · intro hw hh
    exact masked_reads_complete g other hg ho hw how hh hoh
  · intro offset
    exact add_shifted_receiver_completes g hg hgw hgh offset
  · intro hw hh hz
    exact ⟨fun s => add_tiled_empty_other g other hg ho hw hh how hz s,
      fun offset hox hox' hoy hoy' =>
        add_shifted_empty_other_nonneg_offset g other hg ho hw hh how hoh hz offset hox hox'
          hoy hoy'⟩

/-- Witness of C30: the (2,2) grid with the (3,1) grid `10 20 30` as `other` (not a power
of two) and the offset `(-1, 1)`; and the empty grid of size (0,1) as `other`. -/
theorem masked_reads_in_range_witness :
    grid22.wf ∧ grid31.wf ∧ grid01.wf ∧
    (∃ r : bivector Int, grid22.add_shifted (.distinct grid31) ⟨-1, 1⟩ = .ok r ∧
      r.size = grid22.size) ∧
    grid22.add_tiled grid01 1 = .error (.out_of_range, grid22) :=
  ⟨by decide, by decide, by decide,
    ((masked_reads_in_range grid22 grid31 (by decide) (by decide) (by decide) (by decide)
      (by decide) (by decide)).1 (by decide) (by decide)).2 ⟨-1, 1⟩,
    ((masked_reads_in_range grid22 grid01 (by decide) (by decide) (by decide) (by decide)
      (by decide) (by decide)).2.2 (by decide) (by decide) (Or.inl (by decide))).1 1⟩

/-- C30 as stated fails for a negative offset: the receiver is the (1,1) grid holding 5,
`other` is the empty grid of size (0,1) and the offset is `(-1, 0)`.  `add_shifted` reads
`other.at(-1 & -1, 0 & 0)`, that is `other.at(-1, 0)`; the test
`x >= datasize.x || y >= datasize.y` is `-1 >= 0 || 0 >= 1`, so no `out_of_range` is
thrown and `data[-1]` is read outside the storage.  With the offset `(0, 0)`, and for
`add_tiled`, the same grids do throw `out_of_range`. -/
theorem add_shifted_empty_other_negative_offset :
    grid11five.wf ∧ grid01.wf ∧
    grid11five.add_shifted (.distinct grid01) ⟨-1, 0⟩ = .error (.undefined, grid11five) ∧
    grid11five.add_shifted (.distinct grid01) ⟨-1, 0⟩ ≠
      .error (.out_of_range, grid11five) ∧
    grid11five.add_shifted (.distinct grid01) ⟨0, 0⟩ = .error (.out_of_range, grid11five) ∧
    grid11five.add_tiled grid01 1 = .error (.out_of_range, grid11five) :=
  ⟨by decide, by decide, rfl, (by intro h; cases h), rfl, rfl⟩

/-! ## get_min, get_max, get_min_abs, get_max_abs -/

theorem std_min_eq_min {T : Type} [LinearOrder T] (a b : T) : std_min a b = min a b := by
  unfold std_min
  by_cases h : b < a
  · rw [if_pos h, min_eq_right (le_of_lt h)]
  · rw [if_neg h, min_eq_left (not_lt.mp h)]

theorem std_max_eq_max {T : Type} [LinearOrder T] (a b : T) : std_max a b = max a b := by
  unfold std_max
  by_cases h : a < b
  · rw [if_pos h, max_eq_right (le_of_lt h)]
  · rw [if_neg h, max_eq_left (not_lt.mp h)]

theorem std_abs_eq_abs {T : Type} [LinearOrderedAddCommGroup T] (v : T) : std_abs v = |v| := by
  unfold std_abs
  by_cases h : v < 0
  · rw [if_pos h, abs_of_neg h]
  · rw [if_neg h, abs_of_nonneg (not_lt.mp h)]

/-- The scan `m = std::min(m, f(v))` over a list: the result is below the start value and
below `f v` for every element, and it is the start value or some `f v`. -/
theorem foldl_std_min_spec {T α : Type} [LinearOrder T] (f : α → T) (l : List α) (m0 : T) :
    l.foldl (fun m v => std_min m (f v)) m0 ≤ m0 ∧
    (∀ v ∈ l, l.foldl (fun m v => std_min m (f v)) m0 ≤ f v) ∧
    (l.foldl (fun m v => std_min m (f v)) m0 = m0 ∨
      ∃ v ∈ l, l.foldl (fun m v => std_min m (f v)) m0 = f v) := by
  induction l generalizing m0 with
  | nil => simp
  | cons a t ih =>
    obtain ⟨h1, h2, h3⟩ := ih (std_min m0 (f a))
    have e := std_min_eq_min m0 (f a)
    have s1 : std_min m0 (f a) ≤ m0 := by rw [e]; exact min_le_left _ _
    have s2 : std_min m0 (f a) ≤ f a := by rw [e]; exact min_le_right _ _
    have s3 : std_min m0 (f a) = m0 ∨ std_min m0 (f a) = f a := by
      rw [e]; exact min_choice _ _
    simp only [List.foldl_cons]
    refine ⟨le_trans h1 s1, ?_, ?_⟩
    · intro v hv
      rcases List.mem_cons.mp hv with rfl | hv
      · exact le_trans h1 s2
      · exact h2 v hv
    · rcases h3 with h3 | ⟨v, hv, h3⟩
      · rcases s3 with hc | hc
        · left; rw [h3, hc]
        · right; exact ⟨a, List.mem_cons_self _ _, by rw [h3, hc]⟩
      · right; exact ⟨v, List.mem_cons_of_mem _ hv, h3⟩

/-- The scan `m = std::max(m, f(v))` over a list. -/
theorem foldl_std_max_spec {T α : Type} [LinearOrder T] (f : α → T) (l : List α) (m0 : T) :
    m0 ≤ l.foldl (fun m v => std_max m (f v)) m0 ∧
    (∀ v ∈ l, f v ≤ l.foldl (fun m v => std_max m (f v)) m0) ∧
    (l.foldl (fun m v => std_max m (f v)) m0 = m0 ∨
      ∃ v ∈ l, l.foldl (fun m v => std_max m (f v)) m0 = f v) := by
  induction l generalizing m0 with
  | nil => simp
  | cons a t ih =>
    obtain ⟨h1, h2, h3⟩ := ih (std_max m0 (f a))
    have e := std_max_eq_max m0 (f a)
    have s1 : m0 ≤ std_max m0 (f a) := by rw [e]; exact le_max_left _ _
    have s2 : f a ≤ std_max m0 (f a) := by rw [e]; exact le_max_right _ _
    have s3 : std_max m0 (f a) = m0 ∨ std_max m0 (f a) = f a := by
      rw [e]; exact max_choice _ _
    simp only [List.foldl_cons]
    refine ⟨le_trans s1 h1, ?_, ?_⟩
    · intro v hv
      rcases List.mem_cons.mp hv with rfl | hv
      · exact le_trans s2 h1
      · exact h2 v hv
    · rcases h3 with h3 | ⟨v, hv, h3⟩
      · rcases s3 with hc | hc
        · left; rw [h3, hc]
        · right; exact ⟨a, List.mem_cons_self _ _, by rw [h3, hc]⟩
      · right; exact ⟨v, List.mem_cons_of_mem _ hv, h3⟩

/-- Every storage position of a grid satisfying the invariant is the flat index of an
in-range cell. -/
theorem cell_of_flat_index (w h : Int) (n : Nat) (hw : 0 ≤ w) (hn : (n : Int) < w * h) :
    0 ≤ (n : Int) % w ∧ (n : Int) % w < w ∧ 0 ≤ (n : Int) / w ∧ (n : Int) / w < h ∧
    (n : Int) % w + (n : Int) / w * w = n := by
  have hn0 : (0 : Int) ≤ n := Int.natCast_nonneg n
  have hwpos : 0 < w := by
    rcases lt_or_eq_of_le hw with h | h
    · exact h
    · rw [← h] at hn; simp at hn; omega
  refine ⟨Int.emod_nonneg _ (by omega), Int.emod_lt_of_pos _ hwpos,
    Int.ediv_nonneg hn0 hw, ?_, ?_⟩
  · exact Int.ediv_lt_of_lt_mul hwpos (by rw [mul_comm]; exact hn)
  · rw [mul_comm]; exact Int.emod_add_ediv _ _

/-- The elements of the storage are exactly the values of the in-range cells. -/
theorem mem_data_iff_cell {T : Type} (g : bivector T) (hwf : g.wf) (v : T) :
    v ∈ g.data ↔ ∃ x y : Int, 0 ≤ x ∧ x < g.datasize.x ∧ 0 ≤ y ∧ y < g.datasize.y ∧
      g.at_get x y = .ok v := by
  constructor
  · intro hv
    obtain ⟨n, hn, hget⟩ := List.getElem_of_mem hv
    have hn' : (n : Int) < g.datasize.x * g.datasize.y := by
      rw [← hwf.2.2]; exact_mod_cast hn
    obtain ⟨a, b, c, d, e⟩ := cell_of_flat_index g.datasize.x g.datasize.y n hwf.1 hn'
    refine ⟨(n : Int) % g.datasize.x, (n : Int) / g.datasize.x, a, b, c, d, ?_⟩
    rw [at_get_eq_vec_get, if_neg (by omega), e]
    rw [vec_get_eq_get g.data n (Int.natCast_nonneg _) (by simpa using hn)]
    simp only [Int.toNat_ofNat, List.get_eq_getElem, hget]
  · rintro ⟨x, y, hx0, hxw, hy0, hyh, hget⟩
    rw [at_get_eq_vec_get, if_neg (by omega)] at hget
    unfold vec_get at hget
    split at hget
    · split at hget
      · rename_i w hw
        injection hget with hget
        rw [← hget]
        exact List.getElem?_mem hw
      · cases hget
    · cases hget

theorem get_min_cons {T : Type} [LT T] [DecidableRel (fun a b : T => a < b)]
    (g : bivector T) (d0 : T) (t : List T) (hd : g.data = d0 :: t) :
    g.get_min = .ok ((d0 :: t).foldl (fun m v => std_min m v) d0) := by
  simp [bivector.get_min, hd, vec_get]

theorem get_max_cons {T : Type} [LT T] [DecidableRel (fun a b : T => a < b)]
    (g : bivector T) (d0 : T) (t : List T) (hd : g.data = d0 :: t) :
    g.get_max = .ok ((d0 :: t).foldl (fun m v => std_max m v) d0) := by
  simp [bivector.get_max, hd, vec_get]

theorem get_min_abs_cons {T : Type} [LT T] [DecidableRel (fun a b : T => a < b)] [Zero T]
    [Neg T] (g : bivector T) (d0 : T) (t : List T) (hd : g.data = d0 :: t) :
    g.get_min_abs = .ok ((d0 :: t).foldl (fun m v => std_min m (std_abs v)) (std_abs d0)) := by
  simp [bivector.get_min_abs, hd, vec_get]

theorem get_max_abs_cons {T : Type} [LT T] [DecidableRel (fun a b : T => a < b)] [Zero T]
    [Neg T] (g : bivector T) (d0 : T) (t : List T) (hd : g.data = d0 :: t) :
    g.get_max_abs = .ok ((d0 :: t).foldl (fun m v => std_max m (std_abs v)) (std_abs d0)) := by
  simp [bivector.get_max_abs, hd, vec_get]

/-- C23: on a grid satisfying the invariant, each of `get_min`, `get_max`, `get_min_abs`
and `get_max_abs` throws `invalid_argument` if and only if the grid has zero elements
(`width * height == 0`); on a grid with elements each of them returns a value. -/
theorem extrema_throw_iff_empty {T : Type} [LT T] [DecidableRel (fun a b : T => a < b)]
    [Zero T] [Neg T] (g : bivector T) (hwf : g.wf) :
    (g.get_min = .error .invalid_argument ↔ g.size.x * g.size.y = 0) ∧
    (g.get_max = .error .invalid_argument ↔ g.size.x * g.size.y = 0) ∧
    (g.get_min_abs = .error .invalid_argument ↔ g.size.x * g.size.y = 0) ∧
    (g.get_max_abs = .error .invalid_argument ↔ g.size.x * g.size.y = 0) ∧
    (g.size.x * g.size.y ≠ 0 →
      (∃ m : T, g.get_min = .ok m) ∧ (∃ m : T, g.get_max = .ok m) ∧
      (∃ m : T, g.get_min_abs = .ok m) ∧ (∃ m : T, g.get_max_abs = .ok m)) := by
  have hlen := hwf.2.2
  simp only [bivector.size]
  cases hd : g.data with
  | nil =>
    rw [hd] at hlen
    have hz : g.datasize.x * g.datasize.y = 0 := by rw [← hlen]; rfl
    simp [bivector.get_min, bivector.get_max, bivector.get_min_abs, bivector.get_max_abs,
      hd, hz]
  | cons d0 t =>
    rw [hd] at hlen
    have hz : g.datasize.x * g.datasize.y ≠ 0 := by
      rw [← hlen]; simp only [List.length_cons]; omega
    simp [bivector.get_min, bivector.get_max, bivector.get_min_abs, bivector.get_max_abs,
      hd, hz, vec_get]

/-- Witness of C23: the grid of size (0,5) and the (2,2) grid. -/
theorem extrema_throw_iff_empty_witness :
    grid05.wf ∧ gridm22.wf ∧
    grid05.get_min = .error .invalid_argument ∧
    grid05.get_max_abs = .error .invalid_argument ∧
    gridm22.get_min ≠ .error .invalid_argument :=
  ⟨by decide, by decide,
    (extrema_throw_iff_empty grid05 (by decide)).1.mpr (by decide),
    (extrema_throw_iff_empty grid05 (by decide)).2.2.2.1.mpr (by decide),
    fun h => absurd ((extrema_throw_iff_empty gridm22 (by decide)).1.mp h) (by decide)⟩

/-- C24, amended: extrema of a grid with at least one element.  Over a totally ordered
element type, `get_min()` returns a value that occurs in the grid and is `<=` every cell
and `get_max()` one that occurs and is `>=` every cell.  Over a totally ordered additive
group, where negation is exact, `get_min_abs()` and `get_max_abs()` return the least and
the greatest of the absolute values of the cells.  Both grids satisfy the invariant. -/
theorem extrema_are_extreme {T : Type} [LinearOrder T] (g : bivector T) (hwf : g.wf)
    (hne : g.size.x * g.size.y ≠ 0)
    {U : Type} [LinearOrderedAddCommGroup U] (ga : bivector U) (hwfa : ga.wf)
    (hnea : ga.size.x * ga.size.y ≠ 0) :
    (∃ m : T, g.get_min = .ok m ∧
      (∃ x y : Int, 0 ≤ x ∧ x < g.size.x ∧ 0 ≤ y ∧ y < g.size.y ∧ g.at_get x y = .ok m) ∧
      ∀ (x y : Int) (v : T), 0 ≤ x → x < g.size.x → 0 ≤ y → y < g.size.y →
        g.at_get x y = .ok v → m ≤ v) ∧
    (∃ m : T, g.get_max = .ok m ∧
      (∃ x y : Int, 0 ≤ x ∧ x < g.size.x ∧ 0 ≤ y ∧ y < g.size.y ∧ g.at_get x y = .ok m) ∧
      ∀ (x y : Int) (v : T), 0 ≤ x → x < g.size.x → 0 ≤ y → y < g.size.y →
        g.at_get x y = .ok v → v ≤ m) ∧
    (∃ m : U, ga.get_min_abs = .ok m ∧
      (∃ (x y : Int) (v : U), 0 ≤ x ∧ x < ga.size.x ∧ 0 ≤ y ∧ y < ga.size.y ∧
        ga.at_get x y = .ok v ∧ m = |v|) ∧
      ∀ (x y : Int) (v : U), 0 ≤ x → x < ga.size.x → 0 ≤ y → y < ga.size.y →
        ga.at_get x y = .ok v → m ≤ |v|) ∧
    (∃ m : U, ga.get_max_abs = .ok m ∧
      (∃ (x y : Int) (v : U), 0 ≤ x ∧ x < ga.size.x ∧ 0 ≤ y ∧ y < ga.size.y ∧
        ga.at_get x y = .ok v ∧ m = |v|) ∧
      ∀ (x y : Int) (v : U), 0 ≤ x → x < ga.size.x → 0 ≤ y → y < ga.size.y →
        ga.at_get x y = .ok v → |v| ≤ m) := by
  simp only [bivector.size] at *
  refine ⟨?_, ?_, ?_, ?_⟩
  · cases hd : g.data with
    | nil => have := hwf.2.2; rw [hd] at this; exact absurd this.symm hne
    | cons d0 t =>
      obtain ⟨h1, h2, h3⟩ := foldl_std_min_spec (fun v : T => v) (d0 :: t) d0
      refine ⟨_, get_min_cons _ d0 t hd, ?_, ?_⟩
      · have hmem : (d0 :: t).foldl (fun m v => std_min m v) d0 ∈ g.data := by
          rw [hd]
          rcases h3 with h3 | ⟨v, hv, h3⟩
          · rw [h3]; exact List.mem_cons_self _ _
          · rw [h3]; exact hv
        exact (mem_data_iff_cell g hwf _).mp hmem
      · intro x y v hx0 hxw hy0 hyh hv
        have hmem : v ∈ d0 :: t := by
          rw [← hd]; exact (mem_data_iff_cell g hwf v).mpr ⟨x, y, hx0, hxw, hy0, hyh, hv⟩
        exact h2 v hmem
  · cases hd : g.data with
    | nil => have := hwf.2.2; rw [hd] at this; exact absurd this.symm hne
    | cons d0 t =>
      obtain ⟨h1, h2, h3⟩ := foldl_std_max_spec (fun v : T => v) (d0 :: t) d0
      refine ⟨_, get_max_cons _ d0 t hd, ?_, ?_⟩
      · have hmem : (d0 :: t).foldl (fun m v => std_max m v) d0 ∈ g.data := by
          rw [hd]
          rcases h3 with h3 | ⟨v, hv, h3⟩
          · rw [h3]; exact List.mem_cons_self _ _
          · rw [h3]; exact hv
        exact (mem_data_iff_cell g hwf _).mp hmem
      · intro x y v hx0 hxw hy0 hyh hv
        have hmem : v ∈ d0 :: t := by
          rw [← hd]; exact (mem_data_iff_cell g hwf v).mpr ⟨x, y, hx0, hxw, hy0, hyh, hv⟩
        exact h2 v hmem
  · cases hd : ga.data with
    | nil => have := hwfa.2.2; rw [hd] at this; exact absurd this.symm hnea
    | cons d0 t =>
      obtain ⟨h1, h2, h3⟩ := foldl_std_min_spec (fun v : U => std_abs v) (d0 :: t)
        (std_abs d0)
      refine ⟨_, get_min_abs_cons _ d0 t hd, ?_, ?_⟩
      · have hmem : ∃ v ∈ ga.data,
            (d0 :: t).foldl (fun m v => std_min m (std_abs v)) (std_abs d0) = |v| := by
          rw [hd]
          rcases h3 with h3 | ⟨v, hv, h3⟩
          · exact ⟨d0, List.mem_cons_self _ _, by rw [h3, std_abs_eq_abs]⟩
          · exact ⟨v, hv, by rw [h3, std_abs_eq_abs]⟩
        obtain ⟨v, hv, hm⟩ := hmem
        obtain ⟨x, y, a, b, c, d, e⟩ := (mem_data_iff_cell ga hwfa v).mp hv
        exact ⟨x, y, v, a, b, c, d, e, hm⟩
      · intro x y v hx0 hxw hy0 hyh hv
        have hmem : v ∈ d0 :: t := by
          rw [← hd]
          exact (mem_data_iff_cell ga hwfa v).mpr ⟨x, y, hx0, hxw, hy0, hyh, hv⟩
        have := h2 v hmem
        rw [std_abs_eq_abs v] at this
        exact this
  · cases hd : ga.data with
    | nil => have := hwfa.2.2; rw [hd] at this; exact absurd this.symm hnea
    | cons d0 t =>
      obtain ⟨h1, h2, h3⟩ := foldl_std_max_spec (fun v : U => std_abs v) (d0 :: t)
        (std_abs d0)
      refine ⟨_, get_max_abs_cons _ d0 t hd, ?_, ?_⟩
      · have hmem : ∃ v ∈ ga.data,
            (d0 :: t).foldl (fun m v => std_max m (std_abs v)) (std_abs d0) = |v| := by
          rw [hd]
          rcases h3 with h3 | ⟨v, hv, h3⟩
          · exact ⟨d0, List.mem_cons_self _ _, by rw [h3, std_abs_eq_abs]⟩
          · exact ⟨v, hv, by rw [h3, std_abs_eq_abs]⟩
        obtain ⟨v, hv, hm⟩ := hmem
        obtain ⟨x, y, a, b, c, d, e⟩ := (mem_data_iff_cell ga hwfa v).mp hv
        exact ⟨x, y, v, a, b, c, d, e, hm⟩
      · intro x y v hx0 hxw hy0 hyh hv
        have hmem : v ∈ d0 :: t := by
          rw [← hd]
          exact (mem_data_iff_cell ga hwfa v).mpr ⟨x, y, hx0, hxw, hy0, hyh, hv⟩
        have := h2 v hmem
        rw [std_abs_eq_abs v] at this
        exact this

/-- Witness of C24 on the (2,2) grid with cells -3 1 / 2 -1: the extrema are -3 and 2,
those of the absolute values 1 and 3. -/
theorem extrema_are_extreme_witness :
    gridm22.wf ∧ gridm22.get_min = .ok (-3) ∧ gridm22.get_max = .ok 2 ∧
    gridm22.get_min_abs = .ok 1 ∧ gridm22.get_max_abs = .ok 3 ∧
    ∃ m : Int, gridm22.get_min = .ok m ∧
      ∀ (x y : Int) (v : Int), 0 ≤ x → x < gridm22.size.x → 0 ≤ y → y < gridm22.size.y →
        gridm22.at_get x y = .ok v → m ≤ v :=
  ⟨by decide, rfl, rfl, rfl, rfl,
    (extrema_are_extreme gridm22 (by decide) (by decide) gridm22 (by decide)
      (by decide)).1.imp (fun _ h => ⟨h.1, h.2.2⟩)⟩

/-- C24 as stated fails for the absolute values on `int`: on the (2,1) grid with cells
`INT_MIN` and 5, `std::abs(INT_MIN)` is `INT_MIN` again, so `get_min_abs()` returns
`-2147483648` and `get_max_abs()` returns 5, where the least and greatest absolute values
are 5 and 2147483648.  `get_min()` and `get_max()` are right on this grid. -/
theorem extrema_abs_int_min :
    gridint_min.wf ∧
    gridint_min.get_min_abs = .ok ⟨-2147483648⟩ ∧
    gridint_min.get_max_abs = .ok ⟨5⟩ ∧
    gridint_min.get_min = .ok ⟨-2147483648⟩ ∧
    gridint_min.get_max = .ok ⟨5⟩ :=
  ⟨by decide, rfl, rfl, rfl, rfl⟩

/-! ## smooth_upsampled of a constant grid -/

/-- Two grids of the same size, both with matching storage, that read the same value in
every in-range cell are equal. -/
theorem bivector_ext {T : Type} (a b : bivector T) (ha : a.wf) (hb : b.wf)
    (hsz : a.datasize = b.datasize)
    (hcells : ∀ x y : Int, 0 ≤ x → x < a.datasize.x → 0 ≤ y → y < a.datasize.y →
      a.at_get x y = b.at_get x y) : a = b := by
  obtain ⟨asz, ad⟩ := a
  obtain ⟨bsz, bd⟩ := b
  simp only at hsz hcells
  subst hsz
  have hla : (ad.length : Int) = asz.x * asz.y := ha.2.2
  have hlb : (bd.length : Int) = asz.x * asz.y := hb.2.2
  have hlen : ad.length = bd.length := by omega
  congr 1
  apply List.ext_getElem hlen
  intro n h1 h2
  have hn : (n : Int) < asz.x * asz.y := by rw [← hla]; exact_mod_cast h1
  obtain ⟨c1, c2, c3, c4, c5⟩ := cell_of_flat_index asz.x asz.y n ha.1 hn
  have := hcells _ _ c1 c2 c3 c4
  rw [at_get_eq_vec_get, at_get_eq_vec_get] at this
  dsimp only at this
  rw [if_neg (by omega), if_neg (by omega), c5,
    vec_get_eq_get ad n (Int.natCast_nonneg _) (by simpa using h1),
    vec_get_eq_get bd n (Int.natCast_nonneg _) (by simpa using h2)] at this
  injection this with this

/-- The reference value of the upsampled grid is symmetric under transposition: if `t`
has the transposed size of `g` and mirrors its cells, the reference values of `t` are
those of `g` with the coordinates exchanged. -/
theorem upsampled_val_transposed {T : Type} [Field T] [Inhabited T] (g t : bivector T)
    (hw : 1 ≤ g.datasize.x) (hh : 1 ≤ g.datasize.y)
    (htx : t.datasize.x = g.datasize.y) (hty : t.datasize.y = g.datasize.x)
    (hc : ∀ x y : Int, 0 ≤ x → x < g.datasize.x → 0 ≤ y → y < g.datasize.y →
      t.cell y x = g.cell x y)
    (x' y' : Int) (hx0 : 0 ≤ x') (hxw : x' < 2 * g.datasize.x) (hy0 : 0 ≤ y')
    (hyh : y' < 2 * g.datasize.y) : t.upsampled_val y' x' = g.upsampled_val x' y' := by
  have hmodw : ∀ k : Int, 0 ≤ k % g.datasize.x ∧ k % g.datasize.x < g.datasize.x :=
    fun k => ⟨Int.emod_nonneg _ (by omega), Int.emod_lt_of_pos _ (by omega)⟩
  have hmodh : ∀ k : Int, 0 ≤ k % g.datasize.y ∧ k % g.datasize.y < g.datasize.y :=
    fun k => ⟨Int.emod_nonneg _ (by omega), Int.emod_lt_of_pos _ (by omega)⟩
  have c00 := hc (x' / 2) (y' / 2) (by omega) (by omega) (by omega) (by omega)
  have c10 := hc ((x' / 2 + 1) % g.datasize.x) (y' / 2) (hmodw _).1 (hmodw _).2
    (by omega) (by omega)
  have c01 := hc (x' / 2) ((y' / 2 + 1) % g.datasize.y) (by omega) (by omega)
    (hmodh _).1 (hmodh _).2
  have c11 := hc ((x' / 2 + 1) % g.datasize.x) ((y' / 2 + 1) % g.datasize.y)
    (hmodw _).1 (hmodw _).2 (hmodh _).1 (hmodh _).2
  simp only [bivector.upsampled_val, bivector.upsampled_row, htx, hty, c00, c10, c01, c11]
  split_ifs <;> ring

/-- The transposed grid read through `at`: cell `(y,x)` of the result of `transposed` is
cell `(x,y)` of the source. -/
theorem transposed_at_get {T : Type} [Inhabited T] (g : bivector T) (hwf : g.wf)
    (hfit : g.datasize.x * g.datasize.y < 2 ^ 31) :
    ∃ t : bivector T, g.transposed = .ok t ∧ t.wf ∧
      t.datasize = ⟨g.datasize.y, g.datasize.x⟩ ∧
      ∀ x y : Int, 0 ≤ x → x < g.datasize.x → 0 ≤ y → y < g.datasize.y →
        t.at_get y x = g.at_get x y := by
  obtain ⟨d, hrun, hlen, hcells⟩ := transposed_cells g hwf hfit
  refine ⟨_, hrun, ⟨hwf.2.1, hwf.1, hlen⟩, rfl, ?_⟩
  intro x y hx0 hxw hy0 hyh
  rw [at_get_eq_vec_get, at_get_eq_vec_get]
  dsimp only
  rw [if_neg (by omega), if_neg (by omega), hcells x y hx0 hxw hy0 hyh]

/-- The two orders of upsampling and transposing give the same grid, whose cell `(y,x)`
holds the reference value of cell `(x,y)` of the upsampled source. -/
theorem upsampled_transposed_cells {T : Type} [Field T] [Inhabited T] (g : bivector T)
    (hwf : g.wf) (wrap : Bool) (hw : 1 ≤ g.datasize.x) (hh : 1 ≤ g.datasize.y)
    (hfit : (g.upsampled_size wrap).x * (g.upsampled_size wrap).y < 2 ^ 31) :
    ∃ t u r : bivector T, g.transposed = .ok t ∧ t.upsampled wrap = .ok r ∧
      g.upsampled wrap = .ok u ∧ u.transposed = .ok r ∧
      u.datasize = g.upsampled_size wrap ∧ r.datasize = ⟨u.datasize.y, u.datasize.x⟩ ∧
      ∀ x y : Int, 0 ≤ x → x < u.datasize.x → 0 ≤ y → y < u.datasize.y →
        u.at_get x y = .ok (g.upsampled_val x y) ∧
        r.at_get y x = .ok (g.upsampled_val x y) := by
  have hgx : g.datasize.x ≤ (g.upsampled_size wrap).x := by
    cases wrap <;> simp [bivector.upsampled_size] <;> omega
  have hgy : g.datasize.y ≤ (g.upsampled_size wrap).y ∧ 0 ≤ (g.upsampled_size wrap).x := by
    cases wrap <;> simp [bivector.upsampled_size] <;> omega
  have hsrc : g.datasize.x * g.datasize.y < 2 ^ 31 :=
    lt_of_le_of_lt (mul_le_mul hgx hgy.1 (by omega) hgy.2) hfit
  obtain ⟨t, ht, htwf, htsz, htc⟩ := transposed_at_get g hwf hsrc
  have htx : t.datasize.x = g.datasize.y := by rw [htsz]
  have hty : t.datasize.y = g.datasize.x := by rw [htsz]
  have htcell : ∀ x y : Int, 0 ≤ x → x < g.datasize.x → 0 ≤ y → y < g.datasize.y →
      t.cell y x = g.cell x y := by
    intro x y hx0 hxw hy0 hyh
    simp only [bivector.cell, htc x y hx0 hxw hy0 hyh]
  have hts : t.upsampled_size wrap =
      ⟨(g.upsampled_size wrap).y, (g.upsampled_size wrap).x⟩ := by
    cases wrap <;> simp [bivector.upsampled_size, htx, hty]
  obtain ⟨r, hr, hrsz, hrlen, hrc⟩ := upsampled_cells t htwf wrap (by omega) (by omega)
    (by rw [hts]; show (g.upsampled_size wrap).y * (g.upsampled_size wrap).x < 2 ^ 31
        rw [mul_comm]; exact hfit)
  obtain ⟨u, hu, husz, hulen, huc⟩ := upsampled_cells g hwf wrap hw hh hfit
  have hux : u.datasize.x = if wrap then 2 * g.datasize.x else 2 * g.datasize.x - 1 := by
    rw [husz]; cases wrap <;> simp [bivector.upsampled_size, mul_comm]
  have huy : u.datasize.y = if wrap then 2 * g.datasize.y else 2 * g.datasize.y - 1 := by
    rw [husz]; cases wrap <;> simp [bivector.upsampled_size, mul_comm]
  have hux' : 1 ≤ u.datasize.x ∧ u.datasize.x ≤ 2 * g.datasize.x := by
    rw [hux]; cases wrap <;> simp <;> omega
  have huy' : 1 ≤ u.datasize.y ∧ u.datasize.y ≤ 2 * g.datasize.y := by
    rw [huy]; cases wrap <;> simp <;> omega
  have hrsz' : r.datasize = ⟨u.datasize.y, u.datasize.x⟩ := by
    rw [hrsz, husz]
    cases wrap <;> simp [bivector.upsampled_size, htx, hty]
  have huwf : u.wf := ⟨by omega, by omega, by rw [husz]; exact hulen⟩
  have hrwf : r.wf := by
    refine ⟨by rw [hrsz']; show 0 ≤ u.datasize.y; omega,
      by rw [hrsz']; show 0 ≤ u.datasize.x; omega, by rw [hrsz]; exact hrlen⟩
  obtain ⟨r2, hr2, hr2wf, hr2sz, hr2c⟩ := transposed_at_get u huwf (by rw [husz]; exact hfit)
  have hU : ∀ x y : Int, 0 ≤ x → x < u.datasize.x → 0 ≤ y → y < u.datasize.y →
      u.at_get x y = .ok (g.upsampled_val x y) := by
    intro x y hx0 hxw hy0 hyh
    exact huc x y hx0 (by rw [← husz]; exact hxw) hy0 (by rw [← husz]; exact hyh) trivial
  have hR : ∀ x y : Int, 0 ≤ x → x < u.datasize.x → 0 ≤ y → y < u.datasize.y →
      r.at_get y x = .ok (g.upsampled_val x y) := by
    intro x y hx0 hxw hy0 hyh
    have hrx : r.datasize.x = u.datasize.y := by rw [hrsz']
    have hry : r.datasize.y = u.datasize.x := by rw [hrsz']
    rw [hrc y x hy0 (by rw [← hrsz, hrx]; exact hyh) hx0 (by rw [← hrsz, hry]; exact hxw)
      trivial]
    rw [upsampled_val_transposed g t hw hh htx hty htcell x y hx0 (by omega) hy0 (by omega)]
  have heq : r = r2 := by
    apply bivector_ext r r2 hrwf hr2wf (by rw [hrsz', hr2sz])
    intro a b ha0 haw hb0 hbh
    have hrx : r.datasize.x = u.datasize.y := by rw [hrsz']
    have hry : r.datasize.y = u.datasize.x := by rw [hrsz']
    rw [hR b a hb0 (by omega) ha0 (by omega), hr2c b a hb0 (by omega) ha0 (by omega),
      hU b a hb0 (by omega) ha0 (by omega)]
  refine ⟨t, u, r, ht, hr, hu, by rw [heq]; exact hr2, husz, hrsz', ?_⟩
  intro x y hx0 hxw hy0 hyh
  exact ⟨hU x y hx0 hxw hy0 hyh, hR x y hx0 hxw hy0 hyh⟩

/-- C28: upsampling commutes with transposition.  For a grid `g` of size `(w,h)` with
`w,h ≥ 1` satisfying the invariant, over a field, and either value of `wrap` (the element
count of the upsampled grid an `int`), the four calls succeed and `g.transposed().upsampled(wrap)` and `g.upsampled(wrap).transposed()`
are the same grid `r` (same size, same storage).  In particular every odd/odd cell
`(2x+1, 2y+1)` of `u = g.upsampled(wrap)` is the mean of its four surrounding source
samples `g.at(x,y)`, `g.at(x+1,y)`, `g.at(x,y+1)`, `g.at(x+1,y+1)`, the successor taken
modulo the dimension (which only matters in wrap mode), and `r` holds it at
`(2y+1, 2x+1)`. -/
theorem upsampled_commutes_with_transposed {T : Type} [Field T] [Inhabited T]
    (g : bivector T) (hwf : g.wf) (wrap : Bool) (hw : 1 ≤ g.size.x) (hh : 1 ≤ g.size.y)
    (hfit : (g.upsampled_size wrap).x * (g.upsampled_size wrap).y < 2 ^ 31) :
    ∃ t u r : bivector T, g.transposed = .ok t ∧ t.upsampled wrap = .ok r ∧
      g.upsampled wrap = .ok u ∧ u.transposed = .ok r ∧
      r.size = ⟨u.size.y, u.size.x⟩ ∧
      (∀ x y : Int, 0 ≤ x → 2 * x + 1 < u.size.x → 0 ≤ y → 2 * y + 1 < u.size.y →
        ∃ a b c d : T, g.at_get x y = .ok a ∧ g.at_get ((x + 1) % g.size.x) y = .ok b ∧
          g.at_get x ((y + 1) % g.size.y) = .ok c ∧
          g.at_get ((x + 1) % g.size.x) ((y + 1) % g.size.y) = .ok d ∧
          u.at_get (2 * x + 1) (2 * y + 1) = .ok ((a + b + c + d) / 4) ∧
          r.at_get (2 * y + 1) (2 * x + 1) = .ok ((a + b + c + d) / 4)) ∧
      (wrap = false →
        (∀ x : Int, 0 ≤ x → 2 * x + 1 < u.size.x → (x + 1) % g.size.x = x + 1) ∧
        (∀ y : Int, 0 ≤ y → 2 * y + 1 < u.size.y → (y + 1) % g.size.y = y + 1)) := by
  simp only [bivector.size] at hw hh ⊢
  obtain ⟨t, u, r, ht, hr, hu, hut, husz, hrsz, hcells⟩ :=
    upsampled_transposed_cells g hwf wrap hw hh hfit
  have hux : u.datasize.x = if wrap then 2 * g.datasize.x else 2 * g.datasize.x - 1 := by
    rw [husz]; cases wrap <;> simp [bivector.upsampled_size, mul_comm]
  have huy : u.datasize.y = if wrap then 2 * g.datasize.y else 2 * g.datasize.y - 1 := by
    rw [husz]; cases wrap <;> simp [bivector.upsampled_size, mul_comm]
  have hux' : u.datasize.x ≤ 2 * g.datasize.x := by
    rw [hux]; cases wrap <;> simp
  have huy' : u.datasize.y ≤ 2 * g.datasize.y := by
    rw [huy]; cases wrap <;> simp
  have hmodw : ∀ k : Int, 0 ≤ k % g.datasize.x ∧ k % g.datasize.x < g.datasize.x :=
    fun k => ⟨Int.emod_nonneg _ (by omega), Int.emod_lt_of_pos _ (by omega)⟩
  have hmodh : ∀ k : Int, 0 ≤ k % g.datasize.y ∧ k % g.datasize.y < g.datasize.y :=
    fun k => ⟨Int.emod_nonneg _ (by omega), Int.emod_lt_of_pos _ (by omega)⟩
  have hcell : ∀ x y : Int, 0 ≤ x → x < g.datasize.x → 0 ≤ y → y < g.datasize.y →
      g.at_get x y = .ok (g.cell x y) := fun x y a b c d => at_get_cell g hwf x y a b c d
  have h4 : (4 : T)⁻¹ = 2⁻¹ * 2⁻¹ := by rw [← mul_inv]; norm_num
  refine ⟨t, u, r, ht, hr, hu, hut, hrsz, ?_, ?_⟩
  · intro x y hx0 hxw hy0 hyh
    have hval : g.upsampled_val (2 * x + 1) (2 * y + 1) =
        (g.cell x y + g.cell ((x + 1) % g.datasize.x) y +
          g.cell x ((y + 1) % g.datasize.y) +
          g.cell ((x + 1) % g.datasize.x) ((y + 1) % g.datasize.y)) / 4 := by
      rw [upsampled_val_odd, upsampled_row_odd, upsampled_row_odd, div_eq_mul_inv, h4]
      ring
    obtain ⟨h1, h2⟩ := hcells (2 * x + 1) (2 * y + 1) (by omega) hxw (by omega) hyh
    rw [hval] at h1 h2
    exact ⟨_, _, _, _, hcell x y hx0 (by omega) hy0 (by omega),
      hcell _ y (hmodw _).1 (hmodw _).2 hy0 (by omega),
      hcell x _ hx0 (by omega) (hmodh _).1 (hmodh _).2,
      hcell _ _ (hmodw _).1 (hmodw _).2 (hmodh _).1 (hmodh _).2, h1, h2⟩
  · intro hwrap
    subst hwrap
    simp only [Bool.false_eq_true, if_false] at hux huy
    exact ⟨fun x hx0 hx => Int.emod_eq_of_lt (by omega) (by omega),
      fun y hy0 hy => Int.emod_eq_of_lt (by omega) (by omega)⟩

/-- Witness of C28 on the (3,2) grid over the rationals, in wrap mode. -/
theorem upsampled_commutes_with_transposed_witness :
    gridq32.wf ∧
    ∃ t u r : bivector ℚ, gridq32.transposed = .ok t ∧ t.upsampled true = .ok r ∧
      gridq32.upsampled true = .ok u ∧ u.transposed = .ok r ∧ r.size = ⟨u.size.y, u.size.x⟩ :=
  ⟨by decide,
    (upsampled_commutes_with_transposed gridq32 (by decide) true (by decide)
      (by decide) (by decide)).imp (fun _ h => h.imp (fun _ h => h.imp (fun _ h =>
        ⟨h.1, h.2.1, h.2.2.1, h.2.2.2.1, h.2.2.2.2.1⟩)))⟩
